import Mathlib

/-!
# clox: the mark-sweep collector and the call machinery of the VM

A shallow embedding of `memory.c` and of `vm.c`: the call, upvalue and
return paths, the method and property machinery, and the cases of `run` that
can end in a runtime error.

Conventions of the embedding.

* A pointer to a heap object is a natural number, `NULL` is `0`.
* The intrusive all-objects chain `vm.objects -> next -> ... -> NULL` is the
  list of its nodes in chain order; the chain of open upvalues is the list of
  the pointers met when following `next` from `vm.openUpvalues`.
* `vm.stack` and `vm.frames` are the contents of the two fixed arrays;
  `stackTop` and the `slots` of a frame are offsets from `vm.stack`.
* `size_t` is 64 bits wide; the two allocation counters are reduced modulo
  `2 ^ 64` wherever the C code computes them.
* `int` is 32 bits wide.  The capacity of the gray stack is stored as an `int`
  (`toInt32`); `concatenate`, an interpreter function, has no result where its
  `int` arithmetic overflows.
* The collector only ever reads memory; a pointer that designates no object of
  the chain is left alone by the marking functions (C gives no meaning to such
  a dereference).  The interpreter functions, which write to the arrays, return
  `none` where C gives no meaning to the access or to the use of a value.
* Numbers are kept as the bits of the `double`; the arithmetic on them is a
  parameter of the build (`Env`).
-/

namespace Clox

/-! ## Data model -/

/-- Address of a heap object; `0` is the null pointer. -/
abbrev Ptr := Nat

/-- The null pointer. -/
def NULL : Ptr := 0

/-- The constant `FRAMES_MAX` of `vm.h`. -/
def FRAMES_MAX : Nat := 64

/-- The constant `UINT8_COUNT` of `common.h`. -/
def UINT8_COUNT : Nat := 255 + 1

/-- The constant `STACK_MAX` of `vm.h`. -/
def STACK_MAX : Nat := FRAMES_MAX * UINT8_COUNT

/-- The constant `GC_HEAP_GROW_FACTOR` of `memory.c`. -/
def GC_HEAP_GROW_FACTOR : Nat := 2

/-- Number of values of `size_t`. -/
def SIZE_MOD : Nat := 2 ^ 64

/-- Tagged value: `number` carries the bit pattern of the double. -/
inductive Value where
  | nil
  | bool (b : Bool)
  | number (bits : Nat)
  | obj (p : Ptr)
  deriving DecidableEq, Inhabited

/-- The `ObjType` tag. -/
inductive ObjType where
  | OBJ_BOUND_METHOD
  | OBJ_CLASS
  | OBJ_CLOSURE
  | OBJ_FUNCTION
  | OBJ_INSTANCE
  | OBJ_NATIVE
  | OBJ_STRING
  | OBJ_UPVALUE
  deriving DecidableEq, Inhabited

/-- One key/value pair of a table; the key is an interned `ObjString *`. -/
structure Entry where
  key : Ptr
  value : Value
  deriving DecidableEq, Inhabited

/-- Modelled from the spec: `Table` (table.h and table.c are missing), a map
from interned-string keys to values, kept as the list of its live entries
together with the capacity of its entry array. -/
structure Table where
  entries : List Entry
  capacity : Nat
  deriving DecidableEq, Inhabited

/-- Modelled from the spec: `ValueArray` (value.h is missing), the constant
pool: its values and the capacity of the array. -/
structure ValueArray where
  values : List Value
  capacity : Nat
  deriving DecidableEq, Inhabited

/-- Modelled from the spec: `Chunk` (chunk.h is missing): bytecode, the
parallel line table, the capacity of both, and the constant pool. -/
structure Chunk where
  code : List Nat
  lines : List Nat
  capacity : Nat
  constants : ValueArray
  deriving DecidableEq, Inhabited

/-- Target of `ObjUpvalue.location`: a slot of `vm.stack`, or the `closed`
field of the upvalue object at the given address. -/
inductive Loc where
  | stack (slot : Int)
  | closedOf (upvalue : Ptr)
  deriving DecidableEq, Inhabited

/-- Variant part of a heap object (object.h is missing; the fields are the ones
`memory.c` and `vm.c` access).  The `next` link of an upvalue is carried by
the list `VM.openUpvalues`; `upvalueCount` of a closure is the length of
`upvalues`, `length` of a string the length of `chars`. -/
inductive ObjBody where
  | ObjBoundMethod (receiver : Value) (method : Ptr)
  | ObjClass (name : Ptr) (methods : Table)
  | ObjClosure (function : Ptr) (upvalues : List Ptr)
  | ObjFunction (arity : Int) (upvalueCount : Int) (chunk : Chunk) (name : Ptr)
  | ObjInstance (cls : Ptr) (fields : Table)
  | ObjNative (function : Nat)
  | ObjString (chars : List Nat) (hash : Nat)
  | ObjUpvalue (location : Loc) (closed : Value)
  deriving DecidableEq, Inhabited

/-- The `type` field of the header. -/
def ObjBody.type : ObjBody → ObjType
  | .ObjBoundMethod _ _ => .OBJ_BOUND_METHOD
  | .ObjClass _ _ => .OBJ_CLASS
  | .ObjClosure _ _ => .OBJ_CLOSURE
  | .ObjFunction _ _ _ _ => .OBJ_FUNCTION
  | .ObjInstance _ _ => .OBJ_INSTANCE
  | .ObjNative _ => .OBJ_NATIVE
  | .ObjString _ _ => .OBJ_STRING
  | .ObjUpvalue _ _ => .OBJ_UPVALUE

/-- A heap object: its address, the `isMarked` bit of the header and the
variant part.  The `next` link is the position in `VM.objects`. -/
structure Obj where
  addr : Ptr
  isMarked : Bool
  body : ObjBody
  deriving DecidableEq, Inhabited

/-- Pointer into the `chunk.code` array of the function object `function`. -/
structure CodePtr where
  function : Ptr
  offset : Int
  deriving DecidableEq, Inhabited

/-- The fields of `CallFrame` that the core uses (the handler fields are
declared in `vm.h` and never read or written). -/
structure CallFrame where
  closure : Ptr
  ip : CodePtr
  slots : Int
  deriving DecidableEq, Inhabited

/-- One argument of a `runtimeError` format. -/
inductive FmtArg where
  | int (i : Int)
  | str (chars : List Nat)
  deriving DecidableEq, Inhabited

/-- One message handed to `runtimeError`: the format string of the call site
and its arguments. -/
structure Diag where
  format : String
  args : List FmtArg
  deriving DecidableEq, Inhabited

/-- The global `vm`, with what the collector reads outside of it.

`grayStack` holds the live entries `grayStack[0 .. grayCount)`, bottom first,
so that `grayCount` is its length.  `compilerRoots` are the objects
`markCompilerRoots` marks, `stderr` the messages printed by `runtimeError`,
and `gcRuns` is a ghost counter of the collections run so far. -/
structure VM where
  frames : List CallFrame
  frameCount : Nat
  stack : List Value
  stackTop : Int
  globals : Table
  strings : Table
  initString : Ptr
  openUpvalues : List Ptr
  bytesAllocated : Nat
  nextGC : Nat
  objects : List Obj
  grayCapacity : Int
  grayStack : List Ptr
  compilerRoots : List Ptr
  stderr : List Diag
  gcRuns : Nat
  deriving DecidableEq, Inhabited

/-- The `grayCount` field. -/
def VM.grayCount (vm : VM) : Nat := vm.grayStack.length

/-- What the build leaves open: macros and sizes of the missing headers and
the host functions behind `ObjNative`. -/
structure Env where
  /-- The macro `GROW_CAPACITY` of memory.h, on the mathematical value of the
  capacity. -/
  GROW_CAPACITY : Int → Int
  /-- The size `sizeof` of the struct of each object type. -/
  sizeofObj : ObjType → Nat
  /-- The size `sizeof(ObjUpvalue *)`. -/
  sizeofPtr : Nat
  /-- The size `sizeof(Entry)`. -/
  sizeofEntry : Nat
  /-- The size `sizeof(Value)`. -/
  sizeofValue : Nat
  /-- The size `sizeof(int)`. -/
  sizeofInt : Nat
  /-- The host function of a native, applied to `argCount` and the arguments. -/
  native : Nat → Int → List Value → Value
  /-- The function `hashString` of object.c, on the bytes of a string. -/
  hashString : List Nat → Nat
  /-- The sum `a + b` of two doubles, on their bit patterns. -/
  numAdd : Nat → Nat → Nat
  /-- The difference `a - b` of two doubles. -/
  numSub : Nat → Nat → Nat
  /-- The product `a * b` of two doubles. -/
  numMul : Nat → Nat → Nat
  /-- The quotient `a / b` of two doubles. -/
  numDiv : Nat → Nat → Nat
  /-- The negation `-a` of a double. -/
  numNeg : Nat → Nat
  /-- The comparison `a < b` of two doubles. -/
  numLess : Nat → Nat → Bool
  /-- The comparison `a > b` of two doubles. -/
  numGreater : Nat → Nat → Bool
  /-- The text `snprintf` produces for the format `"[line %d] in %s()\n"` of
  `getStackTrace`, given the line and the bytes of the name. -/
  traceLine : Nat → List Nat → List Nat

/-- The object at address `p`: the first node of the chain with that address. -/
def VM.deref (vm : VM) (p : Ptr) : Option Obj :=
  vm.objects.find? (fun o => o.addr == p)

/-! ## memory.c -/

/-- First statement of `reallocate`: `vm.bytesAllocated += newSize - oldSize`
in `size_t` arithmetic. -/
def accountBytes (vm : VM) (oldSize newSize : Nat) : VM :=
  { vm with bytesAllocated :=
      Int.toNat (((vm.bytesAllocated : Int) + (newSize : Int) - (oldSize : Int)) % (SIZE_MOD : Int)) }

/-- The call `reallocate(pointer, oldSize, 0)` behind `FREE` and `FREE_ARRAY`:
with `newSize = 0` the test `newSize > oldSize` fails, so only the accounting
statement runs before the block is freed (see `reallocate_zero`). -/
def release (vm : VM) (oldSize : Nat) : VM :=
  accountBytes vm oldSize 0

/-- The assignment `object->isMarked = true` for the object at address `p`. -/
def setMarked (p : Ptr) (objects : List Obj) : List Obj :=
  objects.map (fun o => if o.addr = p then { o with isMarked := true } else o)

/-- The largest value of the type `int`. -/
def INT_MAX : Nat := 2147483647

/-- The value an `int` of 32 bits holds when the expression assigned to it has
the mathematical value `x`: `x` itself from `-2^31` to `INT_MAX`, and out of
that range, where the signed overflow has no defined result in C, the
wrap-around of two's complement. -/
def toInt32 (x : Int) : Int := (x + 2147483648) % 4294967296 - 2147483648

/-- The function `markObject`.  The fields `grayCount` and `grayCapacity`
are `int` (vm.h): the macro `GROW_CAPACITY` is evaluated on the capacity and
the result is stored as an `int`; `grayCount` is the length of the gray
stack.  The `realloc` of the array, and the `exit` when it fails, are outside
the model. -/
def markObject (env : Env) (vm : VM) (object : Ptr) : VM :=
  if object = NULL then vm
  else
    match vm.deref object with
    | none => vm
    | some o =>
      if o.isMarked then vm
      else
        { vm with
          objects := setMarked object vm.objects
          grayCapacity :=
            if vm.grayCapacity < (vm.grayCount : Int) + 1 then
              toInt32 (env.GROW_CAPACITY vm.grayCapacity)
            else vm.grayCapacity
          grayStack := vm.grayStack ++ [object] }

/-- The function `markValue`. -/
def markValue (env : Env) (vm : VM) (value : Value) : VM :=
  match value with
  | .obj p => markObject env vm p
  | _ => vm

/-- The function `markArray`. -/
def markArray (env : Env) (vm : VM) (array : ValueArray) : VM :=
  array.values.foldl (markValue env) vm

/-- Modelled from the spec: `markTable` (table.c is missing) marks every key
and every value of the table. -/
def markTable (env : Env) (vm : VM) (table : Table) : VM :=
  table.entries.foldl (fun v e => markValue env (markObject env v e.key) e.value) vm

/-- The function `blackenObject`. -/
def blackenObject (env : Env) (vm : VM) (object : Ptr) : VM :=
  match vm.deref object with
  | none => vm
  | some o =>
    match o.body with
    | .ObjBoundMethod receiver method =>
      markObject env (markValue env vm receiver) method
    | .ObjClass name methods =>
      markTable env (markObject env vm name) methods
    | .ObjClosure function upvalues =>
      upvalues.foldl (markObject env) (markObject env vm function)
    | .ObjFunction _ _ chunk name =>
      markArray env (markObject env vm name) chunk.constants
    | .ObjInstance cls fields =>
      markTable env (markObject env vm cls) fields
    | .ObjUpvalue _ closed => markValue env vm closed
    | .ObjNative _ => vm
    | .ObjString _ _ => vm

/-- Modelled from the spec: `freeTable` (table.c is missing) releases the entry
array of the table. -/
def freeTable (env : Env) (vm : VM) (table : Table) : VM :=
  release vm ((env.sizeofEntry * table.capacity) % SIZE_MOD)

/-- Modelled from the spec: `freeChunk` (chunk.c is missing) releases the code
array, the line array and the constant pool of the chunk. -/
def freeChunk (env : Env) (vm : VM) (chunk : Chunk) : VM :=
  let vm1 := release vm ((1 * chunk.capacity) % SIZE_MOD)
  let vm2 := release vm1 ((env.sizeofInt * chunk.capacity) % SIZE_MOD)
  release vm2 ((env.sizeofValue * chunk.constants.capacity) % SIZE_MOD)

/-- The function `freeObject`: what is left of it in the model is the accounting of the
blocks handed back through `FREE` and `FREE_ARRAY`. -/
def freeObject (env : Env) (vm : VM) (object : Obj) : VM :=
  match object.body with
  | .ObjBoundMethod _ _ => release vm (env.sizeofObj .OBJ_BOUND_METHOD)
  | .ObjClass _ methods =>
    release (freeTable env vm methods) (env.sizeofObj .OBJ_CLASS)
  | .ObjClosure _ upvalues =>
    release (release vm ((env.sizeofPtr * upvalues.length) % SIZE_MOD))
      (env.sizeofObj .OBJ_CLOSURE)
  | .ObjFunction _ _ chunk _ =>
    release (freeChunk env vm chunk) (env.sizeofObj .OBJ_FUNCTION)
  | .ObjInstance _ fields =>
    release (freeTable env vm fields) (env.sizeofObj .OBJ_INSTANCE)
  | .ObjNative _ => release vm (env.sizeofObj .OBJ_NATIVE)
  | .ObjString chars _ =>
    release (release vm ((1 * (chars.length + 1)) % SIZE_MOD))
      (env.sizeofObj .OBJ_STRING)
  | .ObjUpvalue _ _ => release vm (env.sizeofObj .OBJ_UPVALUE)

/-- Modelled from the spec: `markCompilerRoots` (compiler.c is missing) marks
the functions of the compiler in progress. -/
def markCompilerRoots (env : Env) (vm : VM) : VM :=
  vm.compilerRoots.foldl (markObject env) vm

/-- The function `markRoots`. -/
def markRoots (env : Env) (vm : VM) : VM :=
  let vm1 := (vm.stack.take vm.stackTop.toNat).foldl (markValue env) vm
  let vm2 := ((vm1.frames.take vm1.frameCount).map (fun f => f.closure)).foldl
    (markObject env) vm1
  let vm3 := vm2.openUpvalues.foldl (markObject env) vm2
  let vm4 := markTable env vm3 vm3.globals
  let vm5 := markCompilerRoots env vm4
  markObject env vm5 vm5.initString

/-- The loop of `traceReferences`, run for at most `fuel` iterations. -/
def traceLoop (env : Env) : Nat → VM → VM
  | 0, vm => vm
  | fuel + 1, vm =>
    match vm.grayStack.getLast? with
    | none => vm
    | some object =>
      traceLoop env fuel (blackenObject env { vm with grayStack := vm.grayStack.dropLast } object)

/-- The function `traceReferences`.  Every iteration pops one entry and pushes only objects
it has just marked, so `2 * (number of objects) + grayCount` iterations are
enough (`traceReferences_grayCount` shows the loop has ended). -/
def traceReferences (env : Env) (vm : VM) : VM :=
  traceLoop env (2 * vm.objects.length + vm.grayCount) vm

/-- Modelled from the spec: `tableRemoveWhite` (table.c is missing) drops from
the table every entry whose key object was not marked. -/
def tableRemoveWhite (vm : VM) (table : Table) : Table :=
  { table with entries := table.entries.filter (fun e =>
      match vm.deref e.key with
      | some o => o.isMarked
      | none => false) }

/-- The loop of `sweep` over the chain: the nodes that stay, mark bit cleared,
and the VM after the `freeObject` calls. -/
def sweepLoop (env : Env) : List Obj → VM → List Obj × VM
  | [], vm => ([], vm)
  | object :: rest, vm =>
    if object.isMarked then
      let r := sweepLoop env rest vm
      ({ object with isMarked := false } :: r.1, r.2)
    else
      sweepLoop env rest (freeObject env vm object)

/-- The function `sweep`. -/
def sweep (env : Env) (vm : VM) : VM :=
  let r := sweepLoop env vm.objects vm
  { r.2 with objects := r.1 }

/-- The function `collectGarbage`. -/
def collectGarbage (env : Env) (vm : VM) : VM :=
  let vm1 := markRoots env vm
  let vm2 := traceReferences env vm1
  let vm3 := { vm2 with strings := tableRemoveWhite vm2 vm2.strings }
  let vm4 := sweep env vm3
  { vm4 with
    nextGC := (vm4.bytesAllocated * GC_HEAP_GROW_FACTOR) % SIZE_MOD
    gcRuns := vm4.gcRuns + 1 }

/-- The function `reallocate` (built without `DEBUG_STRESS_GC`), as far as the VM state
goes: the accounting and the collection; the block itself is outside the
model. -/
def reallocate (env : Env) (vm : VM) (oldSize newSize : Nat) : VM :=
  let vm1 := accountBytes vm oldSize newSize
  if newSize > oldSize then
    if vm1.bytesAllocated > vm1.nextGC then collectGarbage env vm1 else vm1
  else vm1

/-! ## object.c and table.c, as far as vm.c calls them -/

/-- Modelled from the spec: `tableGet` (table.c is missing) looks the key up
by pointer identity and yields the value of its entry, if there is one. -/
def tableGet (table : Table) (key : Ptr) : Option Value :=
  (table.entries.find? (fun e => e.key == key)).map (fun e => e.value)

/-- An address no node of the chain has, and not `NULL`: the block `realloc`
hands out for a new object. -/
def freshAddr (vm : VM) : Ptr :=
  (vm.objects.map (fun o => o.addr)).foldl max 0 + 1

/-- Modelled from the spec: `allocateObject` (object.c is missing) obtains the
block through `reallocate(NULL, 0, size)`, clears the mark bit and links the
object at the head of the chain. -/
def allocateObject (env : Env) (vm : VM) (size : Nat) (body : ObjBody) : Ptr × VM :=
  let vm1 := reallocate env vm 0 size
  let p := freshAddr vm1
  (p, { vm1 with objects := { addr := p, isMarked := false, body := body } :: vm1.objects })

/-- Modelled from the spec: `newInstance` (object.c is missing) allocates an
instance of the class with an empty field table. -/
def newInstance (env : Env) (vm : VM) (cls : Ptr) : Ptr × VM :=
  allocateObject env vm (env.sizeofObj .OBJ_INSTANCE) (.ObjInstance cls { entries := [], capacity := 0 })

/-- Modelled from the spec: `newUpvalue` (object.c is missing) allocates an
open upvalue for the stack slot. -/
def newUpvalue (env : Env) (vm : VM) (slot : Int) : Ptr × VM :=
  allocateObject env vm (env.sizeofObj .OBJ_UPVALUE) (.ObjUpvalue (.stack slot) .nil)

/-- The field `AS_CLOSURE(p)->function` and the upvalue array. -/
def VM.closureAt (vm : VM) (p : Ptr) : Option (Ptr × List Ptr) :=
  match vm.deref p with
  | some o =>
    match o.body with
    | .ObjClosure function upvalues => some (function, upvalues)
    | _ => none
  | none => none

/-- The `arity` field of the function object at `p`. -/
def VM.arityAt (vm : VM) (p : Ptr) : Option Int :=
  match vm.deref p with
  | some o =>
    match o.body with
    | .ObjFunction arity _ _ _ => some arity
    | _ => none
  | none => none

/-- The `location` field of the upvalue object at `p`. -/
def VM.locationAt (vm : VM) (p : Ptr) : Option Loc :=
  match vm.deref p with
  | some o =>
    match o.body with
    | .ObjUpvalue location _ => some location
    | _ => none
  | none => none

/-! ## vm.c -/

/-- The enum `InterpretResult` of vm.h. -/
inductive InterpretResult where
  | INTERPRET_OK
  | INTERPRET_COMPILE_ERROR
  | INTERPRET_RUNTIME_ERROR
  deriving DecidableEq, Inhabited

/-- How one case of the dispatch loop of `run` ends: `break` (the loop goes on
with the next instruction) or `return` with a result. -/
inductive Flow where
  | next
  | ret (result : InterpretResult)
  deriving DecidableEq, Inhabited

/-- The function `resetStack`. -/
def resetStack (vm : VM) : VM :=
  { vm with stackTop := 0, frameCount := 0, openUpvalues := [] }

/-- The function `runtimeError`: the formatted message goes to stderr, then the stacks are
reset.  The `[line ..] in ..` lines printed in between are left out. -/
def runtimeError (vm : VM) (format : String) (args : List FmtArg) : VM :=
  resetStack { vm with stderr := vm.stderr ++ [{ format := format, args := args }] }

/-- Read of `vm.stack[i]`. -/
def readSlot (vm : VM) (i : Int) : Option Value :=
  if 0 ≤ i ∧ i < vm.stack.length then vm.stack.get? i.toNat else none

/-- Write of `vm.stack[i]`. -/
def writeSlot (vm : VM) (i : Int) (value : Value) : Option VM :=
  if 0 ≤ i ∧ i < vm.stack.length then
    some { vm with stack := vm.stack.set i.toNat value }
  else none

/-- The function `push`. -/
def push (vm : VM) (value : Value) : Option VM :=
  match writeSlot vm vm.stackTop value with
  | some vm1 => some { vm1 with stackTop := vm1.stackTop + 1 }
  | none => none

/-- The function `pop`. -/
def pop (vm : VM) : Option (Value × VM) :=
  let vm1 := { vm with stackTop := vm.stackTop - 1 }
  match readSlot vm1 vm1.stackTop with
  | some value => some (value, vm1)
  | none => none

/-- The function `peek`. -/
def peek (vm : VM) (distance : Int) : Option Value :=
  readSlot vm (vm.stackTop - 1 - distance)

/-- The function `call`. -/
def call (vm : VM) (closure : Ptr) (argCount : Int) : Option (Bool × VM) :=
  match vm.closureAt closure with
  | none => none
  | some (function, _) =>
    match vm.arityAt function with
    | none => none
    | some arity =>
      if argCount ≠ arity then
        some (false, runtimeError vm "Expected %d arguments but got %d." [.int arity, .int argCount])
      else if vm.frameCount = FRAMES_MAX then
        some (false, runtimeError vm "Stack overflow." [])
      else if vm.frameCount < vm.frames.length then
        some (true,
          { vm with
            frames := vm.frames.set vm.frameCount
              { closure := closure
                ip := { function := function, offset := 0 }
                slots := vm.stackTop - argCount - 1 }
            frameCount := vm.frameCount + 1 })
      else none

/-- The function `callValue`. -/
def callValue (env : Env) (vm : VM) (callee : Value) (argCount : Int) : Option (Bool × VM) :=
  match callee with
  | .obj p =>
    match vm.deref p with
    | none => none
    | some o =>
      match o.body with
      | .ObjBoundMethod receiver method =>
        match writeSlot vm (vm.stackTop - argCount - 1) receiver with
        | none => none
        | some vm1 => call vm1 method argCount
      | .ObjClass _ _ =>
        let r := newInstance env vm p
        match writeSlot r.2 (r.2.stackTop - argCount - 1) (.obj r.1) with
        | none => none
        | some vm1 =>
          match vm1.deref p with
          | some { body := .ObjClass _ methods, .. } =>
            match tableGet methods vm1.initString with
            | some (.obj initializer) => call vm1 initializer argCount
            | some _ => none
            | none =>
              if argCount ≠ 0 then
                some (false, runtimeError vm1 "Expected 0 arguments but got %d." [.int argCount])
              else some (true, vm1)
          | _ => none
      | .ObjClosure _ _ => call vm p argCount
      | .ObjNative function =>
        let args := (vm.stack.drop (vm.stackTop - argCount).toNat).take argCount.toNat
        let result := env.native function argCount args
        match push { vm with stackTop := vm.stackTop - (argCount + 1) } result with
        | some vm1 => some (true, vm1)
        | none => none
      | _ => some (false, runtimeError vm "Can only call functions and classes." [])
  | _ => some (false, runtimeError vm "Can only call functions and classes." [])

/-- The two assignments of the body of the loop of `closeUpvalues` on the
upvalue object at `u`: `closed` takes the value of the slot and `location`
points to `closed`. -/
def hoist (u : Ptr) (value : Value) (objects : List Obj) : List Obj :=
  objects.map (fun o =>
    if o.addr = u then { o with body := .ObjUpvalue (.closedOf u) value } else o)

/-- The loop of `closeUpvalues` along the chain of open upvalues.  The test
`location >= last` compares two pointers into `vm.stack`. -/
def closeLoop (last : Int) : List Ptr → VM → Option VM
  | [], vm => some { vm with openUpvalues := [] }
  | u :: rest, vm =>
    match vm.locationAt u with
    | some (.stack i) =>
      if i ≥ last then
        match readSlot vm i with
        | some value =>
          closeLoop last rest { vm with objects := hoist u value vm.objects, openUpvalues := rest }
        | none => none
      else some { vm with openUpvalues := u :: rest }
    | _ => none

/-- The function `closeUpvalues`. -/
def closeUpvalues (vm : VM) (last : Int) : Option VM :=
  closeLoop last vm.openUpvalues vm

/-- The walk of `captureUpvalue` down the chain: the upvalues passed
(`location > local`) and the rest of the chain, whose head is `upvalue` when
the loop ends. -/
def captureWalk (vm : VM) (slot : Int) : List Ptr → Option (List Ptr × List Ptr)
  | [] => some ([], [])
  | u :: rest =>
    match vm.locationAt u with
    | some (.stack i) =>
      if i > slot then
        match captureWalk vm slot rest with
        | some r => some (u :: r.1, r.2)
        | none => none
      else some ([], u :: rest)
    | _ => none

/-- The tail of `captureUpvalue` after the search has missed: a new upvalue is
created and linked between the upvalues passed and the rest of the chain. -/
def linkUpvalue (env : Env) (vm : VM) (slot : Int) (passed rest : List Ptr) : Ptr × VM :=
  let r := newUpvalue env vm slot
  (r.1, { r.2 with openUpvalues := passed ++ r.1 :: rest })

/-- The function `captureUpvalue`. -/
def captureUpvalue (env : Env) (vm : VM) (slot : Int) : Option (Ptr × VM) :=
  match captureWalk vm slot vm.openUpvalues with
  | none => none
  | some (passed, rest) =>
    match rest with
    | [] => some (linkUpvalue env vm slot passed rest)
    | u :: _ =>
      if vm.locationAt u = some (.stack slot) then some (u, vm)
      else some (linkUpvalue env vm slot passed rest)

/-- The case `OP_RETURN` of `run`; `frame` is `&vm.frames[vm.frameCount - 1]`. -/
def opReturn (vm : VM) : Option (Flow × VM) :=
  if vm.frameCount = 0 then none
  else
    match vm.frames.get? (vm.frameCount - 1) with
    | none => none
    | some frame =>
      match pop vm with
      | none => none
      | some (result, vm1) =>
        match closeUpvalues vm1 frame.slots with
        | none => none
        | some vm2 =>
          let vm3 := { vm2 with frameCount := vm2.frameCount - 1 }
          if vm3.frameCount = 0 then
            match pop vm3 with
            | some (_, vm4) => some (.ret .INTERPRET_OK, vm4)
            | none => none
          else
            match push { vm3 with stackTop := frame.slots } result with
            | some vm4 => some (.next, vm4)
            | none => none

/-! ## Vocabulary of the statements -/

/-- The object a value refers to, if it is of kind `obj`. -/
def valueRefs : Value → List Ptr
  | .obj p => [p]
  | _ => []

/-- Keys and values of a table, as object pointers. -/
def tableRefs (table : Table) : List Ptr :=
  table.entries.flatMap (fun e => e.key :: valueRefs e.value)

/-- Outgoing references of an object, per variant. -/
def outRefs : ObjBody → List Ptr
  | .ObjBoundMethod receiver method => valueRefs receiver ++ [method]
  | .ObjClass name methods => name :: tableRefs methods
  | .ObjClosure function upvalues => function :: upvalues
  | .ObjFunction _ _ chunk name => name :: chunk.constants.values.flatMap valueRefs
  | .ObjInstance cls fields => cls :: tableRefs fields
  | .ObjUpvalue _ closed => valueRefs closed
  | .ObjNative _ => []
  | .ObjString _ _ => []

/-- The root set: operand stack below `stackTop`, closures of the active
frames, open upvalues, globals, compiler roots and `initString`. -/
def rootRefs (vm : VM) : List Ptr :=
  (vm.stack.take vm.stackTop.toNat).flatMap valueRefs
    ++ (vm.frames.take vm.frameCount).map (fun f => f.closure)
    ++ vm.openUpvalues
    ++ tableRefs vm.globals
    ++ vm.compilerRoots
    ++ [vm.initString]

/-- Reachability from the root set through outgoing references of objects of
the chain; null pointers lead nowhere. -/
inductive Reachable (vm : VM) : Ptr → Prop where
  | root {p : Ptr} : p ∈ rootRefs vm → p ≠ NULL → Reachable vm p
  | step {p q : Ptr} {o : Obj} :
      Reachable vm p → vm.deref p = some o → q ∈ outRefs o.body → q ≠ NULL → Reachable vm q

/-- The object with its mark bit cleared. -/
def unmark (o : Obj) : Obj := { o with isMarked := false }

/-- All mark bits are clear and the gray worklist is empty. -/
def Clean (vm : VM) : Prop :=
  (∀ o ∈ vm.objects, o.isMarked = false) ∧ vm.grayCount = 0

/-- The pointer is null, designates no object, or designates a marked object. -/
def Closed (vm : VM) (q : Ptr) : Prop :=
  q = NULL ∨ ∀ o, vm.deref q = some o → o.isMarked = true

/-- Relation between two states of one mark phase: only mark bits, gray stack
and gray capacity differ, and marks are only ever added. -/
structure Grows (vm vm' : VM) : Prop where
  outside : vm' = { vm with
    objects := vm'.objects, grayStack := vm'.grayStack, grayCapacity := vm'.grayCapacity }
  shape : vm'.objects.map unmark = vm.objects.map unmark
  mono : ∀ q, Closed vm q → Closed vm' q

/-- Invariant of the mark phase started in the clean state `vm0`: marked
objects are reachable, gray entries are reachable, copies of one address carry
the same mark, and every marked object that is neither gray nor listed in `X`
has all its outgoing references closed. -/
structure MarkInv (vm0 vm : VM) (X : List Ptr) : Prop where
  grows : Grows vm0 vm
  sound : ∀ o ∈ vm.objects, o.isMarked = true → Reachable vm0 o.addr
  gray : ∀ p ∈ vm.grayStack, Reachable vm0 p
  uniform : ∀ o ∈ vm.objects, ∀ o' ∈ vm.objects, o.addr = o'.addr → o.isMarked = o'.isMarked
  black : ∀ p o, vm.deref p = some o → o.isMarked = true → p ∉ vm.grayStack → p ∉ X →
    ∀ q ∈ outRefs o.body, Closed vm q

/-- Measure of the work left in the mark phase. -/
def markMeasure (vm : VM) : Nat :=
  2 * vm.objects.countP (fun o => !o.isMarked) + vm.grayStack.length

/-- The states in which `collectGarbage` can be entered: the states reached
from the one `initVM` leaves (no object, `grayCount = 0`) through the
operations that write a mark bit, the chain of objects or the gray stack, and
through the other steps of the interpreter and the compiler.  The field
`isMarked` is written by `markObject` and by `sweep` only (memory.c), both
inside `collectGarbage`, which is called by `reallocate` only and is not
entered again before it has returned; `allocateObject` links a new object with
the mark bit clear; every other step writes fields of the VM and of objects
other than these. -/
inductive GcReach (env : Env) : VM → Prop where
  | initVM {vm : VM} : vm.objects = [] → vm.grayStack = [] → GcReach env vm
  | reallocate {vm : VM} {oldSize newSize : Nat} :
      GcReach env vm → GcReach env (Clox.reallocate env vm oldSize newSize)
  | collectGarbage {vm : VM} : GcReach env vm → GcReach env (Clox.collectGarbage env vm)
  | allocateObject {vm : VM} {size : Nat} {body : ObjBody} :
      GcReach env vm → GcReach env (Clox.allocateObject env vm size body).2
  | mutator {vm vm' : VM} :
      GcReach env vm →
        vm'.objects.map (fun o => o.isMarked) = vm.objects.map (fun o => o.isMarked) →
        vm'.grayStack = vm.grayStack → GcReach env vm'

/-! ## Sample states -/

/-- A build: `GROW_CAPACITY` as in the book, sizes of a 64-bit target,
natives that return `nil`, and stand-ins for the host arithmetic and text
functions that treat the payload of a number as a natural number. -/
def sampleEnv : Env :=
  { GROW_CAPACITY := fun c => if c < 8 then 8 else c * 2
    sizeofObj := fun _ => 40
    sizeofPtr := 8
    sizeofEntry := 24
    sizeofValue := 16
    sizeofInt := 4
    native := fun _ _ _ => .nil
    hashString := fun chars => chars.foldl (fun h c => (h * 31 + c) % 4294967296) 7
    numAdd := fun a b => a + b
    numSub := fun a b => a - b
    numMul := fun a b => a * b
    numDiv := fun a b => a / b
    numNeg := fun a => a
    numLess := fun a b => decide (a < b)
    numGreater := fun a b => decide (a > b)
    traceLine := fun line name => [91, line] ++ name ++ [10] }

/-- An empty table. -/
def emptyTable : Table := { entries := [], capacity := 0 }

/-- A state with nothing allocated and both stacks empty. -/
def emptyVM : VM :=
  { frames := List.replicate FRAMES_MAX default
    frameCount := 0
    stack := List.replicate 8 .nil
    stackTop := 0
    globals := emptyTable
    strings := emptyTable
    initString := NULL
    openUpvalues := []
    bytesAllocated := 0
    nextGC := 1024 * 1024
    objects := []
    grayCapacity := 0
    grayStack := []
    compilerRoots := []
    stderr := []
    gcRuns := 0 }

/-- The chunk of the sample function: one constant, the string at address 4. -/
def sampleChunk : Chunk :=
  { code := [0, 0, 32], lines := [1, 1, 1], capacity := 8
    constants := { values := [.obj 4], capacity := 8 } }

/-- A clean heap: the closure at 3 is on the stack and runs in frame 0, its
function at 2 has the name at 1 and the constant at 4; the string at 5 is
garbage. -/
def sampleHeap : List Obj :=
  [ { addr := 5, isMarked := false, body := .ObjString [120] 7 }
  , { addr := 4, isMarked := false, body := .ObjString [104, 105] 9 }
  , { addr := 3, isMarked := false, body := .ObjClosure 2 [] }
  , { addr := 2, isMarked := false, body := .ObjFunction 0 0 sampleChunk 1 }
  , { addr := 1, isMarked := false, body := .ObjString [102] 3 } ]

/-- A clean state over `sampleHeap` with one active frame. -/
def sampleVM : VM :=
  { emptyVM with
    frames := (List.replicate FRAMES_MAX default).set 0
      { closure := 3, ip := { function := 2, offset := 0 }, slots := 0 }
    frameCount := 1
    stack := [.obj 3, .nil, .nil, .nil, .nil, .nil, .nil, .nil]
    stackTop := 1
    bytesAllocated := 300
    objects := sampleHeap }

/-- The sample state before the first call: no active frame. -/
def idleVM : VM :=
  { sampleVM with frameCount := 0 }

/-- The sample state with a bound method at address 6, receiver the string at
4 and method the closure at 3, placed in stack slot 1 as the callee of a call
without arguments. -/
def boundVM : VM :=
  { sampleVM with
    stack := [.obj 3, .obj 6, .nil, .nil, .nil, .nil, .nil, .nil]
    stackTop := 2
    objects := { addr := 6, isMarked := false, body := .ObjBoundMethod (.obj 4) 3 } :: sampleHeap }

/-- The sample state after `call` of the closure at 3 without arguments. -/
def sampleCalled : VM :=
  { sampleVM with
    frames := sampleVM.frames.set 1
      { closure := 3, ip := { function := 2, offset := 0 }, slots := 0 }
    frameCount := 2 }

/-- The state `boundVM` after `callValue` of the bound method at 6. -/
def boundCalled : VM :=
  { boundVM with
    stack := [.obj 3, .obj 4, .nil, .nil, .nil, .nil, .nil, .nil]
    frames := boundVM.frames.set 1
      { closure := 3, ip := { function := 2, offset := 0 }, slots := 1 }
    frameCount := 2 }

/-- Two open upvalues, at 11 on stack slot 3 and at 12 on stack slot 1, and a
second frame whose window starts at slot 2. -/
def upvalueHeap : List Obj :=
  { addr := 11, isMarked := false, body := .ObjUpvalue (.stack 3) .nil }
    :: { addr := 12, isMarked := false, body := .ObjUpvalue (.stack 1) .nil }
    :: sampleHeap

/-- A state in the middle of a call: frame 1 has its window at slot 2, the
value to return is on top of the stack, and the chain of open upvalues is in
descending order of slots. -/
def returningVM : VM :=
  { sampleVM with
    frames := ((List.replicate FRAMES_MAX default).set 0
      { closure := 3, ip := { function := 2, offset := 0 }, slots := 0 }).set 1
      { closure := 3, ip := { function := 2, offset := 1 }, slots := 2 }
    frameCount := 2
    stack := [.obj 3, .number 10, .obj 3, .number 30, .number 40, .nil, .nil, .nil]
    stackTop := 5
    openUpvalues := [11, 12]
    objects := upvalueHeap }

/-- The state `returningVM` after `closeUpvalues` from slot 2: the upvalue at
11 holds the value of slot 3 and has left the chain. -/
def closedVM : VM :=
  { returningVM with
    openUpvalues := [12]
    objects :=
      { addr := 11, isMarked := false, body := .ObjUpvalue (.closedOf 11) (.number 30) }
        :: { addr := 12, isMarked := false, body := .ObjUpvalue (.stack 1) .nil }
        :: sampleHeap }

/-- The state that the interpreter reaches from the reset sample state through
`push`, `call` and `captureUpvalue`: the script closure is called, its local
in slot 1 is captured (upvalue at 6), the closure in slot 2 is called, its
local in slot 3 is captured (upvalue at 7), and the value to return is on top
of the stack. -/
def nestedVM : VM :=
  { sampleVM with
    frames := sampleVM.frames.set 1
      { closure := 3, ip := { function := 2, offset := 0 }, slots := 2 }
    frameCount := 2
    stack := [.obj 3, .number 10, .obj 3, .number 30, .number 40, .nil, .nil, .nil]
    stackTop := 5
    openUpvalues := [7, 6]
    bytesAllocated := 380
    objects :=
      { addr := 7, isMarked := false, body := .ObjUpvalue (.stack 3) .nil }
        :: { addr := 6, isMarked := false, body := .ObjUpvalue (.stack 1) .nil }
        :: sampleHeap }

/-- The sample state about to return from the script: one frame, the script
closure and the value to return on the stack. -/
def finishingVM : VM :=
  { sampleVM with
    stack := [.obj 3, .number 40, .nil, .nil, .nil, .nil, .nil, .nil]
    stackTop := 2 }

/-- The state that five allocations leave, started in the empty state: the
objects of `sampleHeap` in the order of their addresses. -/
def allocatedVM : VM :=
  (allocateObject sampleEnv
    (allocateObject sampleEnv
      (allocateObject sampleEnv
        (allocateObject sampleEnv
          (allocateObject sampleEnv emptyVM 40 (.ObjString [102] 3)).2
          40 (.ObjFunction 0 0 sampleChunk 1)).2
        40 (.ObjClosure 2 [])).2
      40 (.ObjString [104, 105] 9)).2
    40 (.ObjString [120] 7)).2

/-- A state without objects whose byte counter is `2 ^ 63`. -/
def hugeVM : VM :=
  { emptyVM with bytesAllocated := 2 ^ 63 }

/-! ## Vocabulary of the statements on calls and upvalues -/

/-- The open upvalues of the list point, in order, to the stack slots
`slots`. -/
def OpenAt (vm : VM) (upvalues : List Ptr) (slots : List Int) : Prop :=
  List.Forall₂ (fun u i => vm.locationAt u = some (.stack i)) upvalues slots

/-- Whether the upvalue at `u` is open on a stack slot below `last`. -/
def VM.below (vm : VM) (last : Int) (u : Ptr) : Bool :=
  match vm.locationAt u with
  | some (.stack i) => decide (i < last)
  | _ => false

/-- The frame count is within the frame array, which has `FRAMES_MAX`
entries. -/
def FrameOK (vm : VM) : Prop :=
  vm.frameCount ≤ FRAMES_MAX ∧ vm.frames.length = FRAMES_MAX

/-- The stack pointer lies within the stack array, and the open upvalues are
non-null objects open on slots of the array, in strictly descending order of
slots. -/
structure OpenOK (vm : VM) : Prop where
  top : 0 ≤ vm.stackTop ∧ vm.stackTop ≤ vm.stack.length
  sorted : ∃ slots : List Int, OpenAt vm vm.openUpvalues slots ∧
    slots.Pairwise (fun a b => a > b) ∧ ∀ i ∈ slots, 0 ≤ i ∧ i < vm.stack.length
  nonnull : ∀ u ∈ vm.openUpvalues, u ≠ NULL

/-- The states the interpreter reaches, as far as the stack pointer and the
chain of open upvalues go.  The field `vm.openUpvalues` is written by
`resetStack`, `captureUpvalue` and `closeUpvalues` only, the field `location`
of an upvalue by `newUpvalue` (called by `captureUpvalue`) and by
`closeUpvalues` only, and `vm.stackTop` by `resetStack`, `push`, `pop`,
`callValue` and the case `OP_RETURN` only (vm.c); `resetStack` is what
`initVM` and `runtimeError` end with.  The local that `captureUpvalue` is
called on is a slot of the stack array.  Every other step leaves the stack
pointer, the chain and the locations of its upvalues as they are. -/
inductive StackReach (env : Env) : VM → Prop where
  | resetStack {vm : VM} : vm.stackTop = 0 → vm.openUpvalues = [] → StackReach env vm
  | push {vm vm' : VM} {value : Value} :
      StackReach env vm → Clox.push vm value = some vm' → StackReach env vm'
  | pop {vm vm' : VM} {value : Value} :
      StackReach env vm → Clox.pop vm = some (value, vm') → StackReach env vm'
  | call {vm vm' : VM} {closure : Ptr} {argCount : Int} {b : Bool} :
      StackReach env vm → Clox.call vm closure argCount = some (b, vm') → StackReach env vm'
  | callValue {vm vm' : VM} {callee : Value} {argCount : Int} {b : Bool} :
      StackReach env vm → Clox.callValue env vm callee argCount = some (b, vm') →
        StackReach env vm'
  | opReturn {vm vm' : VM} {f : Flow} :
      StackReach env vm → Clox.opReturn vm = some (f, vm') → StackReach env vm'
  | closeUpvalues {vm vm' : VM} {last : Int} :
      StackReach env vm → Clox.closeUpvalues vm last = some vm' → StackReach env vm'
  | captureUpvalue {vm vm' : VM} {slot : Int} {u : Ptr} :
      StackReach env vm → 0 ≤ slot → slot < vm.stack.length →
        Clox.captureUpvalue env vm slot = some (u, vm') → StackReach env vm'
  | reallocate {vm : VM} {oldSize newSize : Nat} :
      StackReach env vm → StackReach env (Clox.reallocate env vm oldSize newSize)
  | other {vm vm' : VM} :
      StackReach env vm → vm'.stackTop = vm.stackTop → vm'.stack.length = vm.stack.length →
        vm'.openUpvalues = vm.openUpvalues →
        (∀ u ∈ vm.openUpvalues, vm'.locationAt u = vm.locationAt u) → StackReach env vm'

/-! ## table.c and object.c: the other functions vm.c calls -/

/-- Modelled from the spec: `tableSet` (table.c is missing) binds the key to
the value and tells whether the key was new.  The growth of the entry array
is left out. -/
def tableSet (table : Table) (key : Ptr) (value : Value) : Bool × Table :=
  if table.entries.any (fun e => e.key == key) then
    (false, { table with entries := table.entries.map (fun e =>
      if e.key = key then { e with value := value } else e) })
  else
    (true, { table with entries := table.entries ++ [{ key := key, value := value }] })

/-- Modelled from the spec: `tableDelete` (table.c is missing) removes the
binding of the key and tells whether there was one. -/
def tableDelete (table : Table) (key : Ptr) : Bool × Table :=
  (table.entries.any (fun e => e.key == key),
    { table with entries := table.entries.filter (fun e => e.key != key) })

/-- Modelled from the spec: `tableAddAll` (table.c is missing) copies every
entry of the first table into the second. -/
def tableAddAll (src dst : Table) : Table :=
  src.entries.foldl (fun t e => (tableSet t e.key e.value).2) dst

/-- Modelled from the spec: `tableFindString` (table.c is missing) yields the
key of the table that is a string with these bytes and this hash, or `NULL`. -/
def tableFindString (vm : VM) (table : Table) (chars : List Nat) (hash : Nat) : Ptr :=
  match table.entries.find? (fun e =>
      match vm.deref e.key with
      | some o => decide (o.body = .ObjString chars hash)
      | none => false) with
  | some e => e.key
  | none => NULL

/-- Modelled from the spec: `allocateString` (object.c is missing) allocates
the string object and registers it in the intern set. -/
def allocateString (env : Env) (vm : VM) (chars : List Nat) (hash : Nat) : Ptr × VM :=
  let r := allocateObject env vm (env.sizeofObj .OBJ_STRING) (.ObjString chars hash)
  (r.1, { r.2 with strings := (tableSet r.2.strings r.1 .nil).2 })

/-- Modelled from the spec: `takeString` (object.c is missing): on a hit in the
intern set the buffer of the caller is freed and the canonical string
returned, on a miss a new string adopts the buffer. -/
def takeString (env : Env) (vm : VM) (chars : List Nat) : Ptr × VM :=
  let hash := env.hashString chars
  let interned := tableFindString vm vm.strings chars hash
  if interned ≠ NULL then
    (interned, release vm ((1 * (chars.length + 1)) % SIZE_MOD))
  else allocateString env vm chars hash

/-- Modelled from the spec: `copyString` (object.c is missing): on a hit in the
intern set the canonical string is returned, on a miss a new string owns a
heap copy of the bytes. -/
def copyString (env : Env) (vm : VM) (chars : List Nat) : Ptr × VM :=
  let hash := env.hashString chars
  let interned := tableFindString vm vm.strings chars hash
  if interned ≠ NULL then (interned, vm)
  else
    let vm1 := reallocate env vm 0 ((1 * (chars.length + 1)) % SIZE_MOD)
    allocateString env vm1 chars hash

/-- Modelled from the spec: `newBoundMethod` (object.c is missing) allocates a
bound method of the receiver and the closure. -/
def newBoundMethod (env : Env) (vm : VM) (receiver : Value) (method : Ptr) : Ptr × VM :=
  allocateObject env vm (env.sizeofObj .OBJ_BOUND_METHOD) (.ObjBoundMethod receiver method)

/-- The macro `isObjType` behind `IS_STRING`, `IS_INSTANCE` and `IS_CLASS`:
the value is an object and its header has the type. -/
def isObjType (vm : VM) (value : Value) (type : ObjType) : Option Bool :=
  match value with
  | .obj p =>
    match vm.deref p with
    | some o => some (decide (o.body.type = type))
    | none => none
  | _ => some false

/-- The fields `cls` and `fields` of the instance at `p`. -/
def VM.instanceAt (vm : VM) (p : Ptr) : Option (Ptr × Table) :=
  match vm.deref p with
  | some o =>
    match o.body with
    | .ObjInstance cls fields => some (cls, fields)
    | _ => none
  | none => none

/-- The fields `name` and `methods` of the class at `p`. -/
def VM.classAt (vm : VM) (p : Ptr) : Option (Ptr × Table) :=
  match vm.deref p with
  | some o =>
    match o.body with
    | .ObjClass name methods => some (name, methods)
    | _ => none
  | none => none

/-- The bytes `chars` of the string at `p`. -/
def VM.stringAt (vm : VM) (p : Ptr) : Option (List Nat) :=
  match vm.deref p with
  | some o =>
    match o.body with
    | .ObjString chars _ => some chars
    | _ => none
  | none => none

/-- The chunk and the name of the function at `p`. -/
def VM.functionAt (vm : VM) (p : Ptr) : Option (Chunk × Ptr) :=
  match vm.deref p with
  | some o =>
    match o.body with
    | .ObjFunction _ _ chunk name => some (chunk, name)
    | _ => none
  | none => none

/-- A write to the fields of the object at `p`: its variant part becomes
`body`. -/
def storeBody (p : Ptr) (body : ObjBody) (objects : List Obj) : List Obj :=
  objects.map (fun o => if o.addr = p then { o with body := body } else o)

/-! ## vm.c: methods, properties and the cases of `run` that can fail -/

/-- The value of a local variable that no statement has assigned: C gives it
no meaning. -/
def unassigned : Option Value := none

/-- The function `invokeFromClass`.  There is no `return` after the call of
`runtimeError`: on a miss control goes on to `call(AS_CLOSURE(method),
argCount)` with `method` never assigned. -/
def invokeFromClass (vm : VM) (cls name : Ptr) (argCount : Int) : Option (Bool × VM) :=
  match vm.classAt cls with
  | none => none
  | some (_, methods) =>
    let found := tableGet methods name
    let method := if found.isSome then found else unassigned
    let reported :=
      if found.isSome then some vm
      else
        match vm.stringAt name with
        | none => none
        | some chars => some (runtimeError vm "Undefined property '%s'." [.str chars])
    match reported, method with
    | some vm1, some (.obj closure) => call vm1 closure argCount
    | _, _ => none

/-- The function `invoke`.  There is no `return` after the call of
`runtimeError`: for a receiver that is not an instance control goes on to
`AS_INSTANCE(receiver)` and the lookup in its `fields`. -/
def invoke (env : Env) (vm : VM) (name : Ptr) (argCount : Int) : Option (Bool × VM) :=
  match peek vm argCount with
  | none => none
  | some receiver =>
    match isObjType vm receiver .OBJ_INSTANCE with
    | none => none
    | some isInstance =>
      let vm1 := if isInstance then vm else runtimeError vm "Only instances have methods." []
      match receiver with
      | .obj p =>
        match vm1.instanceAt p with
        | none => none
        | some (cls, fields) =>
          match tableGet fields name with
          | some value =>
            match writeSlot vm1 (vm1.stackTop - argCount - 1) value with
            | none => none
            | some vm2 => callValue env vm2 value argCount
          | none => invokeFromClass vm1 cls name argCount
      | _ => none

/-- The function `bindMethod`. -/
def bindMethod (env : Env) (vm : VM) (cls name : Ptr) : Option (Bool × VM) :=
  match vm.classAt cls with
  | none => none
  | some (_, methods) =>
    match tableGet methods name with
    | none =>
      match vm.stringAt name with
      | none => none
      | some chars => some (false, runtimeError vm "Undefined property '%s'." [.str chars])
    | some (.obj method) =>
      match peek vm 0 with
      | none => none
      | some receiver =>
        let r := newBoundMethod env vm receiver method
        match pop r.2 with
        | none => none
        | some (_, vm1) =>
          match push vm1 (.obj r.1) with
          | none => none
          | some vm2 => some (true, vm2)
    | some _ => none

/-- The function `defineMethod`. -/
def defineMethod (vm : VM) (name : Ptr) : Option VM :=
  match peek vm 0, peek vm 1 with
  | some method, some (.obj cls) =>
    match vm.classAt cls with
    | none => none
    | some (className, methods) =>
      let body := ObjBody.ObjClass className (tableSet methods name method).2
      let vm0 := { vm with objects := storeBody cls body vm.objects }
      match pop vm0 with
      | none => none
      | some (_, vm1) => some vm1
  | _, _ => none

/-- The function `concatenate`. It computes `length` and `length + 1` in
`int`: beyond `INT_MAX` the result is undefined. -/
def concatenate (env : Env) (vm : VM) : Option VM :=
  match peek vm 0, peek vm 1 with
  | some (.obj b), some (.obj a) =>
    match vm.stringAt a, vm.stringAt b with
    | some aChars, some bChars =>
      let length := aChars.length + bChars.length
      if length + 1 ≤ INT_MAX then
        let vm1 := reallocate env vm 0 ((1 * (length + 1)) % SIZE_MOD)
        match vm1.stringAt a, vm1.stringAt b with
        | some aChars1, some bChars1 =>
          let r := takeString env vm1 (aChars1 ++ bChars1)
          match pop r.2 with
          | none => none
          | some (_, vm2) =>
            match pop vm2 with
            | none => none
            | some (_, vm3) => push vm3 (.obj r.1)
        | _, _ => none
      else none
    | _, _ => none
  | _, _ => none

/-- The macro `BINARY_OP` of `run`, for the operator `op`. -/
def binaryOp (vm : VM) (op : Nat → Nat → Value) : Option (Flow × VM) :=
  match peek vm 0 with
  | none => none
  | some (.number b) =>
    match peek vm 1 with
    | none => none
    | some (.number a) =>
      match pop vm with
      | none => none
      | some (_, vm1) =>
        match pop vm1 with
        | none => none
        | some (_, vm2) =>
          match push vm2 (op a b) with
          | none => none
          | some vm3 => some (.next, vm3)
    | some _ => some (.ret .INTERPRET_RUNTIME_ERROR, runtimeError vm "Operands must be numbers." [])
  | some _ => some (.ret .INTERPRET_RUNTIME_ERROR, runtimeError vm "Operands must be numbers." [])

/-- The case `OP_GET_GLOBAL` of `run`; `name` is what `READ_STRING` yields. -/
def opGetGlobal (vm : VM) (name : Ptr) : Option (Flow × VM) :=
  match tableGet vm.globals name with
  | none =>
    match vm.stringAt name with
    | none => none
    | some chars =>
      some (.ret .INTERPRET_RUNTIME_ERROR, runtimeError vm "Undefined variable '%s'" [.str chars])
  | some value =>
    match push vm value with
    | none => none
    | some vm1 => some (.next, vm1)

/-- The case `OP_SET_GLOBAL` of `run`. -/
def opSetGlobal (vm : VM) (name : Ptr) : Option (Flow × VM) :=
  match peek vm 0 with
  | none => none
  | some value =>
    let r := tableSet vm.globals name value
    if r.1 then
      let vm1 := { vm with globals := (tableDelete r.2 name).2 }
      match vm1.stringAt name with
      | none => none
      | some chars =>
        some (.ret .INTERPRET_RUNTIME_ERROR,
          runtimeError vm1 "Undefined variable '%s'." [.str chars])
    else some (.next, { vm with globals := r.2 })

/-- The case `OP_GET_PROPERTY` of `run`. -/
def opGetProperty (env : Env) (vm : VM) (name : Ptr) : Option (Flow × VM) :=
  match peek vm 0 with
  | none => none
  | some receiver =>
    match isObjType vm receiver .OBJ_INSTANCE with
    | none => none
    | some false =>
      some (.ret .INTERPRET_RUNTIME_ERROR, runtimeError vm "Only instances have properties." [])
    | some true =>
      match receiver with
      | .obj p =>
        match vm.instanceAt p with
        | none => none
        | some (cls, fields) =>
          match tableGet fields name with
          | some value =>
            match pop vm with
            | none => none
            | some (_, vm1) =>
              match push vm1 value with
              | none => none
              | some vm2 => some (.next, vm2)
          | none =>
            match bindMethod env vm cls name with
            | none => none
            | some (false, vm1) => some (.ret .INTERPRET_RUNTIME_ERROR, vm1)
            | some (true, vm1) => some (.next, vm1)
      | _ => none

/-- The case `OP_SET_PROPERTY` of `run`. -/
def opSetProperty (vm : VM) (name : Ptr) : Option (Flow × VM) :=
  match peek vm 1 with
  | none => none
  | some receiver =>
    match isObjType vm receiver .OBJ_INSTANCE with
    | none => none
    | some false =>
      some (.ret .INTERPRET_RUNTIME_ERROR, runtimeError vm "Only instances have fields." [])
    | some true =>
      match receiver, peek vm 0 with
      | .obj p, some value =>
        match vm.instanceAt p with
        | none => none
        | some (cls, fields) =>
          let body := ObjBody.ObjInstance cls (tableSet fields name value).2
          let vm1 := { vm with objects := storeBody p body vm.objects }
          match pop vm1 with
          | none => none
          | some (top, vm2) =>
            match pop vm2 with
            | none => none
            | some (_, vm3) =>
              match push vm3 top with
              | none => none
              | some vm4 => some (.next, vm4)
      | _, _ => none

/-- The case `OP_GET_SUPER` of `run`. -/
def opGetSuper (env : Env) (vm : VM) (name : Ptr) : Option (Flow × VM) :=
  match pop vm with
  | some (.obj superclass, vm1) =>
    match bindMethod env vm1 superclass name with
    | none => none
    | some (false, vm2) => some (.ret .INTERPRET_RUNTIME_ERROR, vm2)
    | some (true, vm2) => some (.next, vm2)
  | _ => none

/-- The case `OP_ADD` of `run`. -/
def opAdd (env : Env) (vm : VM) : Option (Flow × VM) :=
  match peek vm 0 with
  | none => none
  | some top =>
    match isObjType vm top .OBJ_STRING with
    | none => none
    | some topIsString =>
      let bothStrings : Option Bool :=
        if topIsString then
          match peek vm 1 with
          | none => none
          | some below => isObjType vm below .OBJ_STRING
        else some false
      match bothStrings with
      | none => none
      | some true =>
        match concatenate env vm with
        | none => none
        | some vm1 => some (.next, vm1)
      | some false =>
        match top with
        | .number b =>
          match peek vm 1 with
          | none => none
          | some (.number a) =>
            match pop vm with
            | none => none
            | some (_, vm1) =>
              match pop vm1 with
              | none => none
              | some (_, vm2) =>
                match push vm2 (.number (env.numAdd a b)) with
                | none => none
                | some vm3 => some (.next, vm3)
          | some _ =>
            some (.ret .INTERPRET_RUNTIME_ERROR,
              runtimeError vm "Operands must be two numbers or two strings." [])
        | _ =>
          some (.ret .INTERPRET_RUNTIME_ERROR,
            runtimeError vm "Operands must be two numbers or two strings." [])

/-- The case `OP_NEGATE` of `run`. -/
def opNegate (env : Env) (vm : VM) : Option (Flow × VM) :=
  match peek vm 0 with
  | none => none
  | some (.number a) =>
    match pop vm with
    | none => none
    | some (_, vm1) =>
      match push vm1 (.number (env.numNeg a)) with
      | none => none
      | some vm2 => some (.next, vm2)
  | some _ => some (.ret .INTERPRET_RUNTIME_ERROR, runtimeError vm "Operand must be a number." [])

/-- The case `OP_CALL` of `run`; `argCount` is the operand byte. -/
def opCall (env : Env) (vm : VM) (argCount : Int) : Option (Flow × VM) :=
  match peek vm argCount with
  | none => none
  | some callee =>
    match callValue env vm callee argCount with
    | none => none
    | some (false, vm1) => some (.ret .INTERPRET_RUNTIME_ERROR, vm1)
    | some (true, vm1) => some (.next, vm1)

/-- The case `OP_INVOKE` of `run`. -/
def opInvoke (env : Env) (vm : VM) (name : Ptr) (argCount : Int) : Option (Flow × VM) :=
  match invoke env vm name argCount with
  | none => none
  | some (false, vm1) => some (.ret .INTERPRET_RUNTIME_ERROR, vm1)
  | some (true, vm1) => some (.next, vm1)

/-- The case `OP_SUPER_INVOKE` of `run`. -/
def opSuperInvoke (vm : VM) (name : Ptr) (argCount : Int) : Option (Flow × VM) :=
  match pop vm with
  | some (.obj superclass, vm1) =>
    match invokeFromClass vm1 superclass name argCount with
    | none => none
    | some (false, vm2) => some (.ret .INTERPRET_RUNTIME_ERROR, vm2)
    | some (true, vm2) => some (.next, vm2)
  | _ => none

/-- The case `OP_INHERIT` of `run`. -/
def opInherit (vm : VM) : Option (Flow × VM) :=
  match peek vm 1 with
  | none => none
  | some superclass =>
    match isObjType vm superclass .OBJ_CLASS with
    | none => none
    | some false =>
      some (.ret .INTERPRET_RUNTIME_ERROR, runtimeError vm "Superclass must be a class." [])
    | some true =>
      match superclass, peek vm 0 with
      | .obj sup, some (.obj sub) =>
        match vm.classAt sup, vm.classAt sub with
        | some (_, superMethods), some (subName, subMethods) =>
          let body := ObjBody.ObjClass subName (tableAddAll superMethods subMethods)
          let vm1 := { vm with objects := storeBody sub body vm.objects }
          match pop vm1 with
          | none => none
          | some (_, vm2) => some (.next, vm2)
        | _, _ => none
      | _, _ => none

/-- The case `OP_METHOD` of `run`. -/
def opMethod (vm : VM) (name : Ptr) : Option (Flow × VM) :=
  match defineMethod vm name with
  | none => none
  | some vm1 => some (.next, vm1)

/-- The cases of the switch of `run` from which a call of `runtimeError` can
be reached, with the operands the case fetches. -/
inductive FailingCase where
  | OP_GET_GLOBAL (name : Ptr)
  | OP_SET_GLOBAL (name : Ptr)
  | OP_GET_PROPERTY (name : Ptr)
  | OP_SET_PROPERTY (name : Ptr)
  | OP_GET_SUPER (name : Ptr)
  | OP_GREATER
  | OP_LESS
  | OP_ADD
  | OP_SUBTRACT
  | OP_MULTIPLY
  | OP_DIVIDE
  | OP_NEGATE
  | OP_CALL (argCount : Int)
  | OP_INVOKE (name : Ptr) (argCount : Int)
  | OP_SUPER_INVOKE (name : Ptr) (argCount : Int)
  | OP_INHERIT
  deriving DecidableEq, Inhabited

/-- The switch of `run` on the cases of `FailingCase`. -/
def runCase (env : Env) (vm : VM) : FailingCase → Option (Flow × VM)
  | .OP_GET_GLOBAL name => opGetGlobal vm name
  | .OP_SET_GLOBAL name => opSetGlobal vm name
  | .OP_GET_PROPERTY name => opGetProperty env vm name
  | .OP_SET_PROPERTY name => opSetProperty vm name
  | .OP_GET_SUPER name => opGetSuper env vm name
  | .OP_GREATER => binaryOp vm (fun a b => .bool (env.numGreater a b))
  | .OP_LESS => binaryOp vm (fun a b => .bool (env.numLess a b))
  | .OP_ADD => opAdd env vm
  | .OP_SUBTRACT => binaryOp vm (fun a b => .number (env.numSub a b))
  | .OP_MULTIPLY => binaryOp vm (fun a b => .number (env.numMul a b))
  | .OP_DIVIDE => binaryOp vm (fun a b => .number (env.numDiv a b))
  | .OP_NEGATE => opNegate env vm
  | .OP_CALL argCount => opCall env vm argCount
  | .OP_INVOKE name argCount => opInvoke env vm name argCount
  | .OP_SUPER_INVOKE name argCount => opSuperInvoke vm name argCount
  | .OP_INHERIT => opInherit vm

/-! ## vm.c: stack traces and `OP_THROW` -/

/-- The constant `MAX_LINE_LENGTH` of `getStackTrace`. -/
def MAX_LINE_LENGTH : Nat := 512

/-- The bytes of the literal `"script"`. -/
def scriptChars : List Nat := [115, 99, 114, 105, 112, 116]

/-- The bytes of the literal `"stacktrace"`. -/
def stacktraceChars : List Nat := [115, 116, 97, 99, 107, 116, 114, 97, 99, 101]

/-- The body of the loop of `getStackTrace` for one frame: the text that
`snprintf` produces, which has to fit `MAX_LINE_LENGTH`.  The line is looked
up at `frame->ip - function->chunk.code - 1`. -/
def traceLineOf (env : Env) (vm : VM) (frame : CallFrame) : Option (List Nat) :=
  match vm.closureAt frame.closure with
  | none => none
  | some (function, _) =>
    match vm.functionAt function with
    | none => none
    | some (chunk, name) =>
      if frame.ip.function = function ∧ 1 ≤ frame.ip.offset then
        match chunk.lines.get? (frame.ip.offset - 1).toNat with
        | none => none
        | some line =>
          match (if name = NULL then some scriptChars else vm.stringAt name) with
          | none => none
          | some chars =>
            if (env.traceLine line chars).length < MAX_LINE_LENGTH then
              some (env.traceLine line chars)
            else none
      else none

/-- The loop of `getStackTrace` over the frames it is given, in the order
given: the texts written one after the other. -/
def traceText (env : Env) (vm : VM) : List CallFrame → Option (List Nat)
  | [] => some []
  | frame :: rest =>
    match traceLineOf env vm frame, traceText env vm rest with
    | some line, some text => some (line ++ text)
    | _, _ => none

/-- The function `getStackTrace`: `ALLOCATE` of `frameCount * MAX_LINE_LENGTH`
bytes, the loop from the top frame down, `GROW_ARRAY` to the `index` bytes
written, and `takeString` of that buffer with length `index` (a `uint16_t`). -/
def getStackTrace (env : Env) (vm : VM) : Option (Ptr × VM) :=
  let maxStackTraceLength := vm.frameCount * MAX_LINE_LENGTH
  let vm1 := reallocate env vm 0 ((1 * maxStackTraceLength) % SIZE_MOD)
  if vm1.frameCount ≤ vm1.frames.length then
    match traceText env vm1 (vm1.frames.take vm1.frameCount).reverse with
    | none => none
    | some text =>
      if text.length < 65536 then
        let vm2 := reallocate env vm1 ((1 * maxStackTraceLength) % SIZE_MOD)
          ((1 * text.length) % SIZE_MOD)
        some (takeString env vm2 text)
      else none
  else none

/-- The function `propagateException`: what it prints goes to `stderr`. -/
def propagateException (env : Env) (vm : VM) : Option VM :=
  match peek vm 0 with
  | some (.obj p) =>
    match vm.instanceAt p with
    | none => none
    | some (cls, _) =>
      match vm.classAt cls with
      | none => none
      | some (className, _) =>
        match vm.stringAt className with
        | none => none
        | some nameChars =>
          let vm1 := { vm with stderr := vm.stderr ++
            [{ format := "Unhandled %s\n", args := [.str nameChars] }] }
          let r := copyString env vm1 stacktraceChars
          match r.2.instanceAt p with
          | none => none
          | some (_, fields) =>
            match tableGet fields r.1 with
            | none => some r.2
            | some (.obj trace) =>
              match r.2.stringAt trace with
              | none => none
              | some traceChars =>
                some { r.2 with stderr := r.2.stderr ++
                  [{ format := "%s", args := [.str traceChars] }] }
            | some _ => none
  | _ => none

/-- The case `OP_THROW` of `run`. -/
def opThrow (env : Env) (vm : VM) : Option (Flow × VM) :=
  match getStackTrace env vm with
  | none => none
  | some (stacktrace, vm1) =>
    match peek vm1 0 with
    | some (.obj p) =>
      let r := copyString env vm1 stacktraceChars
      match r.2.instanceAt p with
      | none => none
      | some (cls, fields) =>
        let body := ObjBody.ObjInstance cls (tableSet fields r.1 (.obj stacktrace)).2
        let vm2 := { r.2 with objects := storeBody p body r.2.objects }
        match propagateException env vm2 with
        | none => none
        | some vm3 => some (.ret .INTERPRET_RUNTIME_ERROR, vm3)
    | _ => none

/-! ## Vocabulary of the statements on the cases of `run` -/

/-- The variant part of the object at `p`. -/
def VM.bodyAt (vm : VM) (p : Ptr) : Option ObjBody :=
  (vm.deref p).map (fun o => o.body)

/-- The second state differs from the first at most in what allocation and
collection touch: the object chain, the two byte counters, the intern set,
the gray stack and the count of collections. -/
def HeapOnly (vm vm' : VM) : Prop :=
  ∃ (objs : List Obj) (b n : Nat) (t : Table) (g : List Ptr) (c : Int) (r : Nat),
    vm' = { vm with
      objects := objs, bytesAllocated := b, nextGC := n, strings := t, grayStack := g
      grayCapacity := c, gcRuns := r }

/-- What `runtimeError` leaves behind when called at state `vm`: one more
message on `stderr`, both stacks empty and no open upvalue. -/
def Reported (vm vm' : VM) : Prop :=
  (∃ d : Diag, vm'.stderr = vm.stderr ++ [d]) ∧ vm'.stackTop = 0 ∧ vm'.frameCount = 0 ∧
    vm'.openUpvalues = []

/-- The keys of the table are pairwise different. -/
def Table.Wf (table : Table) : Prop :=
  (table.entries.map (fun e => e.key)).Nodup

/-- How a function of the call machinery ends that was entered at state `vm`:
with true and nothing reported, or with false after `runtimeError`. -/
def CallOutcome (vm : VM) (result : Bool) (vm' : VM) : Prop :=
  (result = true ∧ vm'.stderr = vm.stderr) ∨ (result = false ∧ Reported vm vm')

/-- How a case of `run` ends that was entered at state `vm`: the loop goes on
and nothing was reported, or `run` returns `INTERPRET_RUNTIME_ERROR` after
`runtimeError`. -/
def CaseOutcome (vm : VM) (flow : Flow) (vm' : VM) : Prop :=
  (flow = .next ∧ vm'.stderr = vm.stderr) ∨
    (flow = .ret .INTERPRET_RUNTIME_ERROR ∧ Reported vm vm')

/-- The macro `IS_NUMBER`. -/
def Value.isNumber : Value → Bool
  | .number _ => true
  | _ => false

/-- The cases of `run` entered through the macro `BINARY_OP`. -/
def binaryCases : List FailingCase :=
  [.OP_GREATER, .OP_LESS, .OP_SUBTRACT, .OP_MULTIPLY, .OP_DIVIDE]

/-- The conditions under which a case of `run` reports an operand type
error, an undefined global on get or set, a property access on a value that is
no instance, a property that is neither a field nor a method, a failed call
(also one made by `invoke` or `invokeFromClass` that returns false) or a
superclass that is no class. -/
inductive RaisesError (env : Env) (vm : VM) : FailingCase → Prop where
  | binary {c : FailingCase} {a b : Value} :
      c ∈ binaryCases → peek vm 0 = some b → peek vm 1 = some a →
        ¬ (a.isNumber = true ∧ b.isNumber = true) → RaisesError env vm c
  | add {a b : Value} {aIsString bIsString : Bool} :
      peek vm 0 = some b → peek vm 1 = some a →
        isObjType vm b .OBJ_STRING = some bIsString →
        isObjType vm a .OBJ_STRING = some aIsString →
        ¬ (aIsString = true ∧ bIsString = true) →
        ¬ (a.isNumber = true ∧ b.isNumber = true) → RaisesError env vm .OP_ADD
  | negate {a : Value} :
      peek vm 0 = some a → a.isNumber = false → RaisesError env vm .OP_NEGATE
  | getGlobal {name : Ptr} {chars : List Nat} :
      tableGet vm.globals name = none → vm.stringAt name = some chars →
        RaisesError env vm (.OP_GET_GLOBAL name)
  | setGlobal {name : Ptr} {chars : List Nat} {value : Value} :
      peek vm 0 = some value → tableGet vm.globals name = none →
        vm.stringAt name = some chars → RaisesError env vm (.OP_SET_GLOBAL name)
  | getProperty {name : Ptr} {receiver : Value} :
      peek vm 0 = some receiver → isObjType vm receiver .OBJ_INSTANCE = some false →
        RaisesError env vm (.OP_GET_PROPERTY name)
  | setProperty {name : Ptr} {receiver : Value} :
      peek vm 1 = some receiver → isObjType vm receiver .OBJ_INSTANCE = some false →
        RaisesError env vm (.OP_SET_PROPERTY name)
  | undefinedProperty {name p cls className : Ptr} {fields methods : Table}
      {chars : List Nat} :
      peek vm 0 = some (.obj p) → vm.instanceAt p = some (cls, fields) →
        tableGet fields name = none → vm.classAt cls = some (className, methods) →
        tableGet methods name = none → vm.stringAt name = some chars →
        RaisesError env vm (.OP_GET_PROPERTY name)
  | getSuper {name superclass className : Ptr} {methods : Table} {chars : List Nat}
      {vm1 : VM} :
      pop vm = some (.obj superclass, vm1) →
        vm1.classAt superclass = some (className, methods) →
        tableGet methods name = none → vm1.stringAt name = some chars →
        RaisesError env vm (.OP_GET_SUPER name)
  | call {argCount : Int} {callee : Value} {vm1 : VM} :
      peek vm argCount = some callee → callValue env vm callee argCount = some (false, vm1) →
        RaisesError env vm (.OP_CALL argCount)
  | invoke {name : Ptr} {argCount : Int} {vm1 : VM} :
      Clox.invoke env vm name argCount = some (false, vm1) →
        RaisesError env vm (.OP_INVOKE name argCount)
  | superInvoke {name superclass : Ptr} {argCount : Int} {vm1 vm2 : VM} :
      pop vm = some (.obj superclass, vm1) →
        invokeFromClass vm1 superclass name argCount = some (false, vm2) →
        RaisesError env vm (.OP_SUPER_INVOKE name argCount)
  | inherit {superclass : Value} :
      peek vm 1 = some superclass → isObjType vm superclass .OBJ_CLASS = some false →
        RaisesError env vm .OP_INHERIT

/-! ## Sample states with classes and instances -/

/-- The bytes of the literal `"init"`. -/
def initChars : List Nat := [105, 110, 105, 116]

/-- The heap `sampleHeap` with classes on top: the strings `"init"` at 6,
`"m"` at 7, `"A"` at 8 and `"B"` at 9; the class `A` at 10 with the method
`m`, the closure at 3; the class `B` at 11 without methods; an instance of `A`
at 12 with the field `hi` (the string at 4); the class at 13 with an
initializer, the closure at 3. -/
def classHeap : List Obj :=
  [ { addr := 13, isMarked := false
      body := .ObjClass 8 { entries := [{ key := 6, value := .obj 3 }], capacity := 8 } }
  , { addr := 12, isMarked := false
      body := .ObjInstance 10 { entries := [{ key := 4, value := .number 42 }], capacity := 8 } }
  , { addr := 11, isMarked := false, body := .ObjClass 9 emptyTable }
  , { addr := 10, isMarked := false
      body := .ObjClass 8 { entries := [{ key := 7, value := .obj 3 }], capacity := 8 } }
  , { addr := 9, isMarked := false, body := .ObjString [66] 0 }
  , { addr := 8, isMarked := false, body := .ObjString [65] 0 }
  , { addr := 7, isMarked := false, body := .ObjString [109] 0 }
  , { addr := 6, isMarked := false, body := .ObjString initChars 0 } ] ++ sampleHeap

/-- The sample state over `classHeap` with the given values on the stack above
the script closure; the global `m` is bound to a number, the frame has run
one instruction. -/
def classVM (values : List Value) : VM :=
  { sampleVM with
    frames := (List.replicate FRAMES_MAX default).set 0
      { closure := 3, ip := { function := 2, offset := 1 }, slots := 0 }
    stack := (.obj 3 :: values) ++ List.replicate (7 - values.length) .nil
    stackTop := 1 + values.length
    globals := { entries := [{ key := 7, value := .number 1 }], capacity := 8 }
    initString := 6
    objects := classHeap }

/-! ## vm.c: reads and writes through an upvalue -/

/-- The field `closed` of the upvalue object at `u`. -/
def VM.closedAt (vm : VM) (u : Ptr) : Option Value :=
  match vm.deref u with
  | some o =>
    match o.body with
    | .ObjUpvalue _ closed => some closed
    | _ => none
  | none => none

/-- The read `*upvalue->location` for the upvalue object at `u`. -/
def readLocation (vm : VM) (u : Ptr) : Option Value :=
  match vm.locationAt u with
  | some (.stack i) => readSlot vm i
  | some (.closedOf q) => vm.closedAt q
  | none => none

/-- The write `*upvalue->location = value` for the upvalue object at `u`. -/
def writeLocation (vm : VM) (u : Ptr) (value : Value) : Option VM :=
  match vm.locationAt u with
  | some (.stack i) => writeSlot vm i value
  | some (.closedOf q) =>
    match vm.locationAt q with
    | some location =>
      some { vm with objects := storeBody q (.ObjUpvalue location value) vm.objects }
    | none => none
  | none => none

/-- The pointer `frame->closure->upvalues[slot]` of the top frame. -/
def frameUpvalue (vm : VM) (slot : Nat) : Option Ptr :=
  if vm.frameCount = 0 then none
  else
    match vm.frames.get? (vm.frameCount - 1) with
    | none => none
    | some frame =>
      match vm.closureAt frame.closure with
      | none => none
      | some (_, upvalues) => upvalues.get? slot

/-- The case `OP_GET_UPVALUE` of `run`; `slot` is the operand byte. -/
def opGetUpvalue (vm : VM) (slot : Nat) : Option (Flow × VM) :=
  match frameUpvalue vm slot with
  | none => none
  | some u =>
    match readLocation vm u with
    | none => none
    | some value =>
      match push vm value with
      | none => none
      | some vm1 => some (.next, vm1)

/-- The case `OP_SET_UPVALUE` of `run`; `slot` is the operand byte. -/
def opSetUpvalue (vm : VM) (slot : Nat) : Option (Flow × VM) :=
  match frameUpvalue vm slot, peek vm 0 with
  | some u, some value =>
    match writeLocation vm u value with
    | none => none
    | some vm1 => some (.next, vm1)
  | _, _ => none

/-! ## Vocabulary of the statements on the mark phase -/

/-- The state `returningVM` with the two open upvalues captured by the
closure of the frames. -/
def capturedVM : VM :=
  { returningVM with objects := storeBody 3 (.ObjClosure 2 [11, 12]) upvalueHeap }

/-- The state `classVM [.obj 12]` about to execute `OP_THROW`, with the
function of the frame named by a string of 465 bytes, so that its line of the
stack trace has 468 bytes, and with `nextGC` 512 bytes above
`bytesAllocated`: the buffer of `getStackTrace` just fits, the allocation of
the trace string fits as well, and the next allocation exceeds `nextGC`. -/
def pressedVM : VM :=
  { classVM [.obj 12] with
    objects := storeBody 1 (.ObjString (List.replicate 465 102) 3) classHeap
    bytesAllocated := 1000
    nextGC := 1512 }

/-- The state `classVM [.obj 4, .obj 4]` about to execute `OP_ADD` on a
string of `2^30` bytes and itself: the string at 4 is what thirty doublings
`s = s + s` of a string of one byte have produced. -/
def doubledVM : VM :=
  { classVM [.obj 4, .obj 4] with
    objects := storeBody 4 (.ObjString (List.replicate 1073741824 97) 9) classHeap
    bytesAllocated := 1073742400
    nextGC := 2147483648 }

theorem markValue_eq_foldl (env : Env) (vm : VM) (v : Value) :
    markValue env vm v = (valueRefs v).foldl (markObject env) vm := by
  cases v <;> rfl

theorem foldl_markValue (env : Env) (vs : List Value) (vm : VM) :
    vs.foldl (markValue env) vm = (vs.flatMap valueRefs).foldl (markObject env) vm := by
  induction vs generalizing vm with
  | nil => rfl
  | cons v vs ih =>
    rw [List.foldl_cons, ih, List.flatMap_cons, List.foldl_append, markValue_eq_foldl]

theorem markTable_eq_foldl (env : Env) (vm : VM) (t : Table) :
    markTable env vm t = (tableRefs t).foldl (markObject env) vm := by
  unfold markTable tableRefs
  generalize t.entries = es
  induction es generalizing vm with
  | nil => rfl
  | cons e es ih =>
    rw [List.foldl_cons, ih, List.flatMap_cons, List.foldl_append, List.foldl_cons,
      markValue_eq_foldl]

theorem blackenObject_eq_foldl (env : Env) (vm : VM) (p : Ptr) (o : Obj)
    (h : vm.deref p = some o) :
    blackenObject env vm p = (outRefs o.body).foldl (markObject env) vm := by
  unfold blackenObject
  rw [h]
  cases hb : o.body <;>
    simp only [hb, outRefs, List.foldl_cons, List.foldl_append, List.foldl_nil,
      markValue_eq_foldl, markTable_eq_foldl, markArray, foldl_markValue]

theorem blackenObject_none (env : Env) (vm : VM) (p : Ptr) (h : vm.deref p = none) :
    blackenObject env vm p = vm := by
  unfold blackenObject
  rw [h]

/-! ## Marking: one `markObject` -/

theorem unmark_addr (o : Obj) : (unmark o).addr = o.addr := rfl

theorem unmark_body (o : Obj) : (unmark o).body = o.body := rfl

theorem setMarked_map_unmark (p : Ptr) (l : List Obj) :
    (setMarked p l).map unmark = l.map unmark := by
  unfold setMarked
  rw [List.map_map]
  apply List.map_congr_left
  intro o _
  simp only [Function.comp]
  split <;> rfl

theorem find_setMarked (p q : Ptr) (l : List Obj) :
    (setMarked p l).find? (fun o => o.addr == q)
      = (l.find? (fun o => o.addr == q)).map
          (fun o => if o.addr = p then { o with isMarked := true } else o) := by
  unfold setMarked
  rw [List.find?_map]
  congr 2
  funext o
  simp only [Function.comp]
  split <;> rfl

theorem find_of_map_unmark {l l' : List Obj} (h : l'.map unmark = l.map unmark) (q : Ptr) :
    (l'.find? (fun o => o.addr == q)).map unmark
      = (l.find? (fun o => o.addr == q)).map unmark := by
  have key : ∀ m : List Obj, (m.find? (fun o => o.addr == q)).map unmark
      = (m.map unmark).find? (fun o => o.addr == q) := by
    intro m
    rw [List.find?_map]
    rfl
  rw [key, key, h]

theorem markObject_cases (env : Env) (vm : VM) (p : Ptr) :
    (markObject env vm p = vm ∧ Closed vm p) ∨
    (p ≠ NULL ∧ (∃ o, vm.deref p = some o ∧ o.isMarked = false) ∧
      ∃ c, markObject env vm p = { vm with
        objects := setMarked p vm.objects, grayStack := vm.grayStack ++ [p], grayCapacity := c }) := by
  unfold markObject
  by_cases hp : p = NULL
  · left
    simp [hp, Closed]
  · simp only [hp, if_false]
    cases hd : vm.deref p with
    | none =>
      left
      simp [Closed, hd]
    | some o =>
      cases hm : o.isMarked with
      | true =>
        left
        simp [Closed, hd, hm]
      | false =>
        right
        refine ⟨hp, ⟨o, rfl, hm⟩, ?_⟩
        simp only [hm, Bool.false_eq_true, if_false]
        exact ⟨_, rfl⟩

theorem Grows.refl (vm : VM) : Grows vm vm :=
  ⟨rfl, rfl, fun _ h => h⟩

theorem Grows.trans {a b c : VM} (h1 : Grows a b) (h2 : Grows b c) : Grows a c := by
  refine ⟨?_, h2.shape.trans h1.shape, fun q hq => h2.mono q (h1.mono q hq)⟩
  have e1 := h1.outside
  have e2 := h2.outside
  rw [e2]
  conv_lhs => rw [e1]

theorem closed_setMarked (vm : VM) (p q : Ptr) (g : List Ptr) (c : Int)
    (h : Closed vm q) :
    Closed { vm with objects := setMarked p vm.objects, grayStack := g, grayCapacity := c } q := by
  rcases h with h | h
  · exact Or.inl h
  · right
    intro o ho
    simp only [VM.deref] at ho h
    rw [find_setMarked] at ho
    cases hf : vm.objects.find? (fun o => o.addr == q) with
    | none => rw [hf] at ho; simp at ho
    | some o' =>
      rw [hf] at ho
      simp only [Option.map_some', Option.some.injEq] at ho
      have := h o' hf
      subst ho
      split <;> simp [this]

theorem markObject_grows (env : Env) (vm : VM) (p : Ptr) : Grows vm (markObject env vm p) := by
  rcases markObject_cases env vm p with ⟨h, _⟩ | ⟨_, _, c, h⟩
  · rw [h]
    exact Grows.refl vm
  · rw [h]
    exact ⟨rfl, setMarked_map_unmark p vm.objects,
      fun q hq => closed_setMarked vm p q _ c hq⟩

theorem markObject_closed_self (env : Env) (vm : VM) (p : Ptr) :
    Closed (markObject env vm p) p := by
  rcases markObject_cases env vm p with ⟨h, hc⟩ | ⟨_, _, c, h⟩
  · rw [h]
    exact hc
  · rw [h]
    right
    intro o ho
    simp only [VM.deref] at ho
    rw [find_setMarked] at ho
    cases hf : vm.objects.find? (fun o => o.addr == p) with
    | none => rw [hf] at ho; simp at ho
    | some o' =>
      rw [hf] at ho
      simp only [Option.map_some', Option.some.injEq] at ho
      have ha : o'.addr = p := by
        have := List.find?_some hf
        simpa using this
      subst ho
      simp [ha]

theorem foldl_markObject_grows (env : Env) (l : List Ptr) (vm : VM) :
    Grows vm (l.foldl (markObject env) vm) := by
  induction l generalizing vm with
  | nil => exact Grows.refl vm
  | cons p l ih => exact (markObject_grows env vm p).trans (ih _)

theorem foldl_markObject_closed (env : Env) (l : List Ptr) (vm : VM) :
    ∀ q ∈ l, Closed (l.foldl (markObject env) vm) q := by
  induction l generalizing vm with
  | nil => intro q hq; simp at hq
  | cons p l ih =>
    intro q hq
    rw [List.foldl_cons]
    rcases List.mem_cons.mp hq with h | h
    · subst h
      exact (foldl_markObject_grows env l _).mono _ (markObject_closed_self env vm q)
    · exact ih _ q h

/-! ## Marking: the invariant -/

theorem Grows.rootRefs_eq {vm vm' : VM} (h : Grows vm vm') : rootRefs vm' = rootRefs vm := by
  rw [h.outside]
  rfl

theorem Grows.deref_back {a b : VM} (h : Grows a b) {q : Ptr} {o' : Obj}
    (hd : b.deref q = some o') : ∃ o, a.deref q = some o ∧ unmark o = unmark o' := by
  have := find_of_map_unmark h.shape q
  simp only [VM.deref] at hd ⊢
  rw [hd] at this
  cases hf : a.objects.find? (fun o => o.addr == q) with
  | none => rw [hf] at this; simp at this
  | some o =>
    rw [hf] at this
    simp only [Option.map_some', Option.some.injEq] at this
    exact ⟨o, rfl, this.symm⟩

theorem Grows.deref_forth {a b : VM} (h : Grows a b) {q : Ptr} {o : Obj}
    (hd : a.deref q = some o) : ∃ o', b.deref q = some o' ∧ unmark o' = unmark o := by
  have := find_of_map_unmark h.shape q
  simp only [VM.deref] at hd ⊢
  rw [hd] at this
  cases hf : b.objects.find? (fun o => o.addr == q) with
  | none => rw [hf] at this; simp at this
  | some o' =>
    rw [hf] at this
    simp only [Option.map_some', Option.some.injEq] at this
    exact ⟨o', rfl, this⟩

theorem body_of_unmark_eq {o o' : Obj} (h : unmark o = unmark o') : o.body = o'.body :=
  have h1 : (unmark o).body = (unmark o').body := congrArg Obj.body h
  h1

theorem addr_of_unmark_eq {o o' : Obj} (h : unmark o = unmark o') : o.addr = o'.addr :=
  have h1 : (unmark o).addr = (unmark o').addr := congrArg Obj.addr h
  h1

theorem deref_addr {vm : VM} {q : Ptr} {o : Obj} (h : vm.deref q = some o) : o.addr = q := by
  have := List.find?_some h
  simpa using this

theorem deref_mem {vm : VM} {q : Ptr} {o : Obj} (h : vm.deref q = some o) : o ∈ vm.objects :=
  List.mem_of_find?_eq_some h

theorem mem_setMarked {p : Ptr} {l : List Obj} {o' : Obj} (h : o' ∈ setMarked p l) :
    ∃ o ∈ l, o' = if o.addr = p then { o with isMarked := true } else o := by
  unfold setMarked at h
  rcases List.mem_map.mp h with ⟨o, ho, rfl⟩
  exact ⟨o, ho, rfl⟩

theorem MarkInv.markObject (env : Env) {vm0 vm : VM} {X : List Ptr} (h : MarkInv vm0 vm X)
    (p : Ptr) (hp : p ≠ NULL → Reachable vm0 p) : MarkInv vm0 (markObject env vm p) X := by
  have hg := markObject_grows env vm p
  rcases markObject_cases env vm p with ⟨e, _⟩ | ⟨hne, ⟨o, hd, hm⟩, c, e⟩
  · rw [e]
    exact h
  · rw [e] at hg ⊢
    refine ⟨h.grows.trans hg, ?_, ?_, ?_, ?_⟩
    · intro o' ho' hmk
      rcases mem_setMarked ho' with ⟨o1, ho1, rfl⟩
      by_cases ha : o1.addr = p
      · simp only [ha, if_true]
        exact hp hne
      · simp only [ha, if_false] at hmk ⊢
        exact h.sound o1 ho1 hmk
    · intro q hq
      rcases List.mem_append.mp hq with hq | hq
      · exact h.gray q hq
      · simp only [List.mem_singleton] at hq
        subst hq
        exact hp hne
    · intro a ha b hb hab
      rcases mem_setMarked ha with ⟨a1, ha1, rfl⟩
      rcases mem_setMarked hb with ⟨b1, hb1, rfl⟩
      by_cases h1 : a1.addr = p
      · have h2 : b1.addr = p := by
          simp only [h1, if_true] at hab
          by_cases h2 : b1.addr = p
          · exact h2
          · simp only [h2, if_false] at hab
            exact absurd hab.symm h2
        simp [h1, h2]
      · have h2 : b1.addr ≠ p := by
          intro h2
          simp only [h1, if_false, h2, if_true] at hab
        simp only [h1, h2, if_false] at hab ⊢
        exact h.uniform a1 ha1 b1 hb1 hab
    · intro q o' hd' hmk hq hX r hr
      have hqp : q ≠ p := by
        intro hqp
        apply hq
        simp [hqp]
      have hq' : q ∉ vm.grayStack := fun hh => hq (List.mem_append_left _ hh)
      simp only [VM.deref] at hd'
      rw [find_setMarked] at hd'
      cases hf : vm.objects.find? (fun o => o.addr == q) with
      | none => rw [hf] at hd'; simp at hd'
      | some o1 =>
        rw [hf] at hd'
        simp only [Option.map_some', Option.some.injEq] at hd'
        have ha : o1.addr = q := deref_addr hf
        have hne1 : o1.addr ≠ p := by rw [ha]; exact hqp
        simp only [hne1, if_false] at hd'
        subst hd'
        exact hg.mono r (h.black q o1 hf hmk hq' hX r hr)

theorem MarkInv.foldl (env : Env) {vm0 : VM} {X : List Ptr} (l : List Ptr) (vm : VM)
    (h : MarkInv vm0 vm X) (hl : ∀ p ∈ l, p ≠ NULL → Reachable vm0 p) :
    MarkInv vm0 (l.foldl (Clox.markObject env) vm) X := by
  induction l generalizing vm with
  | nil => exact h
  | cons p l ih =>
    rw [List.foldl_cons]
    exact ih _ (h.markObject env p (hl p (List.mem_cons_self _ _)))
      (fun q hq => hl q (List.mem_cons_of_mem _ hq))

theorem MarkInv.init {vm : VM} (h : Clean vm) : MarkInv vm vm [] := by
  refine ⟨Grows.refl vm, ?_, ?_, ?_, ?_⟩
  · intro o ho hm
    rw [h.1 o ho] at hm
    exact absurd hm (by decide)
  · intro p hp
    have : vm.grayStack = [] := List.length_eq_zero.mp h.2
    rw [this] at hp
    simp at hp
  · intro a ha b hb _
    rw [h.1 a ha, h.1 b hb]
  · intro p o hd hm
    rw [h.1 o (deref_mem hd)] at hm
    exact absurd hm (by decide)

/-! ## Marking: roots, blackening and the trace loop -/

theorem markRoots_eq_foldl (env : Env) (vm : VM) :
    markRoots env vm = (rootRefs vm).foldl (markObject env) vm := by
  unfold markRoots markCompilerRoots rootRefs
  simp only [foldl_markValue, markTable_eq_foldl, List.foldl_append, List.foldl_cons,
    List.foldl_nil]
  have g1 := foldl_markObject_grows env ((vm.stack.take vm.stackTop.toNat).flatMap valueRefs) vm
  generalize List.foldl (markObject env) vm
    ((vm.stack.take vm.stackTop.toNat).flatMap valueRefs) = vm1 at g1 ⊢
  have e1 : vm1.frames = vm.frames := by rw [g1.outside]
  have e2 : vm1.frameCount = vm.frameCount := by rw [g1.outside]
  rw [e1, e2]
  have g2 := g1.trans (foldl_markObject_grows env
    ((vm.frames.take vm.frameCount).map (fun f => f.closure)) vm1)
  generalize List.foldl (markObject env) vm1
    ((vm.frames.take vm.frameCount).map (fun f => f.closure)) = vm2 at g2 ⊢
  have e3 : vm2.openUpvalues = vm.openUpvalues := by rw [g2.outside]
  rw [e3]
  have g3 := g2.trans (foldl_markObject_grows env vm.openUpvalues vm2)
  generalize List.foldl (markObject env) vm2 vm.openUpvalues = vm3 at g3 ⊢
  have e4 : vm3.globals = vm.globals := by rw [g3.outside]
  rw [e4]
  have g4 := g3.trans (foldl_markObject_grows env (tableRefs vm.globals) vm3)
  generalize List.foldl (markObject env) vm3 (tableRefs vm.globals) = vm4 at g4 ⊢
  have e5 : vm4.compilerRoots = vm.compilerRoots := by rw [g4.outside]
  rw [e5]
  have g5 := g4.trans (foldl_markObject_grows env vm.compilerRoots vm4)
  generalize List.foldl (markObject env) vm4 vm.compilerRoots = vm5 at g5 ⊢
  have e6 : vm5.initString = vm.initString := by rw [g5.outside]
  rw [e6]

theorem pop_grows (vm : VM) : Grows vm { vm with grayStack := vm.grayStack.dropLast } :=
  ⟨rfl, rfl, fun _ h => h⟩

theorem blackenObject_grows (env : Env) (vm : VM) (p : Ptr) :
    Grows vm (blackenObject env vm p) := by
  cases hd : vm.deref p with
  | none => rw [blackenObject_none env vm p hd]; exact Grows.refl vm
  | some o => rw [blackenObject_eq_foldl env vm p o hd]; exact foldl_markObject_grows env _ vm

theorem getLast_split {l : List Ptr} {p : Ptr} (h : l.getLast? = some p) :
    l = l.dropLast ++ [p] := by
  have := List.dropLast_append_getLast? p h
  exact this.symm

theorem MarkInv.blacken (env : Env) {vm0 vm : VM} (h : MarkInv vm0 vm []) {p : Ptr}
    (hp : vm.grayStack.getLast? = some p) :
    MarkInv vm0 (blackenObject env { vm with grayStack := vm.grayStack.dropLast } p) [] := by
  have hsplit := getLast_split hp
  have hpg : p ∈ vm.grayStack := by
    rw [hsplit]
    simp
  have hpr : Reachable vm0 p := h.gray p hpg
  have hpop : MarkInv vm0 { vm with grayStack := vm.grayStack.dropLast } [p] := by
    refine ⟨h.grows.trans (pop_grows vm), h.sound, ?_, h.uniform, ?_⟩
    · intro q hq
      exact h.gray q (List.mem_of_mem_dropLast hq)
    · intro q o hd hm hq hX r hr
      have hq' : q ∉ vm.grayStack := by
        rw [hsplit]
        intro hh
        rcases List.mem_append.mp hh with hh | hh
        · exact hq hh
        · exact hX hh
      exact h.black q o hd hm hq' (by simp) r hr
  generalize hv : ({ vm with grayStack := vm.grayStack.dropLast } : VM) = vmp at hpop ⊢
  cases hd : vmp.deref p with
  | none =>
    rw [blackenObject_none env vmp p hd]
    refine ⟨hpop.grows, hpop.sound, hpop.gray, hpop.uniform, ?_⟩
    intro q o hdq hm hq _ r hr
    have hqp : q ≠ p := by
      intro e
      rw [e, hd] at hdq
      exact Option.noConfusion hdq
    exact hpop.black q o hdq hm hq (by simpa using hqp) r hr
  | some o =>
    rw [blackenObject_eq_foldl env vmp p o hd]
    have hreach : ∀ q ∈ outRefs o.body, q ≠ NULL → Reachable vm0 q := by
      intro q hq hne
      rcases hpop.grows.deref_back hd with ⟨o0, hd0, hu⟩
      have hb : o0.body = o.body := body_of_unmark_eq hu
      exact Reachable.step hpr hd0 (by rw [hb]; exact hq) hne
    have hinv := MarkInv.foldl env (outRefs o.body) vmp hpop hreach
    have hcl := foldl_markObject_closed env (outRefs o.body) vmp
    have hgr := foldl_markObject_grows env (outRefs o.body) vmp
    refine ⟨hinv.grows, hinv.sound, hinv.gray, hinv.uniform, ?_⟩
    intro q o' hdq hm hq _ r hr
    by_cases hqp : q = p
    · subst hqp
      rcases hgr.deref_back hdq with ⟨o1, hd1, hu⟩
      rw [hd] at hd1
      have : o = o1 := Option.some.inj hd1
      subst this
      have hb : o.body = o'.body := body_of_unmark_eq hu
      rw [← hb] at hr
      exact hcl r hr
    · exact hinv.black q o' hdq hm hq (by simpa using hqp) r hr

theorem MarkInv.traceLoop (env : Env) {vm0 : VM} (fuel : Nat) (vm : VM) (h : MarkInv vm0 vm []) :
    MarkInv vm0 (Clox.traceLoop env fuel vm) [] := by
  induction fuel generalizing vm with
  | zero => exact h
  | succ n ih =>
    unfold Clox.traceLoop
    cases hp : vm.grayStack.getLast? with
    | none => exact h
    | some p => exact ih _ (h.blacken env hp)

/-! ## Marking: the loop ends -/

theorem countP_setMarked_le (p : Ptr) (l : List Obj) :
    (setMarked p l).countP (fun o => !o.isMarked) ≤ l.countP (fun o => !o.isMarked) := by
  induction l with
  | nil => simp [setMarked]
  | cons o l ih =>
    unfold setMarked at ih ⊢
    simp only [List.map_cons, List.countP_cons]
    by_cases h : o.addr = p
    · simp only [h, if_true]
      have : (if (!true) = true then 1 else 0) ≤ (if (!o.isMarked) = true then 1 else 0) := by
        simp
      omega
    · simp only [h, if_false]
      omega

theorem countP_setMarked_lt (p : Ptr) (l : List Obj) (o : Obj)
    (hf : l.find? (fun o => o.addr == p) = some o) (hm : o.isMarked = false) :
    (setMarked p l).countP (fun o => !o.isMarked) + 1 ≤ l.countP (fun o => !o.isMarked) := by
  induction l with
  | nil => simp at hf
  | cons a l ih =>
    have hle := countP_setMarked_le p l
    unfold setMarked at ih hle ⊢
    simp only [List.map_cons, List.countP_cons]
    by_cases h : a.addr = p
    · have : a = o := by
        simp only [List.find?_cons, h, beq_self_eq_true] at hf
        exact Option.some.inj hf
      subst this
      simp only [h, if_true, hm, Bool.not_true, Bool.not_false, Bool.false_eq_true, if_false]
      omega
    · have hf' : l.find? (fun o => o.addr == p) = some o := by
        simp only [List.find?_cons] at hf
        have : (a.addr == p) = false := by simpa using h
        rw [this] at hf
        exact hf
      simp only [h, if_false]
      have := ih hf'
      omega

theorem markObject_measure (env : Env) (vm : VM) (p : Ptr) :
    markMeasure (markObject env vm p) ≤ markMeasure vm := by
  rcases markObject_cases env vm p with ⟨e, _⟩ | ⟨_, ⟨o, hd, hm⟩, c, e⟩
  · rw [e]
  · rw [e]
    unfold markMeasure
    have := countP_setMarked_lt p vm.objects o hd hm
    simp only [List.length_append, List.length_singleton]
    omega

theorem foldl_markObject_measure (env : Env) (l : List Ptr) (vm : VM) :
    markMeasure (l.foldl (markObject env) vm) ≤ markMeasure vm := by
  induction l generalizing vm with
  | nil => exact Nat.le_refl _
  | cons p l ih => exact Nat.le_trans (ih _) (markObject_measure env vm p)

theorem blackenObject_measure (env : Env) (vm : VM) (p : Ptr) :
    markMeasure (blackenObject env vm p) ≤ markMeasure vm := by
  cases hd : vm.deref p with
  | none => rw [blackenObject_none env vm p hd]
  | some o => rw [blackenObject_eq_foldl env vm p o hd]; exact foldl_markObject_measure env _ vm

theorem traceLoop_grayStack (env : Env) (fuel : Nat) (vm : VM) (h : markMeasure vm ≤ fuel) :
    (traceLoop env fuel vm).grayStack = [] := by
  induction fuel generalizing vm with
  | zero =>
    unfold traceLoop
    unfold markMeasure at h
    exact List.length_eq_zero.mp (by omega)
  | succ n ih =>
    unfold traceLoop
    cases hp : vm.grayStack.getLast? with
    | none => exact List.getLast?_eq_none_iff.mp hp
    | some p =>
      apply ih
      have h1 := blackenObject_measure env { vm with grayStack := vm.grayStack.dropLast } p
      have h2 : markMeasure { vm with grayStack := vm.grayStack.dropLast } + 1 = markMeasure vm := by
        unfold markMeasure
        have := congrArg List.length (getLast_split hp)
        simp only [List.length_append, List.length_singleton] at this
        simp only [List.length_dropLast]
        omega
      omega

theorem traceReferences_grayStack (env : Env) (vm : VM) :
    (traceReferences env vm).grayStack = [] := by
  unfold traceReferences
  apply traceLoop_grayStack
  unfold markMeasure VM.grayCount
  have := List.countP_le_length (fun o : Obj => !o.isMarked) (l := vm.objects)
  omega

/-! ## Sweep -/

theorem freeObject_outside (env : Env) (vm : VM) (o : Obj) :
    ∃ b, freeObject env vm o = { vm with bytesAllocated := b } := by
  unfold freeObject
  cases o.body <;> exact ⟨_, rfl⟩

theorem sweepLoop_fst (env : Env) (l : List Obj) (vm : VM) :
    (sweepLoop env l vm).1 = (l.filter (fun o => o.isMarked)).map unmark := by
  induction l generalizing vm with
  | nil => rfl
  | cons o l ih =>
    unfold sweepLoop
    by_cases h : o.isMarked = true
    · simp only [h, if_true, List.filter_cons_of_pos, List.map_cons, ih]
      rfl
    · simp only [h, if_false, Bool.false_eq_true, List.filter_cons_of_neg, not_false_eq_true, ih]

theorem sweepLoop_snd_outside (env : Env) (l : List Obj) (vm : VM) :
    ∃ b, (sweepLoop env l vm).2 = { vm with bytesAllocated := b } := by
  induction l generalizing vm with
  | nil => exact ⟨vm.bytesAllocated, rfl⟩
  | cons o l ih =>
    unfold sweepLoop
    by_cases h : o.isMarked = true
    · simp only [h, if_true]
      exact ih vm
    · simp only [h, if_false, Bool.false_eq_true]
      obtain ⟨b1, e1⟩ := freeObject_outside env vm o
      rw [e1]
      obtain ⟨b2, e2⟩ := ih { vm with bytesAllocated := b1 }
      exact ⟨b2, e2⟩

theorem sweepLoop_snd_of_marked (env : Env) (l : List Obj) (vm : VM)
    (h : ∀ o ∈ l, o.isMarked = true) : (sweepLoop env l vm).2 = vm := by
  induction l generalizing vm with
  | nil => rfl
  | cons o l ih =>
    unfold sweepLoop
    have ho := h o (List.mem_cons_self _ _)
    simp only [ho, if_true]
    exact ih vm (fun a ha => h a (List.mem_cons_of_mem _ ha))

theorem sweep_objects (env : Env) (vm : VM) :
    (sweep env vm).objects = (vm.objects.filter (fun o => o.isMarked)).map unmark := by
  unfold sweep
  exact sweepLoop_fst env vm.objects vm

theorem sweep_outside (env : Env) (vm : VM) :
    ∃ objs b, sweep env vm = { vm with objects := objs, bytesAllocated := b } := by
  unfold sweep
  obtain ⟨b, e⟩ := sweepLoop_snd_outside env vm.objects vm
  simp only []
  rw [e]
  exact ⟨_, b, rfl⟩

/-! ## The collection as a whole -/

theorem traceLoop_grows (env : Env) (fuel : Nat) (vm : VM) : Grows vm (traceLoop env fuel vm) := by
  induction fuel generalizing vm with
  | zero => exact Grows.refl vm
  | succ n ih =>
    unfold traceLoop
    cases vm.grayStack.getLast? with
    | none => exact Grows.refl vm
    | some p => exact ((pop_grows vm).trans (blackenObject_grows env _ p)).trans (ih _)

/-- The state at the end of the mark phase. -/
theorem markPhase_grows (env : Env) (vm : VM) :
    Grows vm (traceReferences env (markRoots env vm)) := by
  rw [markRoots_eq_foldl]
  exact (foldl_markObject_grows env _ vm).trans (traceLoop_grows env _ _)

theorem markPhase_inv (env : Env) (vm : VM) (h : Clean vm) :
    MarkInv vm (traceReferences env (markRoots env vm)) [] := by
  rw [markRoots_eq_foldl]
  apply MarkInv.traceLoop
  apply MarkInv.foldl env _ vm (MarkInv.init h)
  intro p hp hne
  exact Reachable.root hp hne

theorem markPhase_roots (env : Env) (vm : VM) :
    ∀ q ∈ rootRefs vm, Closed (traceReferences env (markRoots env vm)) q := by
  intro q hq
  rw [markRoots_eq_foldl]
  exact (traceLoop_grows env _ _).mono q (foldl_markObject_closed env _ vm q hq)

theorem Reachable.ne_null {vm : VM} {p : Ptr} (h : Reachable vm p) : p ≠ NULL := by
  cases h with
  | root _ hne => exact hne
  | step _ _ _ hne => exact hne

theorem markPhase_closed (env : Env) (vm : VM) (h : Clean vm) (p : Ptr) (hp : Reachable vm p) :
    Closed (traceReferences env (markRoots env vm)) p := by
  have hinv := markPhase_inv env vm h
  have hgray := traceReferences_grayStack env (markRoots env vm)
  induction hp with
  | root hr _ => exact markPhase_roots env vm _ hr
  | @step p q o hp hd hq hne ih =>
    rcases hinv.grows.deref_forth hd with ⟨o2, hd2, hu⟩
    have hm : o2.isMarked = true := by
      rcases ih with h0 | h0
      · exact absurd h0 hp.ne_null
      · exact h0 o2 hd2
    have hb : o2.body = o.body := body_of_unmark_eq hu
    exact hinv.black p o2 hd2 hm (by rw [hgray]; simp) (by simp) q (by rw [hb]; exact hq)

theorem mem_deref {vm : VM} {o : Obj} (h : o ∈ vm.objects) :
    ∃ o', vm.deref o.addr = some o' := by
  have : (vm.objects.find? (fun a => a.addr == o.addr)).isSome := by
    rw [List.find?_isSome]
    exact ⟨o, h, by simp⟩
  exact Option.isSome_iff_exists.mp this

/-- At the end of the mark phase of a clean state, an object of the chain is
marked exactly when it is reachable. -/
theorem markPhase_marked_iff (env : Env) (vm : VM) (h : Clean vm) (c : Obj)
    (hc : c ∈ (traceReferences env (markRoots env vm)).objects) (hne : c.addr ≠ NULL) :
    c.isMarked = true ↔ Reachable vm c.addr := by
  have hinv := markPhase_inv env vm h
  constructor
  · exact hinv.sound c hc
  · intro hr
    rcases mem_deref hc with ⟨o', hd⟩
    have hm : o'.isMarked = true := by
      rcases markPhase_closed env vm h _ hr with h0 | h0
      · exact absurd h0 hne
      · exact h0 o' hd
    rw [hinv.uniform c hc o' (deref_mem hd) (deref_addr hd).symm]
    exact hm

theorem collectGarbage_objects (env : Env) (vm : VM) :
    (collectGarbage env vm).objects
      = ((traceReferences env (markRoots env vm)).objects.filter (fun o => o.isMarked)).map
          unmark := by
  unfold collectGarbage
  simp only []
  rw [sweep_objects]

theorem collectGarbage_outside (env : Env) (vm : VM) :
    ∃ objs b n t g c r, collectGarbage env vm = { vm with
      objects := objs, bytesAllocated := b, nextGC := n, strings := t, grayStack := g
      grayCapacity := c, gcRuns := r } := by
  have hg := (markPhase_grows env vm).outside
  unfold collectGarbage
  simp only []
  generalize traceReferences env (markRoots env vm) = vm2 at hg ⊢
  obtain ⟨objs, b, hs⟩ := sweep_outside env { vm2 with strings := tableRemoveWhite vm2 vm2.strings }
  rw [hs]
  simp only []
  rw [hg]
  exact ⟨_, _, _, _, _, _, _, rfl⟩

theorem collectGarbage_rootRefs (env : Env) (vm : VM) :
    rootRefs (collectGarbage env vm) = rootRefs vm := by
  obtain ⟨objs, b, n, t, g, c, r, e⟩ := collectGarbage_outside env vm
  rw [e]
  rfl

theorem collectGarbage_grayStack (env : Env) (vm : VM) :
    (collectGarbage env vm).grayStack = [] := by
  have hgray := traceReferences_grayStack env (markRoots env vm)
  unfold collectGarbage
  simp only []
  generalize traceReferences env (markRoots env vm) = vm2 at hgray ⊢
  obtain ⟨objs, b, hs⟩ := sweep_outside env { vm2 with strings := tableRemoveWhite vm2 vm2.strings }
  rw [hs]
  exact hgray

theorem unmark_of_clear {o : Obj} (h : o.isMarked = false) : unmark o = o := by
  cases o
  simp only [unmark] at *
  simp [h]

/-! ## What a collection keeps -/

theorem find_sweep {l : List Obj} {p : Ptr} {c : Obj}
    (hf : l.find? (fun o => o.addr == p) = some c) (hm : c.isMarked = true) :
    ((l.filter (fun o => o.isMarked)).map unmark).find? (fun o => o.addr == p)
      = some (unmark c) := by
  induction l with
  | nil => simp at hf
  | cons a l ih =>
    by_cases ha : a.addr = p
    · have hac : a = c := by
        simp only [List.find?_cons, ha, beq_self_eq_true] at hf
        exact Option.some.inj hf
      subst hac
      simp only [List.filter_cons, hm, if_true, List.map_cons, List.find?_cons, unmark_addr, ha,
        beq_self_eq_true]
    · have hf' : l.find? (fun o => o.addr == p) = some c := by
        simp only [List.find?_cons] at hf
        have : (a.addr == p) = false := by simpa using ha
        rw [this] at hf
        exact hf
      have hb : (a.addr == p) = false := by simpa using ha
      by_cases hma : a.isMarked = true
      · simp only [List.filter_cons, hma, if_true, List.map_cons, List.find?_cons, unmark_addr,
          hb]
        exact ih hf'
      · simp only [List.filter_cons, hma, if_false, Bool.false_eq_true]
        exact ih hf'

/-- A reachable object of a clean state is found at its address after the
collection, unchanged. -/
theorem collectGarbage_deref (env : Env) (vm : VM) (h : Clean vm) {p : Ptr} {o : Obj}
    (hr : Reachable vm p) (hd : vm.deref p = some o) :
    (collectGarbage env vm).deref p = some o := by
  have hinv := markPhase_inv env vm h
  rcases hinv.grows.deref_forth hd with ⟨c, hdc, hu⟩
  have hm : c.isMarked = true := by
    rcases markPhase_closed env vm h p hr with h0 | h0
    · exact absurd h0 hr.ne_null
    · exact h0 c hdc
  have ho : unmark o = o := unmark_of_clear (h.1 o (deref_mem hd))
  unfold VM.deref
  rw [collectGarbage_objects, find_sweep hdc hm, hu, ho]

theorem collectGarbage_reachable (env : Env) (vm : VM) (h : Clean vm) {p : Ptr}
    (hr : Reachable vm p) : Reachable (collectGarbage env vm) p := by
  induction hr with
  | root hp hne =>
    apply Reachable.root _ hne
    rw [collectGarbage_rootRefs]
    exact hp
  | step hp hd hq hne ih =>
    exact Reachable.step ih (collectGarbage_deref env vm h hp hd) hq hne

theorem collectGarbage_mem_of_reachable (env : Env) (vm : VM) (h : Clean vm) (o : Obj)
    (ho : o ∈ vm.objects) (hr : Reachable vm o.addr) : o ∈ (collectGarbage env vm).objects := by
  have hinv := markPhase_inv env vm h
  have hmem : unmark o ∈ (traceReferences env (markRoots env vm)).objects.map unmark := by
    rw [hinv.grows.shape]
    exact List.mem_map_of_mem _ ho
  rcases List.mem_map.mp hmem with ⟨c, hc, hu⟩
  have ha : c.addr = o.addr := addr_of_unmark_eq hu
  have hm : c.isMarked = true :=
    (markPhase_marked_iff env vm h c hc (by rw [ha]; exact hr.ne_null)).mpr (by rw [ha]; exact hr)
  rw [collectGarbage_objects]
  have : unmark c ∈ ((traceReferences env (markRoots env vm)).objects.filter
      (fun o => o.isMarked)).map unmark :=
    List.mem_map_of_mem _ (List.mem_filter.mpr ⟨hc, hm⟩)
  rw [hu, unmark_of_clear (h.1 o ho)] at this
  exact this

theorem collectGarbage_mem (env : Env) (vm : VM) (h : Clean vm) (o : Obj)
    (ho : o ∈ (collectGarbage env vm).objects) :
    Reachable vm o.addr ∧ o.isMarked = false ∧ o ∈ vm.objects := by
  have hinv := markPhase_inv env vm h
  rw [collectGarbage_objects] at ho
  rcases List.mem_map.mp ho with ⟨c, hc, rfl⟩
  have hc' := List.mem_filter.mp hc
  refine ⟨hinv.sound c hc'.1 hc'.2, rfl, ?_⟩
  have hmem : unmark c ∈ vm.objects.map unmark := by
    rw [← hinv.grows.shape]
    exact List.mem_map_of_mem _ hc'.1
  rcases List.mem_map.mp hmem with ⟨o, ho, hu⟩
  rw [← hu, unmark_of_clear (h.1 o ho)]
  exact ho

theorem collectGarbage_clean (env : Env) (vm : VM) (h : Clean vm) :
    Clean (collectGarbage env vm) :=
  ⟨fun o ho => (collectGarbage_mem env vm h o ho).2.1, by
    unfold VM.grayCount
    rw [collectGarbage_grayStack]
    rfl⟩

theorem map_unmark_of_clear {l : List Obj} (h : ∀ o ∈ l, o.isMarked = false) :
    l.map unmark = l := by
  induction l with
  | nil => rfl
  | cons a l ih =>
    rw [List.map_cons, unmark_of_clear (h a (List.mem_cons_self _ _)),
      ih (fun o ho => h o (List.mem_cons_of_mem _ ho))]

/-- In a clean state all of whose objects are reachable a collection frees
nothing. -/
theorem collectGarbage_fixed (env : Env) (vm : VM) (h : Clean vm)
    (hall : ∀ o ∈ vm.objects, Reachable vm o.addr) :
    (collectGarbage env vm).objects = vm.objects ∧
      (collectGarbage env vm).bytesAllocated = vm.bytesAllocated := by
  have hinv := markPhase_inv env vm h
  have hmarked : ∀ c ∈ (traceReferences env (markRoots env vm)).objects, c.isMarked = true := by
    intro c hc
    have hmem : unmark c ∈ vm.objects.map unmark := by
      rw [← hinv.grows.shape]
      exact List.mem_map_of_mem _ hc
    rcases List.mem_map.mp hmem with ⟨o, ho, hu⟩
    have ha : o.addr = c.addr := addr_of_unmark_eq hu
    have hr : Reachable vm c.addr := by rw [← ha]; exact hall o ho
    exact (markPhase_marked_iff env vm h c hc hr.ne_null).mpr hr
  constructor
  · rw [collectGarbage_objects, List.filter_eq_self.mpr hmarked, hinv.grows.shape,
      map_unmark_of_clear h.1]
  · have hb : (traceReferences env (markRoots env vm)).bytesAllocated = vm.bytesAllocated := by
      rw [hinv.grows.outside]
    unfold collectGarbage sweep
    simp only []
    rw [sweepLoop_snd_of_marked env _ _ hmarked]
    exact hb

/-! ## Claims on the collector -/

theorem sampleVM_clean : Clean sampleVM :=
  ⟨by decide, by decide⟩

theorem sampleVM_reachable_4 : Reachable sampleVM 4 := by
  have h3 : Reachable sampleVM 3 := Reachable.root (by decide) (by decide)
  have h2 : Reachable sampleVM 2 :=
    Reachable.step (o := { addr := 3, isMarked := false, body := .ObjClosure 2 [] }) h3
      (by decide) (by decide) (by decide)
  exact Reachable.step
    (o := { addr := 2, isMarked := false, body := .ObjFunction 0 0 sampleChunk 1 }) h2
    (by decide) (by decide) (by decide)

/-- C1: in a state with all mark bits clear and an empty gray worklist, every
object of the object list that is reachable from the root set through the
per-variant outgoing references is still in the object list, unchanged, after
`collectGarbage`. -/
theorem collectGarbage_keeps_reachable (env : Env) (vm : VM) (hclean : Clean vm)
    (o : Obj) (ho : o ∈ vm.objects) (hr : Reachable vm o.addr) :
    o ∈ (collectGarbage env vm).objects :=
  collectGarbage_mem_of_reachable env vm hclean o ho hr

/-- Witness of C1: the constant string of the sample function, reachable
through closure and function, survives the collection. -/
theorem collectGarbage_keeps_reachable_witness :
    Clean sampleVM ∧
      ({ addr := 4, isMarked := false, body := .ObjString [104, 105] 9 } : Obj)
        ∈ (collectGarbage sampleEnv sampleVM).objects :=
  ⟨sampleVM_clean,
    collectGarbage_keeps_reachable sampleEnv sampleVM sampleVM_clean
      { addr := 4, isMarked := false, body := .ObjString [104, 105] 9 } (by decide)
      sampleVM_reachable_4⟩

/-- C2: in a state with all mark bits clear and an empty gray worklist, after
`collectGarbage` every object left in the object list was in the list before,
is reachable from the root set (in the state before and in the state after)
and has its mark bit clear; an object that was not reachable is no longer in
the list. -/
theorem collectGarbage_only_reachable (env : Env) (vm : VM) (hclean : Clean vm) :
    (∀ o ∈ (collectGarbage env vm).objects,
        o ∈ vm.objects ∧ Reachable vm o.addr ∧ Reachable (collectGarbage env vm) o.addr ∧
          o.isMarked = false) ∧
      (∀ o ∈ vm.objects, ¬ Reachable vm o.addr → o ∉ (collectGarbage env vm).objects) := by
  constructor
  · intro o ho
    have h := collectGarbage_mem env vm hclean o ho
    exact ⟨h.2.2, h.1, collectGarbage_reachable env vm hclean h.1, h.2.1⟩
  · intro o _ hn ho
    exact hn (collectGarbage_mem env vm hclean o ho).1

/-- Witness of C2 on the sample state: the garbage string at address 5 is gone
and the four reachable objects remain. -/
theorem collectGarbage_only_reachable_witness :
    Clean sampleVM ∧
      (collectGarbage sampleEnv sampleVM).objects = sampleHeap.tail ∧
      ∀ o ∈ (collectGarbage sampleEnv sampleVM).objects,
        o ∈ sampleVM.objects ∧ Reachable sampleVM o.addr ∧
          Reachable (collectGarbage sampleEnv sampleVM) o.addr ∧ o.isMarked = false :=
  ⟨sampleVM_clean, by decide,
    (collectGarbage_only_reachable sampleEnv sampleVM sampleVM_clean).1⟩

theorem accountBytes_clean {vm : VM} (h : Clean vm) (oldSize newSize : Nat) :
    Clean (accountBytes vm oldSize newSize) := h

theorem reallocate_clean (env : Env) {vm : VM} (h : Clean vm) (oldSize newSize : Nat) :
    Clean (reallocate env vm oldSize newSize) := by
  unfold reallocate
  simp only []
  split
  · split
    · exact collectGarbage_clean env _ (accountBytes_clean h oldSize newSize)
    · exact accountBytes_clean h oldSize newSize
  · exact accountBytes_clean h oldSize newSize

/-- Every state in which a collection can start has all mark bits clear and
an empty gray stack. -/
theorem GcReach.clean {env : Env} {vm : VM} (h : GcReach env vm) : Clean vm := by
  induction h with
  | initVM ho hg =>
    refine ⟨?_, ?_⟩
    · intro o hmem
      rw [ho] at hmem
      exact absurd hmem (List.not_mem_nil o)
    · unfold VM.grayCount
      rw [hg]
      rfl
  | reallocate _ ih => exact reallocate_clean env ih _ _
  | collectGarbage _ ih => exact collectGarbage_clean env _ ih
  | @allocateObject vm size body _ ih =>
    have hc := reallocate_clean env ih 0 size
    refine ⟨?_, hc.2⟩
    intro o hmem
    have hmem' : o ∈ (Obj.mk (freshAddr (Clox.reallocate env vm 0 size)) false body)
        :: (Clox.reallocate env vm 0 size).objects := hmem
    rcases List.mem_cons.1 hmem' with rfl | hm
    · rfl
    · exact hc.1 o hm
  | @mutator vm vm' _ hmarks hgray ih =>
    refine ⟨?_, ?_⟩
    · intro o hmem
      have h1 : o.isMarked ∈ vm'.objects.map (fun o => o.isMarked) :=
        List.mem_map.2 ⟨o, hmem, rfl⟩
      rw [hmarks] at h1
      obtain ⟨o', ho', he⟩ := List.mem_map.1 h1
      rw [← he]
      exact ih.1 o' ho'
    · unfold VM.grayCount
      rw [hgray]
      exact ih.2

theorem sampleVM_reach : GcReach sampleEnv sampleVM :=
  GcReach.mutator
    (GcReach.allocateObject (GcReach.allocateObject (GcReach.allocateObject
      (GcReach.allocateObject (GcReach.allocateObject (GcReach.initVM rfl rfl)))))
      : GcReach sampleEnv allocatedVM)
    (by decide) (by decide)

/-- C3: in every state in which a collection can start, a second
`collectGarbage` right after the first leaves the object list (same objects,
same order) and `bytesAllocated` as the first left them. -/
theorem collectGarbage_twice (env : Env) (vm : VM) (hreach : GcReach env vm) :
    (collectGarbage env (collectGarbage env vm)).objects = (collectGarbage env vm).objects ∧
      (collectGarbage env (collectGarbage env vm)).bytesAllocated
        = (collectGarbage env vm).bytesAllocated :=
  collectGarbage_fixed env (collectGarbage env vm) (collectGarbage_clean env vm hreach.clean)
    (fun o ho => collectGarbage_reachable env vm hreach.clean
      (collectGarbage_mem env vm hreach.clean o ho).1)

/-- Witness of C3 on the sample state, which five allocations and the writes
of the interpreter to the stack and to the frames produce: the first
collection frees the string at 5, the second frees nothing. -/
theorem collectGarbage_twice_witness :
    GcReach sampleEnv sampleVM ∧
      allocatedVM.objects = sampleVM.objects ∧
      (collectGarbage sampleEnv sampleVM).objects = sampleHeap.tail ∧
      (collectGarbage sampleEnv (collectGarbage sampleEnv sampleVM)).objects
        = (collectGarbage sampleEnv sampleVM).objects ∧
      (collectGarbage sampleEnv (collectGarbage sampleEnv sampleVM)).bytesAllocated
        = (collectGarbage sampleEnv sampleVM).bytesAllocated :=
  ⟨sampleVM_reach, by decide, by decide, collectGarbage_twice sampleEnv sampleVM sampleVM_reach⟩

theorem collectGarbage_nextGC_eq (env : Env) (vm : VM) :
    (collectGarbage env vm).nextGC
      = ((collectGarbage env vm).bytesAllocated * GC_HEAP_GROW_FACTOR) % SIZE_MOD := by
  unfold collectGarbage
  simp only []

/-- Counterexample to C4 as stated: with `bytesAllocated = 2 ^ 63`, a `size_t`
value, the product wraps and `nextGC` is `0`, below `bytesAllocated`. -/
theorem collectGarbage_nextGC_counterexample :
    (collectGarbage sampleEnv hugeVM).bytesAllocated = 2 ^ 63 ∧
      (collectGarbage sampleEnv hugeVM).nextGC = 0 ∧
      ¬ ((collectGarbage sampleEnv hugeVM).nextGC
          = (collectGarbage sampleEnv hugeVM).bytesAllocated * 2) ∧
      ¬ ((collectGarbage sampleEnv hugeVM).nextGC
          ≥ (collectGarbage sampleEnv hugeVM).bytesAllocated) := by
  decide

/-- C4, amended: right after `collectGarbage`, `nextGC` is `bytesAllocated * 2`
reduced modulo `2 ^ 64` (`bytesAllocated` being the value after the sweep);
when that `bytesAllocated` is below `2 ^ 63` the product does not wrap, so
`nextGC = bytesAllocated * 2` and `nextGC ≥ bytesAllocated`. -/
theorem collectGarbage_nextGC (env : Env) (vm : VM) :
    (collectGarbage env vm).nextGC = ((collectGarbage env vm).bytesAllocated * 2) % 2 ^ 64 ∧
      ((collectGarbage env vm).bytesAllocated < 2 ^ 63 →
        (collectGarbage env vm).nextGC = (collectGarbage env vm).bytesAllocated * 2 ∧
          (collectGarbage env vm).nextGC ≥ (collectGarbage env vm).bytesAllocated) := by
  have h := collectGarbage_nextGC_eq env vm
  simp only [GC_HEAP_GROW_FACTOR, SIZE_MOD] at h
  refine ⟨h, fun hlt => ?_⟩
  have : (collectGarbage env vm).bytesAllocated * 2 % 2 ^ 64
      = (collectGarbage env vm).bytesAllocated * 2 := Nat.mod_eq_of_lt (by omega)
  rw [this] at h
  exact ⟨h, by omega⟩

/-- Witness of C4 (amended) on the sample state: 258 bytes are left, the next
collection is due at 516. -/
theorem collectGarbage_nextGC_witness :
    (collectGarbage sampleEnv sampleVM).bytesAllocated < 2 ^ 63 ∧
      (collectGarbage sampleEnv sampleVM).nextGC
        = (collectGarbage sampleEnv sampleVM).bytesAllocated * 2 ∧
      (collectGarbage sampleEnv sampleVM).nextGC
        ≥ (collectGarbage sampleEnv sampleVM).bytesAllocated :=
  ⟨by decide, (collectGarbage_nextGC sampleEnv sampleVM).2 (by decide)⟩

/-! ## Claims on `reallocate` -/

theorem collectGarbage_gcRuns (env : Env) (vm : VM) :
    (collectGarbage env vm).gcRuns = vm.gcRuns + 1 := by
  have hg := (markPhase_grows env vm).outside
  unfold collectGarbage
  simp only []
  generalize traceReferences env (markRoots env vm) = vm2 at hg ⊢
  obtain ⟨objs, b, hs⟩ := sweep_outside env { vm2 with strings := tableRemoveWhite vm2 vm2.strings }
  rw [hs]
  simp only []
  rw [hg]

/-- With `newSize = 0` the function `reallocate` is the accounting step alone. -/
theorem reallocate_zero (env : Env) (vm : VM) (oldSize : Nat) :
    reallocate env vm oldSize 0 = release vm oldSize := by
  unfold reallocate release
  simp

theorem accountBytes_bytesAllocated (vm : VM) (oldSize newSize : Nat) :
    ((accountBytes vm oldSize newSize).bytesAllocated : Int)
      = ((vm.bytesAllocated : Int) + (newSize : Int) - (oldSize : Int)) % (2 ^ 64 : Int) := by
  unfold accountBytes
  simp only [SIZE_MOD]
  rw [Int.toNat_of_nonneg]
  · norm_num
  · apply Int.emod_nonneg
    norm_num

/-- C5: built without `DEBUG_STRESS_GC`, `reallocate` first sets
`bytesAllocated` to `bytesAllocated + newSize - oldSize` in `size_t`
arithmetic (the exact difference whenever that lies in `[0, 2 ^ 64)`), and it
runs a collection, on the state so updated, if and only if `newSize > oldSize`
and the updated `bytesAllocated` is strictly greater than `nextGC`; with
`newSize ≤ oldSize` no collection runs and the object list, mark bits
included, is unchanged. -/
theorem reallocate_policy (env : Env) (vm : VM) (oldSize newSize : Nat) :
    ((accountBytes vm oldSize newSize).bytesAllocated : Int)
        = ((vm.bytesAllocated : Int) + (newSize : Int) - (oldSize : Int)) % (2 ^ 64 : Int) ∧
      (oldSize ≤ vm.bytesAllocated + newSize → vm.bytesAllocated + newSize - oldSize < 2 ^ 64 →
        (accountBytes vm oldSize newSize).bytesAllocated
          = vm.bytesAllocated + newSize - oldSize) ∧
      reallocate env vm oldSize newSize
        = (if newSize > oldSize ∧
              (accountBytes vm oldSize newSize).bytesAllocated > vm.nextGC then
            collectGarbage env (accountBytes vm oldSize newSize)
          else accountBytes vm oldSize newSize) ∧
      ((reallocate env vm oldSize newSize).gcRuns = vm.gcRuns + 1 ↔
        newSize > oldSize ∧ (accountBytes vm oldSize newSize).bytesAllocated > vm.nextGC) ∧
      ((reallocate env vm oldSize newSize).gcRuns ≠ vm.gcRuns + 1 →
        (reallocate env vm oldSize newSize).gcRuns = vm.gcRuns) ∧
      (newSize ≤ oldSize →
        (reallocate env vm oldSize newSize).gcRuns = vm.gcRuns ∧
          (reallocate env vm oldSize newSize).objects = vm.objects) := by
  have hval := accountBytes_bytesAllocated vm oldSize newSize
  have hgc := collectGarbage_gcRuns env (accountBytes vm oldSize newSize)
  have hr : (accountBytes vm oldSize newSize).gcRuns = vm.gcRuns := rfl
  have hn : (accountBytes vm oldSize newSize).nextGC = vm.nextGC := rfl
  have ho : (accountBytes vm oldSize newSize).objects = vm.objects := rfl
  have hre : reallocate env vm oldSize newSize
      = (if newSize > oldSize ∧
            (accountBytes vm oldSize newSize).bytesAllocated > vm.nextGC then
          collectGarbage env (accountBytes vm oldSize newSize)
        else accountBytes vm oldSize newSize) := by
    unfold reallocate
    simp only [hn]
    by_cases h1 : newSize > oldSize
    · by_cases h2 : (accountBytes vm oldSize newSize).bytesAllocated > vm.nextGC
      · simp [h1, h2]
      · simp [h1, h2]
    · simp [h1]
  refine ⟨hval, ?_, hre, ?_, ?_, ?_⟩
  · intro h1 h2
    have h3 : ((vm.bytesAllocated : Int) + (newSize : Int) - (oldSize : Int)) % (2 ^ 64 : Int)
        = (vm.bytesAllocated : Int) + (newSize : Int) - (oldSize : Int) := by
      apply Int.emod_eq_of_lt
      · omega
      · omega
    rw [h3] at hval
    omega
  · rw [hre]
    by_cases h : newSize > oldSize ∧ (accountBytes vm oldSize newSize).bytesAllocated > vm.nextGC
    · simp only [h, and_self, if_true, hgc, hr]
    · simp only [h, if_false, hr, iff_false]
      omega
  · rw [hre]
    by_cases h : newSize > oldSize ∧ (accountBytes vm oldSize newSize).bytesAllocated > vm.nextGC
    · simp only [h, and_self, if_true, hgc, hr]
      intro hc
      exact absurd rfl hc
    · simp only [h, if_false, hr]
      intro _
      trivial
  · intro hle
    rw [hre]
    have h : ¬ (newSize > oldSize ∧ (accountBytes vm oldSize newSize).bytesAllocated > vm.nextGC) := by
      intro hc
      omega
    simp only [h, if_false, hr, ho, and_self]

/-- Witness and sample run of C5: growing a block by 2000000 bytes over the
threshold runs one collection, which frees the garbage string of the sample
heap; shrinking runs none. -/
theorem reallocate_policy_witness :
    (8 ≤ sampleVM.bytesAllocated + 2000000 ∧ sampleVM.bytesAllocated + 2000000 - 8 < 2 ^ 64) ∧
      (accountBytes sampleVM 8 2000000).bytesAllocated = 2000292 ∧
      (reallocate sampleEnv sampleVM 8 2000000).gcRuns = 1 ∧
      (reallocate sampleEnv sampleVM 8 2000000).objects = sampleHeap.tail ∧
      (reallocate sampleEnv sampleVM 16 8).gcRuns = 0 ∧
      (reallocate sampleEnv sampleVM 16 8).objects = sampleHeap :=
  ⟨by decide,
    (reallocate_policy sampleEnv sampleVM 8 2000000).2.1 (by decide) (by decide),
    by decide, by decide,
    ((reallocate_policy sampleEnv sampleVM 16 8).2.2.2.2.2 (by decide)).1,
    ((reallocate_policy sampleEnv sampleVM 16 8).2.2.2.2.2 (by decide)).2⟩

/-! ## `call` -/

theorem call_eq (vm : VM) (closure function : Ptr) (upvalues : List Ptr) (arity argCount : Int)
    (hc : vm.closureAt closure = some (function, upvalues))
    (hf : vm.arityAt function = some arity) :
    call vm closure argCount =
      if argCount ≠ arity then
        some (false, runtimeError vm "Expected %d arguments but got %d." [.int arity, .int argCount])
      else if vm.frameCount = FRAMES_MAX then
        some (false, runtimeError vm "Stack overflow." [])
      else if vm.frameCount < vm.frames.length then
        some (true,
          { vm with
            frames := vm.frames.set vm.frameCount
              { closure := closure
                ip := { function := function, offset := 0 }
                slots := vm.stackTop - argCount - 1 }
            frameCount := vm.frameCount + 1 })
      else none := by
  unfold call
  rw [hc]
  simp only []
  rw [hf]

/-- What `call` does when it returns true. -/
theorem call_true {vm vm' : VM} {closure : Ptr} {argCount : Int}
    (h : call vm closure argCount = some (true, vm')) :
    ∃ function upvalues, vm.closureAt closure = some (function, upvalues) ∧
      vm.arityAt function = some argCount ∧ vm.frameCount ≠ FRAMES_MAX ∧
      vm.frameCount < vm.frames.length ∧
      vm' = { vm with
        frames := vm.frames.set vm.frameCount
          { closure := closure
            ip := { function := function, offset := 0 }
            slots := vm.stackTop - argCount - 1 }
        frameCount := vm.frameCount + 1 } := by
  cases hc : vm.closureAt closure with
  | none =>
    unfold call at h
    rw [hc] at h
    exact Option.noConfusion h
  | some cu =>
    obtain ⟨function, upvalues⟩ := cu
    cases hf : vm.arityAt function with
    | none =>
      unfold call at h
      rw [hc] at h
      simp only [] at h
      rw [hf] at h
      exact Option.noConfusion h
    | some arity =>
      rw [call_eq vm closure function upvalues arity argCount hc hf] at h
      by_cases h1 : argCount ≠ arity
      · simp [h1] at h
      · have h1' : argCount = arity := not_not.mp h1
        by_cases h2 : vm.frameCount = FRAMES_MAX
        · simp [h1', h2] at h
        · by_cases h3 : vm.frameCount < vm.frames.length
          · simp only [h1, h2, h3, if_true, if_false, Option.some.injEq, Prod.mk.injEq,
              true_and] at h
            exact ⟨function, upvalues, rfl, by rw [h1']; exact hf, h2, h3, h.symm⟩
          · simp [h1', h2, h3] at h

/-- What `call` does when it returns false. -/
theorem call_false {vm vm' : VM} {closure : Ptr} {argCount : Int}
    (h : call vm closure argCount = some (false, vm')) :
    ∃ format args, vm' = runtimeError vm format args := by
  cases hc : vm.closureAt closure with
  | none =>
    unfold call at h
    rw [hc] at h
    exact Option.noConfusion h
  | some cu =>
    obtain ⟨function, upvalues⟩ := cu
    cases hf : vm.arityAt function with
    | none =>
      unfold call at h
      rw [hc] at h
      simp only [] at h
      rw [hf] at h
      exact Option.noConfusion h
    | some arity =>
      rw [call_eq vm closure function upvalues arity argCount hc hf] at h
      by_cases h1 : argCount ≠ arity
      · rw [if_pos h1] at h
        simp only [Option.some.injEq, Prod.mk.injEq, true_and] at h
        exact ⟨_, _, h.symm⟩
      · rw [if_neg h1] at h
        by_cases h2 : vm.frameCount = FRAMES_MAX
        · rw [if_pos h2] at h
          simp only [Option.some.injEq, Prod.mk.injEq, true_and] at h
          exact ⟨_, _, h.symm⟩
        · rw [if_neg h2] at h
          by_cases h3 : vm.frameCount < vm.frames.length
          · rw [if_pos h3] at h
            simp at h
          · rw [if_neg h3] at h
            exact Option.noConfusion h

/-! ## Operations that leave the frame stack alone -/

theorem collectGarbage_frames (env : Env) (vm : VM) :
    (collectGarbage env vm).frames = vm.frames ∧
      (collectGarbage env vm).frameCount = vm.frameCount := by
  obtain ⟨objs, b, n, t, g, c, r, e⟩ := collectGarbage_outside env vm
  rw [e]
  exact ⟨rfl, rfl⟩

theorem reallocate_frames (env : Env) (vm : VM) (oldSize newSize : Nat) :
    (reallocate env vm oldSize newSize).frames = vm.frames ∧
      (reallocate env vm oldSize newSize).frameCount = vm.frameCount := by
  unfold reallocate
  simp only []
  split
  · split
    · exact collectGarbage_frames env (accountBytes vm oldSize newSize)
    · exact ⟨rfl, rfl⟩
  · exact ⟨rfl, rfl⟩

theorem allocateObject_frames (env : Env) (vm : VM) (size : Nat) (body : ObjBody) :
    (allocateObject env vm size body).2.frames = vm.frames ∧
      (allocateObject env vm size body).2.frameCount = vm.frameCount :=
  reallocate_frames env vm 0 size

theorem writeSlot_frames {vm vm' : VM} {i : Int} {v : Value} (h : writeSlot vm i v = some vm') :
    vm'.frames = vm.frames ∧ vm'.frameCount = vm.frameCount := by
  unfold writeSlot at h
  split at h
  · cases h
    exact ⟨rfl, rfl⟩
  · exact Option.noConfusion h

theorem push_frames {vm vm' : VM} {v : Value} (h : push vm v = some vm') :
    vm'.frames = vm.frames ∧ vm'.frameCount = vm.frameCount := by
  unfold push at h
  cases hw : writeSlot vm vm.stackTop v with
  | none => rw [hw] at h; exact Option.noConfusion h
  | some vm1 =>
    rw [hw] at h
    have := writeSlot_frames hw
    cases h
    exact this

theorem pop_frames {vm vm' : VM} {v : Value} (h : pop vm = some (v, vm')) :
    vm'.frames = vm.frames ∧ vm'.frameCount = vm.frameCount := by
  unfold pop at h
  simp only [] at h
  split at h
  · cases h
    exact ⟨rfl, rfl⟩
  · exact Option.noConfusion h

theorem closeLoop_frames (last : Int) (l : List Ptr) {vm vm' : VM}
    (h : closeLoop last l vm = some vm') :
    vm'.frames = vm.frames ∧ vm'.frameCount = vm.frameCount := by
  induction l generalizing vm with
  | nil =>
    unfold closeLoop at h
    cases h
    exact ⟨rfl, rfl⟩
  | cons u rest ih =>
    unfold closeLoop at h
    split at h
    · split at h
      · split at h
        · have e := @ih _ h
          exact e
        · exact Option.noConfusion h
      · cases h
        exact ⟨rfl, rfl⟩
    · exact Option.noConfusion h

theorem FrameOK.of_eq {vm vm' : VM} (h : FrameOK vm)
    (e : vm'.frames = vm.frames ∧ vm'.frameCount = vm.frameCount) : FrameOK vm' := by
  unfold FrameOK at *
  rw [e.1, e.2]
  exact h

theorem FrameOK.runtimeError {vm : VM} (h : FrameOK vm) (format : String) (args : List FmtArg) :
    FrameOK (Clox.runtimeError vm format args) :=
  ⟨Nat.zero_le _, h.2⟩

theorem FrameOK.call {vm vm' : VM} {closure : Ptr} {argCount : Int} {b : Bool}
    (h : FrameOK vm) (hc : Clox.call vm closure argCount = some (b, vm')) : FrameOK vm' := by
  cases b with
  | true =>
    obtain ⟨function, upvalues, _, _, hne, _, e⟩ := call_true hc
    rw [e]
    refine ⟨?_, ?_⟩
    · have := h.1
      show vm.frameCount + 1 ≤ FRAMES_MAX
      omega
    · show (vm.frames.set _ _).length = FRAMES_MAX
      rw [List.length_set]
      exact h.2
  | false =>
    obtain ⟨format, args, e⟩ := call_false hc
    rw [e]
    exact h.runtimeError format args

theorem FrameOK.callValue (env : Env) {vm vm' : VM} {callee : Value} {argCount : Int} {b : Bool}
    (h : FrameOK vm) (hc : Clox.callValue env vm callee argCount = some (b, vm')) :
    FrameOK vm' := by
  unfold Clox.callValue at hc
  split at hc
  · split at hc
    · exact Option.noConfusion hc
    · split at hc
      · split at hc
        · exact Option.noConfusion hc
        · rename_i hw
          exact (h.of_eq (writeSlot_frames hw)).call hc
      · simp only [] at hc
        split at hc
        · exact Option.noConfusion hc
        · rename_i vm1 hw
          have h1 : FrameOK vm1 :=
            (h.of_eq (allocateObject_frames env vm _ _)).of_eq (writeSlot_frames hw)
          split at hc
          · split at hc
            · exact h1.call hc
            · exact Option.noConfusion hc
            · split at hc
              · cases hc
                exact h1.runtimeError _ _
              · cases hc
                exact h1
          · exact Option.noConfusion hc
      · exact h.call hc
      · simp only [] at hc
        split at hc
        · rename_i hp
          have e := push_frames hp
          cases hc
          exact h.of_eq e
        · exact Option.noConfusion hc
      · cases hc
        exact h.runtimeError _ _
  · cases hc
    exact h.runtimeError _ _

theorem FrameOK.opReturn {vm vm' : VM} {f : Flow} (h : FrameOK vm)
    (hc : Clox.opReturn vm = some (f, vm')) : FrameOK vm' := by
  unfold Clox.opReturn at hc
  split at hc
  · exact Option.noConfusion hc
  · split at hc
    · exact Option.noConfusion hc
    · split at hc
      · exact Option.noConfusion hc
      · rename_i result vm1 hp
        split at hc
        · exact Option.noConfusion hc
        · rename_i vm2 hcl
          have h2 : FrameOK vm2 := (h.of_eq (pop_frames hp)).of_eq (closeLoop_frames _ _ hcl)
          have h3 : FrameOK { vm2 with frameCount := vm2.frameCount - 1 } :=
            ⟨Nat.le_trans (Nat.sub_le _ _) h2.1, h2.2⟩
          simp only [] at hc
          split at hc
          · split at hc
            · rename_i hp2
              cases hc
              exact h3.of_eq (pop_frames hp2)
            · exact Option.noConfusion hc
          · split at hc
            · rename_i hp2
              cases hc
              exact h3.of_eq
                (show vm'.frames = vm2.frames ∧ vm'.frameCount = vm2.frameCount - 1 from
                  push_frames hp2)
            · exact Option.noConfusion hc

/-- C6: for a closure whose function has arity `N`, `call(closure, N)` returns
true in every state with `frameCount < FRAMES_MAX` (the frame array having its
`FRAMES_MAX` entries); for every `argCount ≠ N`, in every state, it returns
false after the arity error `Expected N arguments but got argCount.`, the
frame array is left as it was and no frame is active. -/
theorem call_arity (vm : VM) (closure function : Ptr) (upvalues : List Ptr) (arity : Int)
    (hc : vm.closureAt closure = some (function, upvalues))
    (hf : vm.arityAt function = some arity) :
    (vm.frames.length = FRAMES_MAX → vm.frameCount < FRAMES_MAX →
      ∃ vm', call vm closure arity = some (true, vm')) ∧
    (∀ argCount : Int, argCount ≠ arity →
      ∃ vm', call vm closure argCount = some (false, vm') ∧
        vm'.stderr = vm.stderr ++
          [{ format := "Expected %d arguments but got %d.", args := [.int arity, .int argCount] }] ∧
        vm'.frames = vm.frames ∧ vm'.frameCount = 0 ∧ vm'.stackTop = 0 ∧
        vm'.openUpvalues = []) := by
  constructor
  · intro hlen hlt
    have h := call_eq vm closure function upvalues arity arity hc hf
    rw [if_neg (fun h => h rfl), if_neg (by omega), if_pos (by omega)] at h
    exact ⟨_, h⟩
  · intro argCount hne
    have h := call_eq vm closure function upvalues arity argCount hc hf
    rw [if_pos hne] at h
    exact ⟨_, h, rfl, rfl, rfl, rfl, rfl⟩

/-- Witness of C6 on the sample state: the closure at 3 has arity 0; calling
it with 0 arguments pushes a frame, with 1 argument (or with -1) it fails. -/
theorem call_arity_witness :
    (sampleVM.closureAt 3 = some (2, []) ∧ sampleVM.arityAt 2 = some 0) ∧
      (sampleVM.frames.length = FRAMES_MAX ∧ sampleVM.frameCount < FRAMES_MAX) ∧
      (∃ vm', call sampleVM 3 0 = some (true, vm')) ∧
      (∃ vm', call sampleVM 3 1 = some (false, vm') ∧
        vm'.stderr = sampleVM.stderr ++
          [{ format := "Expected %d arguments but got %d.", args := [.int 0, .int 1] }] ∧
        vm'.frames = sampleVM.frames ∧ vm'.frameCount = 0 ∧ vm'.stackTop = 0 ∧
        vm'.openUpvalues = []) :=
  ⟨⟨by decide, by decide⟩, ⟨by decide, by decide⟩,
    (call_arity sampleVM 3 2 [] 0 (by decide) (by decide)).1 (by decide) (by decide),
    (call_arity sampleVM 3 2 [] 0 (by decide) (by decide)).2 1 (by decide)⟩

theorem writeSlot_some {vm vm' : VM} {i : Int} {v : Value} (h : writeSlot vm i v = some vm') :
    (0 ≤ i ∧ i < vm.stack.length) ∧ vm' = { vm with stack := vm.stack.set i.toNat v } := by
  unfold writeSlot at h
  split at h
  · rename_i hr
    cases h
    exact ⟨hr, rfl⟩
  · exact Option.noConfusion h

/-- C8: when `call(closure, argCount)` returns true, `frameCount` has grown by
one, the operand stack is unchanged, and the new top frame has the closure,
`ip` at the start of the code of the closure's function, and
`slots = stackTop - argCount - 1`; `callValue` on a bound method first stores
the receiver in the slot `stackTop - argCount - 1`, so when it returns true
that slot, slot 0 of the new frame, holds the receiver, the rest of the stack
is unchanged and the closure of the new frame is the method of the bound
method. -/
theorem call_pushes_frame (env : Env) (vm vm' : VM) (argCount : Int) :
    (∀ closure : Ptr, call vm closure argCount = some (true, vm') →
      vm'.frameCount = vm.frameCount + 1 ∧ vm'.stack = vm.stack ∧ vm'.stackTop = vm.stackTop ∧
      ∃ function upvalues, vm.closureAt closure = some (function, upvalues) ∧
        vm'.frames.get? vm.frameCount = some
          { closure := closure
            ip := { function := function, offset := 0 }
            slots := vm.stackTop - argCount - 1 }) ∧
    (∀ (p : Ptr) (o : Obj) (receiver : Value) (method : Ptr),
      vm.deref p = some o → o.body = .ObjBoundMethod receiver method →
      callValue env vm (.obj p) argCount = some (true, vm') →
      vm'.frameCount = vm.frameCount + 1 ∧ vm'.stackTop = vm.stackTop ∧
      vm'.stack = vm.stack.set (vm.stackTop - argCount - 1).toNat receiver ∧
      readSlot vm' (vm.stackTop - argCount - 1) = some receiver ∧
      ∃ function upvalues, vm.closureAt method = some (function, upvalues) ∧
        vm'.frames.get? vm.frameCount = some
          { closure := method
            ip := { function := function, offset := 0 }
            slots := vm.stackTop - argCount - 1 }) := by
  constructor
  · intro closure h
    obtain ⟨function, upvalues, hc, _, _, hlt, e⟩ := call_true h
    rw [e]
    refine ⟨rfl, rfl, rfl, function, upvalues, hc, ?_⟩
    simp only [List.get?_eq_getElem?]
    rw [List.getElem?_set_self hlt]
  · intro p o receiver method hd hb h
    unfold callValue at h
    simp only [hd, hb] at h
    cases hw : writeSlot vm (vm.stackTop - argCount - 1) receiver with
    | none => rw [hw] at h; exact Option.noConfusion h
    | some vm1 =>
      rw [hw] at h
      simp only [] at h
      obtain ⟨hr, e1⟩ := writeSlot_some hw
      obtain ⟨function, upvalues, hc, _, _, hlt, e⟩ := call_true h
      rw [e, e1]
      rw [e1] at hc hlt
      refine ⟨rfl, rfl, rfl, ?_, function, upvalues, hc, ?_⟩
      · unfold readSlot
        simp only [List.length_set, List.get?_eq_getElem?]
        rw [if_pos hr]
        rw [List.getElem?_set_self (by omega)]
      · simp only [List.get?_eq_getElem?]
        rw [List.getElem?_set_self hlt]

/-- Witness of C8: a plain call of the sample closure, and a call through the
bound method of `boundVM`, whose receiver ends up in slot 1, the base of the
new frame. -/
theorem call_pushes_frame_witness :
    (call sampleVM 3 0 = some (true, sampleCalled) ∧
      boundVM.deref 6
        = some { addr := 6, isMarked := false, body := .ObjBoundMethod (.obj 4) 3 } ∧
      callValue sampleEnv boundVM (.obj 6) 0 = some (true, boundCalled)) ∧
    (sampleCalled.frameCount = sampleVM.frameCount + 1 ∧ sampleCalled.stack = sampleVM.stack) ∧
    (boundCalled.frameCount = boundVM.frameCount + 1 ∧
      boundCalled.stackTop = boundVM.stackTop ∧
      boundCalled.stack = boundVM.stack.set (boundVM.stackTop - 0 - 1).toNat (.obj 4) ∧
      readSlot boundCalled (boundVM.stackTop - 0 - 1) = some (.obj 4)) :=
  ⟨⟨by decide, by decide, by decide⟩,
    ⟨((call_pushes_frame sampleEnv sampleVM sampleCalled 0).1 3 (by decide)).1,
     ((call_pushes_frame sampleEnv sampleVM sampleCalled 0).1 3 (by decide)).2.1⟩,
    ⟨((call_pushes_frame sampleEnv boundVM boundCalled 0).2 6
        { addr := 6, isMarked := false, body := .ObjBoundMethod (.obj 4) 3 } (.obj 4) 3
        (by decide) rfl (by decide)).1,
     ((call_pushes_frame sampleEnv boundVM boundCalled 0).2 6
        { addr := 6, isMarked := false, body := .ObjBoundMethod (.obj 4) 3 } (.obj 4) 3
        (by decide) rfl (by decide)).2.1,
     ((call_pushes_frame sampleEnv boundVM boundCalled 0).2 6
        { addr := 6, isMarked := false, body := .ObjBoundMethod (.obj 4) 3 } (.obj 4) 3
        (by decide) rfl (by decide)).2.2.1,
     ((call_pushes_frame sampleEnv boundVM boundCalled 0).2 6
        { addr := 6, isMarked := false, body := .ObjBoundMethod (.obj 4) 3 } (.obj 4) 3
        (by decide) rfl (by decide)).2.2.2.1⟩⟩

/-! ## `closeUpvalues` -/

theorem find_hoist (u : Ptr) (v : Value) (q : Ptr) (l : List Obj) :
    (hoist u v l).find? (fun o => o.addr == q)
      = (l.find? (fun o => o.addr == q)).map
          (fun o => if o.addr = u then { o with body := .ObjUpvalue (.closedOf u) v } else o) := by
  unfold hoist
  rw [List.find?_map]
  congr 2
  funext o
  simp only [Function.comp]
  split <;> rfl

theorem deref_hoist_ne (vm : VM) (u : Ptr) (v : Value) (ups : List Ptr) {q : Ptr} (h : q ≠ u) :
    ({ vm with objects := hoist u v vm.objects, openUpvalues := ups } : VM).deref q
      = vm.deref q := by
  unfold VM.deref
  simp only []
  rw [find_hoist]
  cases hf : vm.objects.find? (fun o => o.addr == q) with
  | none => rfl
  | some o =>
    have ha : o.addr = q := by
      have := List.find?_some hf
      simpa using this
    have hne : o.addr ≠ u := by rw [ha]; exact h
    simp only [Option.map_some', hne, if_false]

theorem locationAt_congr {a b : VM} {q : Ptr} (h : a.deref q = b.deref q) :
    a.locationAt q = b.locationAt q := by
  unfold VM.locationAt
  rw [h]

theorem OpenAt.congr {a b : VM} {l : List Ptr} {slots : List Int} (h : OpenAt a l slots)
    (hd : ∀ q ∈ l, b.deref q = a.deref q) : OpenAt b l slots := by
  unfold OpenAt at *
  induction h with
  | nil => exact List.Forall₂.nil
  | cons hx _ ih =>
    refine List.Forall₂.cons ?_ (ih (fun q hq => hd q (List.mem_cons_of_mem _ hq)))
    rw [locationAt_congr (hd _ (List.mem_cons_self _ _))]
    exact hx

theorem readSlot_of_range (vm : VM) (i : Int) (h : 0 ≤ i ∧ i < vm.stack.length) :
    ∃ v, readSlot vm i = some v ∧ vm.stack.get? i.toNat = some v := by
  unfold readSlot
  rw [if_pos h]
  have hlt : i.toNat < vm.stack.length := by omega
  exact ⟨vm.stack.get ⟨i.toNat, hlt⟩, List.get?_eq_get hlt, List.get?_eq_get hlt⟩

/-- The loop of `closeUpvalues` on a chain of distinct open upvalues whose
slots from `last` upwards lie in the stack: it closes a first part of the
chain, all at or above `last`, stops at the first upvalue below `last`, and
touches no object outside the part it closes. -/
theorem closeLoop_spec (last : Int) (l : List Ptr) (slots : List Int) (vm : VM)
    (hopen : OpenAt vm l slots) (hnd : l.Nodup)
    (hrange : ∀ i ∈ slots, last ≤ i → 0 ≤ i ∧ i < vm.stack.length) :
    ∃ (closed kept : List Ptr) (cs ks : List Int) (objs : List Obj),
      closeLoop last l vm = some { vm with objects := objs, openUpvalues := kept } ∧
      l = closed ++ kept ∧ slots = cs ++ ks ∧ OpenAt vm closed cs ∧ OpenAt vm kept ks ∧
      (∀ i ∈ cs, last ≤ i) ∧ (∀ i, ks.head? = some i → i < last) ∧
      (∀ q, q ∉ closed → ({ vm with objects := objs, openUpvalues := kept } : VM).deref q
        = vm.deref q) := by
  induction l generalizing vm slots with
  | nil =>
    cases hopen
    exact ⟨[], [], [], [], vm.objects, rfl, rfl, rfl, List.Forall₂.nil, List.Forall₂.nil,
      fun _ h => by simp at h, fun _ h => by simp at h, fun _ _ => rfl⟩
  | cons u rest ih =>
    cases hopen with
    | @cons _ i _ is hu hrest =>
      have hnd' := List.nodup_cons.mp hnd
      unfold closeLoop
      rw [hu]
      simp only []
      by_cases hi : i ≥ last
      · rw [if_pos hi]
        obtain ⟨v, hv, _⟩ := readSlot_of_range vm i (hrange i (List.mem_cons_self _ _) hi)
        rw [hv]
        simp only []
        have hd1 : ∀ q, q ≠ u →
            ({ vm with objects := hoist u v vm.objects, openUpvalues := rest } : VM).deref q
              = vm.deref q := fun q hq => deref_hoist_ne vm u v rest hq
        have hopen1 : OpenAt { vm with objects := hoist u v vm.objects, openUpvalues := rest }
            rest is := by
          apply OpenAt.congr hrest
          intro q hq
          exact hd1 q (fun e => hnd'.1 (e ▸ hq))
        obtain ⟨closed, kept, cs, ks, objs, he, hl, hs, hc, hk, hcs, hks, hdr⟩ :=
          ih is { vm with objects := hoist u v vm.objects, openUpvalues := rest } hopen1 hnd'.2
            (fun j hj => hrange j (List.mem_cons_of_mem _ hj))
        have hmem : ∀ q, q ∈ closed ∨ q ∈ kept → q ≠ u := by
          intro q hq e
          apply hnd'.1
          rw [hl, ← e]
          exact List.mem_append.mpr hq
        refine ⟨u :: closed, kept, i :: cs, ks, objs, he, ?_, ?_, ?_, ?_, ?_, hks, ?_⟩
        · rw [hl]; rfl
        · rw [hs]; rfl
        · refine List.Forall₂.cons hu ?_
          exact OpenAt.congr hc (fun q hq => (hd1 q (hmem q (Or.inl hq))).symm)
        · exact OpenAt.congr hk (fun q hq => (hd1 q (hmem q (Or.inr hq))).symm)
        · intro j hj
          rcases List.mem_cons.mp hj with h | h
          · rw [h]; exact hi
          · exact hcs j h
        · intro q hq
          have hq1 : q ≠ u := fun e => hq (e ▸ List.mem_cons_self _ _)
          have hq2 : q ∉ closed := fun h => hq (List.mem_cons_of_mem _ h)
          exact (hdr q hq2).trans (hd1 q hq1)
      · rw [if_neg hi]
        refine ⟨[], u :: rest, [], i :: is, vm.objects, rfl, rfl, rfl, List.Forall₂.nil,
          List.Forall₂.cons hu hrest, fun _ h => by simp at h, ?_, fun _ _ => rfl⟩
        intro j hj
        simp only [List.head?_cons, Option.some.injEq] at hj
        omega

theorem OpenAt.nodup_of_sorted {vm : VM} {l : List Ptr} {slots : List Int}
    (h : OpenAt vm l slots) (hs : slots.Pairwise (fun a b => a > b)) : l.Nodup := by
  unfold OpenAt at h
  induction h with
  | nil => exact List.nodup_nil
  | @cons u i us is hu hrest ih =>
    have hs' := List.pairwise_cons.mp hs
    refine List.nodup_cons.mpr ⟨?_, ih hs'.2⟩
    intro hmem
    obtain ⟨j, hj, hloc⟩ : ∃ j ∈ is, vm.locationAt u = some (.stack j) := by
      clear ih hs hs' hu
      induction hrest with
      | nil => simp at hmem
      | @cons u' j' us' is' hu' _ ih' =>
        rcases List.mem_cons.mp hmem with e | e
        · exact ⟨j', List.mem_cons_self _ _, e ▸ hu'⟩
        · obtain ⟨j, hj, hl⟩ := ih' e
          exact ⟨j, List.mem_cons_of_mem _ hj, hl⟩
    rw [hu] at hloc
    have : i = j := by
      simpa using hloc
    have := hs'.1 j hj
    omega

theorem OpenAt.mem {vm : VM} {l : List Ptr} {slots : List Int} (h : OpenAt vm l slots)
    {u : Ptr} (hu : u ∈ l) : ∃ i ∈ slots, vm.locationAt u = some (.stack i) := by
  unfold OpenAt at h
  induction h with
  | nil => simp at hu
  | @cons u' j' us' is' hu' _ ih' =>
    rcases List.mem_cons.mp hu with e | e
    · exact ⟨j', List.mem_cons_self _ _, e ▸ hu'⟩
    · obtain ⟨j, hj, hl⟩ := ih' e
      exact ⟨j, List.mem_cons_of_mem _ hj, hl⟩

theorem below_of_sorted {ks : List Int} {last : Int} (hs : ks.Pairwise (fun a b => a > b))
    (hh : ∀ i, ks.head? = some i → i < last) : ∀ i ∈ ks, i < last := by
  cases ks with
  | nil => intro i hi; simp at hi
  | cons k ks =>
    have hk : k < last := hh k rfl
    have hs' := List.pairwise_cons.mp hs
    intro i hi
    rcases List.mem_cons.mp hi with e | e
    · rw [e]; exact hk
    · have := hs'.1 i e
      omega

/-! ## Claims on `closeUpvalues` and `OP_RETURN` -/

theorem OpenAt.append_inv {vm : VM} {closed kept : List Ptr} {cs ks : List Int}
    (hc : OpenAt vm closed cs) (hk : OpenAt vm kept ks) (last : Int)
    (hcs : ∀ i ∈ cs, last ≤ i) (hks : ∀ i ∈ ks, i < last) :
    (closed ++ kept).filter (vm.below last) = kept ∧
      (cs ++ ks).filter (fun i => decide (i < last)) = ks := by
  have h1 : closed.filter (vm.below last) = [] := by
    rw [List.filter_eq_nil_iff]
    intro u hu
    obtain ⟨i, hi, hl⟩ := hc.mem hu
    have := hcs i hi
    simp only [VM.below, hl, decide_eq_true_eq]
    omega
  have h2 : kept.filter (vm.below last) = kept := by
    rw [List.filter_eq_self]
    intro u hu
    obtain ⟨i, hi, hl⟩ := hk.mem hu
    have := hks i hi
    simp only [VM.below, hl, decide_eq_true_eq]
    exact this
  have h3 : cs.filter (fun i => decide (i < last)) = [] := by
    rw [List.filter_eq_nil_iff]
    intro i hi
    have := hcs i hi
    simp only [decide_eq_true_eq]
    omega
  have h4 : ks.filter (fun i => decide (i < last)) = ks := by
    rw [List.filter_eq_self]
    intro i hi
    simp only [decide_eq_true_eq]
    exact hks i hi
  rw [List.filter_append, List.filter_append, h1, h2, h3, h4]
  exact ⟨rfl, rfl⟩

/-- The loop of `closeUpvalues` on a chain sorted by strictly descending slot. -/
theorem closeLoop_sorted (last : Int) (l : List Ptr) (slots : List Int) (vm : VM)
    (hopen : OpenAt vm l slots) (hsorted : slots.Pairwise (fun a b => a > b))
    (hrange : ∀ i ∈ slots, last ≤ i → 0 ≤ i ∧ i < vm.stack.length) :
    ∃ (closed kept : List Ptr) (objs : List Obj),
      closeLoop last l vm = some { vm with objects := objs, openUpvalues := kept } ∧
      l = closed ++ kept ∧ kept = l.filter (vm.below last) ∧
      OpenAt { vm with objects := objs, openUpvalues := kept } kept
        (slots.filter (fun i => decide (i < last))) ∧
      (∀ u ∈ kept, ({ vm with objects := objs, openUpvalues := kept } : VM).deref u
        = vm.deref u) := by
  have hnd := hopen.nodup_of_sorted hsorted
  obtain ⟨closed, kept, cs, ks, objs, he, hl, hs, hc, hk, hcs, hks, hdr⟩ :=
    closeLoop_spec last l slots vm hopen hnd hrange
  have hks' : ∀ i ∈ ks, i < last := by
    rw [hs] at hsorted
    exact below_of_sorted (List.pairwise_append.mp hsorted).2.1 hks
  have hdis : ∀ u ∈ kept, u ∉ closed := by
    intro u hu hc'
    rw [hl] at hnd
    exact (List.nodup_append.mp hnd).2.2 hc' hu
  obtain ⟨f1, f2⟩ := OpenAt.append_inv hc hk last hcs hks'
  refine ⟨closed, kept, objs, he, hl, ?_, ?_, fun u hu => hdr u (hdis u hu)⟩
  · rw [hl, f1]
  · rw [hs, f2]
    exact OpenAt.congr hk (fun u hu => hdr u (hdis u hu))

/-- C10: for an open-upvalue list sorted by strictly descending stack location
(every location from `last` upwards being a slot of the stack),
`closeUpvalues(last)` leaves no upvalue with location `≥ last` in the open
list; the list it leaves is the suffix of the former list made of the
upvalues with location `< last`, and each of these objects is unchanged. -/
theorem closeUpvalues_sorted (vm : VM) (last : Int) (slots : List Int)
    (hopen : OpenAt vm vm.openUpvalues slots) (hsorted : slots.Pairwise (fun a b => a > b))
    (hrange : ∀ i ∈ slots, last ≤ i → 0 ≤ i ∧ i < vm.stack.length) :
    ∃ (vm' : VM) (closed : List Ptr), closeUpvalues vm last = some vm' ∧
      (∀ u ∈ vm'.openUpvalues, ∃ i, vm'.locationAt u = some (.stack i) ∧ i < last) ∧
      vm.openUpvalues = closed ++ vm'.openUpvalues ∧
      vm'.openUpvalues = vm.openUpvalues.filter (vm.below last) ∧
      OpenAt vm' vm'.openUpvalues (slots.filter (fun i => decide (i < last))) ∧
      (∀ u ∈ vm'.openUpvalues, vm'.deref u = vm.deref u) := by
  obtain ⟨closed, kept, objs, he, hl, hf, ho, hd⟩ :=
    closeLoop_sorted last vm.openUpvalues slots vm hopen hsorted hrange
  refine ⟨_, closed, he, ?_, hl, hf, ho, hd⟩
  intro u hu
  obtain ⟨i, hi, hloc⟩ := ho.mem hu
  refine ⟨i, hloc, ?_⟩
  have := (List.mem_filter.mp hi).2
  simpa using this

theorem returningVM_open : OpenAt returningVM returningVM.openUpvalues [3, 1] :=
  List.Forall₂.cons (by decide) (List.Forall₂.cons (by decide) List.Forall₂.nil)

/-- Witness of C10: closing from slot 2 in `returningVM` hoists the upvalue at
11 (slot 3) and keeps the one at 12 (slot 1). -/
theorem closeUpvalues_sorted_witness :
    (OpenAt returningVM returningVM.openUpvalues [3, 1] ∧
      ([3, 1] : List Int).Pairwise (fun a b => a > b) ∧
      ∀ i ∈ ([3, 1] : List Int), (2 : Int) ≤ i → 0 ≤ i ∧ i < returningVM.stack.length) ∧
    closeUpvalues returningVM 2 = some closedVM ∧
    ∃ (vm' : VM) (closed : List Ptr), closeUpvalues returningVM 2 = some vm' ∧
      (∀ u ∈ vm'.openUpvalues, ∃ i, vm'.locationAt u = some (.stack i) ∧ i < 2) ∧
      returningVM.openUpvalues = closed ++ vm'.openUpvalues ∧
      vm'.openUpvalues = returningVM.openUpvalues.filter (returningVM.below 2) ∧
      OpenAt vm' vm'.openUpvalues (([3, 1] : List Int).filter (fun i => decide (i < 2))) ∧
      (∀ u ∈ vm'.openUpvalues, vm'.deref u = returningVM.deref u) :=
  ⟨⟨returningVM_open, by decide, by decide⟩,
    by decide,
    closeUpvalues_sorted returningVM 2 [3, 1] returningVM_open (by decide) (by decide)⟩

theorem pop_of_range (vm : VM) (h : 1 ≤ vm.stackTop ∧ vm.stackTop ≤ vm.stack.length) :
    ∃ v, pop vm = some (v, { vm with stackTop := vm.stackTop - 1 }) ∧
      readSlot vm (vm.stackTop - 1) = some v := by
  obtain ⟨v, hv, _⟩ := readSlot_of_range vm (vm.stackTop - 1) (by omega)
  refine ⟨v, ?_, hv⟩
  unfold pop
  simp only []
  have : readSlot { vm with stackTop := vm.stackTop - 1 } (vm.stackTop - 1) = some v := hv
  rw [this]

theorem push_of_range (vm : VM) (v : Value) (h : 0 ≤ vm.stackTop ∧ vm.stackTop < vm.stack.length) :
    push vm v = some { vm with
      stack := vm.stack.set vm.stackTop.toNat v, stackTop := vm.stackTop + 1 } := by
  unfold push writeSlot
  rw [if_pos h]

/-- The case `OP_RETURN` in a state whose stack pointer lies within the stack
array and whose open upvalues are distinct objects open on slots of the
array: with `frameCount ≥ 2` and a non-empty window it decrements
`frameCount`, sets `stackTop` to the base of the returning frame plus one,
leaves the value that was on top of the stack in the slot at that base and all
slots below the base unchanged, and, the chain being in strictly descending
order of slots, leaves no upvalue in the open list whose location is at or
above that base; with `frameCount = 1` it sets `frameCount` to 0, pops the
return value and one further value, and `run` returns `INTERPRET_OK`. -/
theorem opReturn_spec (vm : VM) (frame : CallFrame) (slots : List Int)
    (hframe : vm.frames.get? (vm.frameCount - 1) = some frame)
    (hopen : OpenAt vm vm.openUpvalues slots) (hnd : vm.openUpvalues.Nodup)
    (hrange : ∀ i ∈ slots, frame.slots ≤ i → 0 ≤ i ∧ i < vm.stack.length)
    (htop : vm.stackTop ≤ vm.stack.length) :
    (2 ≤ vm.frameCount → 0 ≤ frame.slots → frame.slots < vm.stackTop →
      ∃ (vm' : VM) (result : Value), opReturn vm = some (.next, vm') ∧
        readSlot vm (vm.stackTop - 1) = some result ∧
        vm'.frameCount = vm.frameCount - 1 ∧ vm'.stackTop = frame.slots + 1 ∧
        readSlot vm' frame.slots = some result ∧
        (∀ j : Nat, (j : Int) < frame.slots → vm'.stack.get? j = vm.stack.get? j) ∧
        (slots.Pairwise (fun a b => a > b) →
          ∀ u ∈ vm'.openUpvalues, ∃ i, vm'.locationAt u = some (.stack i) ∧ i < frame.slots)) ∧
    (vm.frameCount = 1 → 2 ≤ vm.stackTop →
      ∃ vm' : VM, opReturn vm = some (.ret .INTERPRET_OK, vm') ∧ vm'.frameCount = 0 ∧
        vm'.stackTop = vm.stackTop - 2 ∧ vm'.stack = vm.stack) := by
  obtain ⟨closed, kept, cs, ks, objs, he, hl, hs, hc, hk, hcs, hks, hdr⟩ :=
    closeLoop_spec frame.slots vm.openUpvalues slots { vm with stackTop := vm.stackTop - 1 }
      (OpenAt.congr hopen (fun _ _ => rfl)) hnd hrange
  constructor
  · intro hfc hbase hwin
    obtain ⟨result, hpop, hres⟩ := pop_of_range vm (by omega)
    have hpush := push_of_range
      { vm with
        stackTop := frame.slots, objects := objs, openUpvalues := kept
        frameCount := vm.frameCount - 1 } result
      ⟨hbase, by show frame.slots < (vm.stack.length : Int); omega⟩
    refine ⟨{ vm with
        stack := vm.stack.set frame.slots.toNat result, stackTop := frame.slots + 1
        objects := objs, openUpvalues := kept, frameCount := vm.frameCount - 1 },
      result, ?_, hres, ?_, ?_, ?_, ?_, ?_⟩
    · unfold opReturn
      rw [if_neg (by omega), hframe]
      simp only []
      rw [hpop]
      simp only []
      unfold closeUpvalues
      rw [he]
      simp only []
      rw [if_neg (by omega)]
      rw [hpush]
    · rfl
    · rfl
    · unfold readSlot
      simp only [List.length_set, List.get?_eq_getElem?]
      rw [if_pos ⟨hbase, by omega⟩, List.getElem?_set_self (by omega)]
    · intro j hj
      simp only [List.get?_eq_getElem?]
      rw [List.getElem?_set_ne (by omega)]
    · intro hsorted u hu
      have hks' : ∀ i ∈ ks, i < frame.slots := by
        rw [hs] at hsorted
        exact below_of_sorted (List.pairwise_append.mp hsorted).2.1 hks
      have hu' : u ∈ kept := hu
      obtain ⟨i, hi, hloc⟩ := hk.mem hu'
      have hnc : u ∉ closed := by
        intro hc'
        rw [hl] at hnd
        exact (List.nodup_append.mp hnd).2.2 hc' hu'
      refine ⟨i, ?_, hks' i hi⟩
      have hd := hdr u hnc
      have : ({ vm with stackTop := vm.stackTop - 1 } : VM).locationAt u = some (.stack i) := hloc
      rw [← this]
      exact locationAt_congr hd
  · intro hfc htwo
    obtain ⟨result, hpop, _⟩ := pop_of_range vm (by omega)
    obtain ⟨v2, hpop2, _⟩ := pop_of_range
      { vm with
        stackTop := vm.stackTop - 1, objects := objs, openUpvalues := kept
        frameCount := vm.frameCount - 1 } ⟨by show 1 ≤ vm.stackTop - 1; omega,
          by show vm.stackTop - 1 ≤ (vm.stack.length : Int); omega⟩
    refine ⟨{ vm with
        stackTop := vm.stackTop - 1 - 1, objects := objs, openUpvalues := kept
        frameCount := vm.frameCount - 1 }, ?_, ?_, ?_, ?_⟩
    · unfold opReturn
      rw [if_neg (by omega), hframe]
      simp only []
      rw [hpop]
      simp only []
      unfold closeUpvalues
      rw [he]
      simp only []
      rw [if_pos (by omega)]
      rw [hpop2]
    · show vm.frameCount - 1 = 0
      omega
    · show vm.stackTop - 1 - 1 = vm.stackTop - 2
      omega
    · rfl

/-! ## Allocation leaves the mutator's state alone -/

theorem HeapOnly.same (vm : VM) : HeapOnly vm vm :=
  ⟨_, _, _, _, _, _, _, rfl⟩

theorem HeapOnly.andThen {a b c : VM} (h1 : HeapOnly a b) (h2 : HeapOnly b c) : HeapOnly a c := by
  obtain ⟨o1, b1, n1, t1, g1, c1, r1, e1⟩ := h1
  obtain ⟨o2, b2, n2, t2, g2, c2, r2, e2⟩ := h2
  subst e1
  exact ⟨o2, b2, n2, t2, g2, c2, r2, e2⟩

theorem HeapOnly.stack {a b : VM} (h : HeapOnly a b) : b.stack = a.stack ∧ b.stackTop = a.stackTop := by
  obtain ⟨_, _, _, _, _, _, _, e⟩ := h
  rw [e]
  exact ⟨rfl, rfl⟩

theorem HeapOnly.frames {a b : VM} (h : HeapOnly a b) :
    b.frames = a.frames ∧ b.frameCount = a.frameCount := by
  obtain ⟨_, _, _, _, _, _, _, e⟩ := h
  rw [e]
  exact ⟨rfl, rfl⟩

theorem HeapOnly.stderr {a b : VM} (h : HeapOnly a b) : b.stderr = a.stderr := by
  obtain ⟨_, _, _, _, _, _, _, e⟩ := h
  rw [e]

theorem HeapOnly.roots {a b : VM} (h : HeapOnly a b) :
    b.globals = a.globals ∧ b.initString = a.initString ∧ b.openUpvalues = a.openUpvalues ∧
      b.compilerRoots = a.compilerRoots := by
  obtain ⟨_, _, _, _, _, _, _, e⟩ := h
  rw [e]
  exact ⟨rfl, rfl, rfl, rfl⟩

theorem HeapOnly.rootRefs {a b : VM} (h : HeapOnly a b) : rootRefs b = rootRefs a := by
  obtain ⟨_, _, _, _, _, _, _, e⟩ := h
  rw [e]
  rfl

theorem HeapOnly.readSlot {a b : VM} (h : HeapOnly a b) (i : Int) : readSlot b i = readSlot a i := by
  unfold Clox.readSlot
  rw [h.stack.1]

theorem HeapOnly.peek {a b : VM} (h : HeapOnly a b) (d : Int) : peek b d = peek a d := by
  unfold Clox.peek
  rw [h.readSlot, h.stack.2]

theorem collectGarbage_heapOnly (env : Env) (vm : VM) : HeapOnly vm (collectGarbage env vm) := by
  obtain ⟨objs, b, n, t, g, c, r, e⟩ := collectGarbage_outside env vm
  exact ⟨objs, b, n, t, g, c, r, e⟩

theorem accountBytes_heapOnly (vm : VM) (oldSize newSize : Nat) :
    HeapOnly vm (accountBytes vm oldSize newSize) :=
  ⟨_, _, _, _, _, _, _, rfl⟩

theorem reallocate_heapOnly (env : Env) (vm : VM) (oldSize newSize : Nat) :
    HeapOnly vm (reallocate env vm oldSize newSize) := by
  unfold reallocate
  simp only []
  split
  · split
    · exact (accountBytes_heapOnly vm oldSize newSize).andThen (collectGarbage_heapOnly env _)
    · exact accountBytes_heapOnly vm oldSize newSize
  · exact accountBytes_heapOnly vm oldSize newSize

theorem allocateObject_heapOnly (env : Env) (vm : VM) (size : Nat) (body : ObjBody) :
    HeapOnly vm (allocateObject env vm size body).2 := by
  unfold allocateObject
  exact (reallocate_heapOnly env vm 0 size).andThen ⟨_, _, _, _, _, _, _, rfl⟩

theorem allocateString_heapOnly (env : Env) (vm : VM) (chars : List Nat) (hash : Nat) :
    HeapOnly vm (allocateString env vm chars hash).2 := by
  unfold allocateString
  exact (allocateObject_heapOnly env vm _ _).andThen ⟨_, _, _, _, _, _, _, rfl⟩

theorem takeString_heapOnly (env : Env) (vm : VM) (chars : List Nat) :
    HeapOnly vm (takeString env vm chars).2 := by
  unfold takeString
  simp only []
  split
  · exact accountBytes_heapOnly vm _ 0
  · exact allocateString_heapOnly env vm _ _

theorem copyString_heapOnly (env : Env) (vm : VM) (chars : List Nat) :
    HeapOnly vm (copyString env vm chars).2 := by
  unfold copyString
  simp only []
  split
  · exact HeapOnly.same vm
  · exact (reallocate_heapOnly env vm _ _).andThen (allocateString_heapOnly env _ _ _)

/-! ## Roots survive an allocation -/

theorem bodyAt_eq_some {vm : VM} {p : Ptr} {o : Obj} (h : vm.deref p = some o) :
    vm.bodyAt p = some o.body := by
  unfold VM.bodyAt
  rw [h]
  rfl

theorem collectGarbage_bodyAt_root (env : Env) (vm : VM) {q : Ptr} (hq : q ∈ rootRefs vm)
    (hne : q ≠ NULL) : (collectGarbage env vm).bodyAt q = vm.bodyAt q := by
  cases hd : vm.deref q with
  | none =>
    have h1 : vm.bodyAt q = none := by unfold VM.bodyAt; rw [hd]; rfl
    rw [h1]
    cases hd' : (collectGarbage env vm).deref q with
    | none => unfold VM.bodyAt; rw [hd']; rfl
    | some o' =>
      exfalso
      have hm := deref_mem hd'
      have ha := deref_addr hd'
      rw [collectGarbage_objects] at hm
      rcases List.mem_map.mp hm with ⟨c, hc, hu⟩
      have hc' := (List.mem_filter.mp hc).1
      have hmem : unmark c ∈ vm.objects.map unmark := by
        rw [← (markPhase_grows env vm).shape]
        exact List.mem_map_of_mem _ hc'
      rcases List.mem_map.mp hmem with ⟨o, ho, hu'⟩
      have hao : o.addr = q := by
        have e1 : o.addr = c.addr := addr_of_unmark_eq hu'
        have e2 : (unmark c).addr = o'.addr := congrArg Obj.addr hu
        rw [e1, ← ha, ← e2]
        rfl
      rcases mem_deref ho with ⟨o2, ho2⟩
      rw [hao, hd] at ho2
      exact Option.noConfusion ho2
  | some o =>
    rcases (markPhase_grows env vm).deref_forth hd with ⟨c, hdc, hu⟩
    have hm : c.isMarked = true := by
      rcases markPhase_roots env vm q hq with h0 | h0
      · exact absurd h0 hne
      · exact h0 c hdc
    have hdf : (collectGarbage env vm).deref q = some (unmark c) := by
      unfold VM.deref
      rw [collectGarbage_objects, find_sweep hdc hm]
    rw [bodyAt_eq_some hdf, bodyAt_eq_some hd]
    exact congrArg some (body_of_unmark_eq hu)

theorem reallocate_bodyAt_root (env : Env) (vm : VM) (oldSize newSize : Nat) {q : Ptr}
    (hq : q ∈ rootRefs vm) (hne : q ≠ NULL) :
    (reallocate env vm oldSize newSize).bodyAt q = vm.bodyAt q := by
  unfold reallocate
  simp only []
  split
  · split
    · exact collectGarbage_bodyAt_root env (accountBytes vm oldSize newSize) hq hne
    · rfl
  · rfl

theorem le_foldl_max (l : List Nat) (a x : Nat) (h : x ≤ a ∨ x ∈ l) : x ≤ l.foldl max a := by
  induction l generalizing a with
  | nil =>
    rcases h with h | h
    · exact h
    · simp at h
  | cons y l ih =>
    rw [List.foldl_cons]
    apply ih
    rcases h with h | h
    · exact Or.inl (Nat.le_trans h (Nat.le_max_left _ _))
    · rcases List.mem_cons.mp h with h | h
      · exact Or.inl (h ▸ Nat.le_max_right _ _)
      · exact Or.inr h

theorem addr_lt_freshAddr {vm : VM} {o : Obj} (h : o ∈ vm.objects) : o.addr < freshAddr vm := by
  unfold freshAddr
  exact Nat.lt_succ_of_le (le_foldl_max (vm.objects.map (fun o => o.addr)) 0 o.addr
    (Or.inr (List.mem_map_of_mem _ h)))

theorem freshAddr_ne_null (vm : VM) : freshAddr vm ≠ NULL := by
  unfold freshAddr NULL
  exact Nat.succ_ne_zero _

theorem deref_cons_fresh (vm : VM) (body : ObjBody) (q : Ptr) :
    ({ vm with objects :=
        { addr := freshAddr vm, isMarked := false, body := body } :: vm.objects } : VM).deref q
      = if q = freshAddr vm then
          some { addr := freshAddr vm, isMarked := false, body := body }
        else vm.deref q := by
  unfold VM.deref
  simp only [List.find?_cons]
  by_cases h : q = freshAddr vm
  · subst h
    simp
  · have : (freshAddr vm == q) = false := by
      simp only [beq_eq_false_iff_ne, ne_eq]
      exact fun e => h e.symm
    rw [this, if_neg h]

theorem deref_freshAddr (vm : VM) : vm.deref (freshAddr vm) = none := by
  cases hd : vm.deref (freshAddr vm) with
  | none => rfl
  | some o =>
    have h1 := addr_lt_freshAddr (deref_mem hd)
    have h2 := deref_addr hd
    exact absurd h2 (Nat.ne_of_lt h1)

/-- What `allocateObject` returns: a new object at a non-null address that was
free, while every other address keeps what allocation left there. -/
theorem allocateObject_deref (env : Env) (vm : VM) (size : Nat) (body : ObjBody) :
    (allocateObject env vm size body).1 ≠ NULL ∧
      (reallocate env vm 0 size).deref (allocateObject env vm size body).1 = none ∧
      (allocateObject env vm size body).2.deref (allocateObject env vm size body).1
        = some { addr := (allocateObject env vm size body).1, isMarked := false, body := body } ∧
      ∀ q, q ≠ (allocateObject env vm size body).1 →
        (allocateObject env vm size body).2.deref q = (reallocate env vm 0 size).deref q := by
  unfold allocateObject
  simp only []
  refine ⟨freshAddr_ne_null _, deref_freshAddr _, ?_, ?_⟩
  · rw [deref_cons_fresh, if_pos rfl]
  · intro q hq
    rw [deref_cons_fresh, if_neg hq]

theorem allocateObject_bodyAt_root (env : Env) (vm : VM) (size : Nat) (body : ObjBody) {q : Ptr}
    {b : ObjBody} (hq : q ∈ rootRefs vm) (hne : q ≠ NULL) (hb : vm.bodyAt q = some b) :
    (allocateObject env vm size body).2.bodyAt q = some b ∧
      q ≠ (allocateObject env vm size body).1 := by
  obtain ⟨_, hfree, _, hother⟩ := allocateObject_deref env vm size body
  have h1 := reallocate_bodyAt_root env vm 0 size hq hne
  rw [hb] at h1
  have hqn : q ≠ (allocateObject env vm size body).1 := by
    intro e
    rw [← e] at hfree
    unfold VM.bodyAt at h1
    rw [hfree] at h1
    exact Option.noConfusion h1
  refine ⟨?_, hqn⟩
  unfold VM.bodyAt at h1 ⊢
  rw [hother q hqn]
  exact h1

theorem mem_rootRefs_of_slot {vm : VM} {i : Int} {p : Ptr}
    (h : readSlot vm i = some (.obj p)) (hlt : i < vm.stackTop) : p ∈ rootRefs vm := by
  unfold readSlot at h
  split at h
  · rename_i hr
    unfold Clox.rootRefs
    simp only [List.mem_append, List.mem_flatMap]
    refine Or.inl (Or.inl (Or.inl (Or.inl (Or.inl ⟨.obj p, ?_, by simp [valueRefs]⟩))))
    rw [List.mem_iff_getElem?]
    refine ⟨i.toNat, ?_⟩
    rw [List.getElem?_take]
    rw [if_pos (by omega)]
    simpa using h
  · exact Option.noConfusion h

/-! ## `captureUpvalue` -/

theorem locationAt_of_bodyAt {a b : VM} {q : Ptr} (h : a.bodyAt q = b.bodyAt q) :
    a.locationAt q = b.locationAt q := by
  unfold VM.bodyAt at h
  unfold VM.locationAt
  cases ha : a.deref q with
  | none =>
    cases hb : b.deref q with
    | none => rfl
    | some ob =>
      rw [ha, hb] at h
      exact Option.noConfusion h
  | some oa =>
    cases hb : b.deref q with
    | none =>
      rw [ha, hb] at h
      exact Option.noConfusion h
    | some ob =>
      rw [ha, hb] at h
      have e : oa.body = ob.body := Option.some.inj h
      simp only [e]

theorem bodyAt_of_locationAt {vm : VM} {q : Ptr} {loc : Loc} (h : vm.locationAt q = some loc) :
    ∃ b, vm.bodyAt q = some b := by
  unfold VM.locationAt at h
  cases hd : vm.deref q with
  | none => rw [hd] at h; exact Option.noConfusion h
  | some o => exact ⟨o.body, bodyAt_eq_some hd⟩

theorem OpenAt.of_bodyAt {a b : VM} {l : List Ptr} {slots : List Int} (h : OpenAt a l slots)
    (hb : ∀ q ∈ l, b.bodyAt q = a.bodyAt q) : OpenAt b l slots := by
  unfold OpenAt at *
  induction h with
  | nil => exact List.Forall₂.nil
  | cons hx _ ih =>
    refine List.Forall₂.cons ?_ (ih (fun q hq => hb q (List.mem_cons_of_mem _ hq)))
    rw [locationAt_of_bodyAt (hb _ (List.mem_cons_self _ _))]
    exact hx

theorem OpenAt.append {vm : VM} {l1 l2 : List Ptr} {s1 s2 : List Int} (h1 : OpenAt vm l1 s1)
    (h2 : OpenAt vm l2 s2) : OpenAt vm (l1 ++ l2) (s1 ++ s2) := by
  unfold OpenAt at *
  induction h1 with
  | nil => exact h2
  | cons hx _ ih => exact List.Forall₂.cons hx ih

theorem mem_rootRefs_of_open {vm : VM} {u : Ptr} (h : u ∈ vm.openUpvalues) : u ∈ rootRefs vm := by
  unfold Clox.rootRefs
  simp only [List.mem_append]
  exact Or.inl (Or.inl (Or.inl (Or.inr h)))

/-- The walk of `captureUpvalue` down a chain of open upvalues: it passes the
upvalues above the slot and stops at the first one at or below it. -/
theorem captureWalk_spec (vm : VM) (slot : Int) (l : List Ptr) (slots : List Int)
    (hopen : OpenAt vm l slots) :
    ∃ (passed rest : List Ptr) (ps rs : List Int),
      captureWalk vm slot l = some (passed, rest) ∧ l = passed ++ rest ∧ slots = ps ++ rs ∧
      OpenAt vm passed ps ∧ OpenAt vm rest rs ∧ (∀ i ∈ ps, i > slot) ∧
      (∀ i, rs.head? = some i → i ≤ slot) := by
  unfold OpenAt at hopen
  induction hopen with
  | nil =>
    exact ⟨[], [], [], [], rfl, rfl, rfl, List.Forall₂.nil, List.Forall₂.nil,
      fun _ h => by simp at h, fun _ h => by simp at h⟩
  | @cons u i us is hu hrest ih =>
    obtain ⟨passed, rest, ps, rs, he, hl, hs, hp, hr, hps, hrs⟩ := ih
    unfold captureWalk
    rw [hu]
    simp only []
    by_cases hi : i > slot
    · rw [if_pos hi, he]
      refine ⟨u :: passed, rest, i :: ps, rs, rfl, by rw [hl]; rfl, by rw [hs]; rfl,
        List.Forall₂.cons hu hp, hr, ?_, hrs⟩
      intro j hj
      rcases List.mem_cons.mp hj with h | h
      · rw [h]; exact hi
      · exact hps j h
    · rw [if_neg hi]
      refine ⟨[], u :: us, [], i :: is, rfl, rfl, rfl, List.Forall₂.nil,
        List.Forall₂.cons hu hrest, fun _ h => by simp at h, ?_⟩
      intro j hj
      simp only [List.head?_cons, Option.some.injEq] at hj
      omega

/-- The tail of `captureUpvalue` after a miss, on a chain split at the place
where the new upvalue belongs. -/
theorem linkUpvalue_spec (env : Env) (vm : VM) (slot : Int) (passed rest : List Ptr)
    (ps rs : List Int) (hl : vm.openUpvalues = passed ++ rest)
    (hp : OpenAt vm passed ps) (hr : OpenAt vm rest rs)
    (hnull : ∀ u ∈ vm.openUpvalues, u ≠ NULL) :
    (linkUpvalue env vm slot passed rest).2.locationAt (linkUpvalue env vm slot passed rest).1
        = some (.stack slot) ∧
      (linkUpvalue env vm slot passed rest).2.openUpvalues
        = passed ++ (linkUpvalue env vm slot passed rest).1 :: rest ∧
      (linkUpvalue env vm slot passed rest).1 ∉ vm.openUpvalues ∧
      (∀ q ∈ vm.openUpvalues,
        (linkUpvalue env vm slot passed rest).2.bodyAt q = vm.bodyAt q) ∧
      OpenAt (linkUpvalue env vm slot passed rest).2
        (passed ++ (linkUpvalue env vm slot passed rest).1 :: rest) (ps ++ slot :: rs) := by
  have hall : OpenAt vm vm.openUpvalues (ps ++ rs) := by
    rw [hl]
    exact hp.append hr
  have hkeep : ∀ q ∈ vm.openUpvalues,
      (allocateObject env vm (env.sizeofObj .OBJ_UPVALUE) (.ObjUpvalue (.stack slot) .nil)).2.bodyAt q
          = vm.bodyAt q ∧
        q ≠ (allocateObject env vm (env.sizeofObj .OBJ_UPVALUE)
          (.ObjUpvalue (.stack slot) .nil)).1 := by
    intro q hq
    obtain ⟨i, _, hloc⟩ := hall.mem hq
    obtain ⟨b, hb⟩ := bodyAt_of_locationAt hloc
    have := allocateObject_bodyAt_root env vm (env.sizeofObj .OBJ_UPVALUE)
      (.ObjUpvalue (.stack slot) .nil) (mem_rootRefs_of_open hq) (hnull q hq) hb
    rw [hb]
    exact this
  obtain ⟨_, _, hnew, _⟩ := allocateObject_deref env vm (env.sizeofObj .OBJ_UPVALUE)
    (.ObjUpvalue (.stack slot) .nil)
  have hloc : (linkUpvalue env vm slot passed rest).2.locationAt
      (linkUpvalue env vm slot passed rest).1 = some (.stack slot) := by
    unfold linkUpvalue newUpvalue VM.locationAt
    simp only []
    have : ({ (allocateObject env vm (env.sizeofObj .OBJ_UPVALUE)
          (.ObjUpvalue (.stack slot) .nil)).2 with
        openUpvalues := passed ++ (allocateObject env vm (env.sizeofObj .OBJ_UPVALUE)
          (.ObjUpvalue (.stack slot) .nil)).1 :: rest } : VM).deref
        (allocateObject env vm (env.sizeofObj .OBJ_UPVALUE) (.ObjUpvalue (.stack slot) .nil)).1
        = _ := hnew
    rw [this]
  have hbody : ∀ q ∈ vm.openUpvalues,
      (linkUpvalue env vm slot passed rest).2.bodyAt q = vm.bodyAt q :=
    fun q hq => (hkeep q hq).1
  refine ⟨hloc, rfl, fun hmem => (hkeep _ hmem).2 rfl, hbody, ?_⟩
  have hp' : OpenAt (linkUpvalue env vm slot passed rest).2 passed ps :=
    hp.of_bodyAt (fun q hq => hbody q (by rw [hl]; exact List.mem_append_left _ hq))
  have hr' : OpenAt (linkUpvalue env vm slot passed rest).2 rest rs :=
    hr.of_bodyAt (fun q hq => hbody q (by rw [hl]; exact List.mem_append_right _ hq))
  exact hp'.append (List.Forall₂.cons hloc hr')

/-! ## Every report of `runtimeError` ends the run with the stacks reset -/

theorem runtimeError_reported (vm : VM) (format : String) (args : List FmtArg) :
    Reported vm (runtimeError vm format args) :=
  ⟨⟨_, rfl⟩, rfl, rfl, rfl⟩

theorem Reported.of_stderr {vm vm1 vm' : VM} (h : Reported vm1 vm') (e : vm1.stderr = vm.stderr) :
    Reported vm vm' := by
  unfold Reported at *
  rw [← e]
  exact h

theorem CallOutcome.of_quiet {vm vm1 vm' : VM} {b : Bool} (h : CallOutcome vm1 b vm')
    (e : vm1.stderr = vm.stderr) : CallOutcome vm b vm' := by
  rcases h with ⟨hb, hs⟩ | ⟨hb, hr⟩
  · exact Or.inl ⟨hb, hs.trans e⟩
  · exact Or.inr ⟨hb, hr.of_stderr e⟩

theorem writeSlot_stderr {vm vm' : VM} {i : Int} {v : Value} (h : writeSlot vm i v = some vm') :
    vm'.stderr = vm.stderr := by
  rw [(writeSlot_some h).2]

theorem push_some {vm vm' : VM} {v : Value} (h : push vm v = some vm') :
    (0 ≤ vm.stackTop ∧ vm.stackTop < vm.stack.length) ∧
      vm' = { vm with stack := vm.stack.set vm.stackTop.toNat v, stackTop := vm.stackTop + 1 } := by
  unfold push at h
  cases hw : writeSlot vm vm.stackTop v with
  | none => rw [hw] at h; exact Option.noConfusion h
  | some vm1 =>
    rw [hw] at h
    obtain ⟨hr, e⟩ := writeSlot_some hw
    subst e
    exact ⟨hr, (Option.some.inj h).symm⟩

theorem pop_some {vm vm' : VM} {v : Value} (h : pop vm = some (v, vm')) :
    readSlot vm (vm.stackTop - 1) = some v ∧ vm' = { vm with stackTop := vm.stackTop - 1 } := by
  unfold pop at h
  simp only [] at h
  have hrs : readSlot { vm with stackTop := vm.stackTop - 1 } (vm.stackTop - 1)
      = readSlot vm (vm.stackTop - 1) := rfl
  rw [hrs] at h
  cases hr : readSlot vm (vm.stackTop - 1) with
  | none => rw [hr] at h; exact Option.noConfusion h
  | some w =>
    rw [hr] at h
    simp only [Option.some.injEq, Prod.mk.injEq] at h
    exact ⟨congrArg some h.1, h.2.symm⟩

theorem push_stderr {vm vm' : VM} {v : Value} (h : push vm v = some vm') :
    vm'.stderr = vm.stderr := by
  rw [(push_some h).2]

theorem pop_stderr {vm vm' : VM} {v : Value} (h : pop vm = some (v, vm')) :
    vm'.stderr = vm.stderr := by
  rw [(pop_some h).2]

theorem call_outcome {vm vm' : VM} {closure : Ptr} {argCount : Int} {b : Bool}
    (h : call vm closure argCount = some (b, vm')) : CallOutcome vm b vm' := by
  cases b with
  | true =>
    obtain ⟨_, _, _, _, _, _, e⟩ := call_true h
    rw [e]
    exact Or.inl ⟨rfl, rfl⟩
  | false =>
    obtain ⟨format, args, e⟩ := call_false h
    rw [e]
    exact Or.inr ⟨rfl, runtimeError_reported vm format args⟩

theorem callValue_outcome (env : Env) {vm vm' : VM} {callee : Value} {argCount : Int} {b : Bool}
    (h : callValue env vm callee argCount = some (b, vm')) : CallOutcome vm b vm' := by
  unfold callValue at h
  split at h
  · split at h
    · exact Option.noConfusion h
    · split at h
      · split at h
        · exact Option.noConfusion h
        · rename_i hw
          exact (call_outcome h).of_quiet (writeSlot_stderr hw)
      · simp only [] at h
        split at h
        · exact Option.noConfusion h
        · rename_i vm1 hw
          have e1 : vm1.stderr = vm.stderr :=
            (writeSlot_stderr hw).trans (allocateObject_heapOnly env vm _ _).stderr
          split at h
          · split at h
            · exact (call_outcome h).of_quiet e1
            · exact Option.noConfusion h
            · split at h
              · cases h
                exact Or.inr ⟨rfl, (runtimeError_reported vm1 _ _).of_stderr e1⟩
              · cases h
                exact Or.inl ⟨rfl, e1⟩
          · exact Option.noConfusion h
      · exact call_outcome h
      · simp only [] at h
        split at h
        · rename_i hp
          have e := push_stderr hp
          cases h
          exact Or.inl ⟨rfl, e⟩
        · exact Option.noConfusion h
      · cases h
        exact Or.inr ⟨rfl, runtimeError_reported vm _ _⟩
  · cases h
    exact Or.inr ⟨rfl, runtimeError_reported vm _ _⟩

theorem invokeFromClass_outcome {vm vm' : VM} {cls name : Ptr} {argCount : Int} {b : Bool}
    (h : invokeFromClass vm cls name argCount = some (b, vm')) : CallOutcome vm b vm' := by
  unfold invokeFromClass at h
  split at h
  · exact Option.noConfusion h
  · rename_i methods _
    simp only [] at h
    cases hf : tableGet methods name with
    | none =>
      rw [hf] at h
      simp only [Option.isSome_none, Bool.false_eq_true, if_false, unassigned] at h
      split at h
      · rename_i hm
        exact Option.noConfusion hm
      · exact Option.noConfusion h
    | some v =>
      rw [hf] at h
      simp only [Option.isSome_some, if_true] at h
      split at h
      · rename_i hv hm
        cases hv
        exact call_outcome h
      · exact Option.noConfusion h

theorem instanceAt_of_not_instance {vm vm1 : VM} {p : Ptr}
    (h : isObjType vm (.obj p) .OBJ_INSTANCE = some false) (e : vm1.objects = vm.objects) :
    vm1.instanceAt p = none := by
  unfold isObjType at h
  simp only [] at h
  unfold VM.instanceAt VM.deref
  rw [e]
  unfold VM.deref at h
  cases hd : vm.objects.find? (fun o => o.addr == p) with
  | none => rfl
  | some o =>
    rw [hd] at h
    simp only [Option.some.injEq, decide_eq_false_iff_not] at h
    have hbody : ∀ body : ObjBody, ¬ body.type = ObjType.OBJ_INSTANCE →
        (match body with
          | ObjBody.ObjInstance cls fields => some (cls, fields)
          | _ => none) = none := by
      intro body hne
      cases body <;> first
        | rfl
        | exact absurd rfl hne
    exact hbody o.body h

theorem invoke_outcome (env : Env) {vm vm' : VM} {name : Ptr} {argCount : Int} {b : Bool}
    (h : invoke env vm name argCount = some (b, vm')) : CallOutcome vm b vm' := by
  unfold invoke at h
  split at h
  · exact Option.noConfusion h
  · rename_i receiver _
    split at h
    · exact Option.noConfusion h
    · rename_i isInstance hty
      simp only [] at h
      split at h
      · rename_i p _
        cases isInstance with
        | false =>
          simp only [Bool.false_eq_true, if_false] at h
          have hi : (runtimeError vm "Only instances have methods." []).instanceAt p = none :=
            instanceAt_of_not_instance hty rfl
          rw [hi] at h
          exact Option.noConfusion h
        | true =>
          simp only [if_true] at h
          split at h
          · exact Option.noConfusion h
          · split at h
            · split at h
              · exact Option.noConfusion h
              · rename_i hw
                exact (callValue_outcome env h).of_quiet (writeSlot_stderr hw)
            · exact invokeFromClass_outcome h
      · exact Option.noConfusion h

theorem bindMethod_outcome (env : Env) {vm vm' : VM} {cls name : Ptr} {b : Bool}
    (h : bindMethod env vm cls name = some (b, vm')) : CallOutcome vm b vm' := by
  unfold bindMethod at h
  split at h
  · exact Option.noConfusion h
  · split at h
    · split at h
      · exact Option.noConfusion h
      · cases h
        exact Or.inr ⟨rfl, runtimeError_reported vm _ _⟩
    · split at h
      · exact Option.noConfusion h
      · simp only [] at h
        split at h
        · exact Option.noConfusion h
        · rename_i hp
          split at h
          · exact Option.noConfusion h
          · rename_i hq
            have e := (push_stderr hq).trans ((pop_stderr hp).trans
              (allocateObject_heapOnly env vm _ _).stderr)
            cases h
            exact Or.inl ⟨rfl, e⟩
    · exact Option.noConfusion h

/-! ## The cases of `run` that can report an error -/

theorem CaseOutcome.next_of {vm vm' : VM} (e : vm'.stderr = vm.stderr) :
    CaseOutcome vm .next vm' :=
  Or.inl ⟨rfl, e⟩

theorem CaseOutcome.error (vm : VM) (format : String) (args : List FmtArg) :
    CaseOutcome vm (.ret .INTERPRET_RUNTIME_ERROR) (runtimeError vm format args) :=
  Or.inr ⟨rfl, runtimeError_reported vm format args⟩

theorem CaseOutcome.of_silent {vm vm1 vm' : VM} {f : Flow} (h : CaseOutcome vm1 f vm')
    (e : vm1.stderr = vm.stderr) : CaseOutcome vm f vm' := by
  rcases h with ⟨hb, hs⟩ | ⟨hb, hr⟩
  · exact Or.inl ⟨hb, hs.trans e⟩
  · exact Or.inr ⟨hb, hr.of_stderr e⟩

/-- The way every case turns the result of the call machinery into the next
step of `run`. -/
theorem CaseOutcome.of_call {vm vm' : VM} {f : Flow} {r : Option (Bool × VM)}
    (h : (match r with
      | none => none
      | some (false, vm1) => some (Flow.ret .INTERPRET_RUNTIME_ERROR, vm1)
      | some (true, vm1) => some (Flow.next, vm1)) = some (f, vm'))
    (hr : ∀ b vm1, r = some (b, vm1) → CallOutcome vm b vm1) :
    CaseOutcome vm f vm' := by
  cases r with
  | none => exact Option.noConfusion h
  | some p =>
    obtain ⟨b, vm1⟩ := p
    have ho := hr b vm1 rfl
    cases b with
    | false =>
      simp only [Option.some.injEq, Prod.mk.injEq] at h
      obtain ⟨rfl, rfl⟩ := h
      rcases ho with ⟨hb, _⟩ | ⟨_, hrep⟩
      · exact Bool.noConfusion hb
      · exact Or.inr ⟨rfl, hrep⟩
    | true =>
      simp only [Option.some.injEq, Prod.mk.injEq] at h
      obtain ⟨rfl, rfl⟩ := h
      rcases ho with ⟨_, hs⟩ | ⟨hb, _⟩
      · exact Or.inl ⟨rfl, hs⟩
      · exact Bool.noConfusion hb

theorem binaryOp_outcome {vm vm' : VM} {op : Nat → Nat → Value} {f : Flow}
    (h : binaryOp vm op = some (f, vm')) : CaseOutcome vm f vm' := by
  unfold binaryOp at h
  split at h
  · exact Option.noConfusion h
  · split at h
    · exact Option.noConfusion h
    · split at h
      · exact Option.noConfusion h
      · rename_i hp1
        split at h
        · exact Option.noConfusion h
        · rename_i hp2
          split at h
          · exact Option.noConfusion h
          · rename_i hp3
            cases h
            exact CaseOutcome.next_of
              ((push_stderr hp3).trans ((pop_stderr hp2).trans (pop_stderr hp1)))
    · cases h
      exact CaseOutcome.error vm _ _
  · cases h
    exact CaseOutcome.error vm _ _

theorem opGetGlobal_outcome {vm vm' : VM} {name : Ptr} {f : Flow}
    (h : opGetGlobal vm name = some (f, vm')) : CaseOutcome vm f vm' := by
  unfold opGetGlobal at h
  split at h
  · split at h
    · exact Option.noConfusion h
    · cases h
      exact CaseOutcome.error vm _ _
  · split at h
    · exact Option.noConfusion h
    · rename_i hp
      cases h
      exact CaseOutcome.next_of (push_stderr hp)

theorem opSetGlobal_outcome {vm vm' : VM} {name : Ptr} {f : Flow}
    (h : opSetGlobal vm name = some (f, vm')) : CaseOutcome vm f vm' := by
  unfold opSetGlobal at h
  split at h
  · exact Option.noConfusion h
  · simp only [] at h
    split at h
    · split at h
      · exact Option.noConfusion h
      · cases h
        exact (CaseOutcome.error _ _ _).of_silent rfl
    · cases h
      exact CaseOutcome.next_of rfl

theorem opGetProperty_outcome (env : Env) {vm vm' : VM} {name : Ptr} {f : Flow}
    (h : opGetProperty env vm name = some (f, vm')) : CaseOutcome vm f vm' := by
  unfold opGetProperty at h
  split at h
  · exact Option.noConfusion h
  · split at h
    · exact Option.noConfusion h
    · cases h
      exact CaseOutcome.error vm _ _
    · split at h
      · split at h
        · exact Option.noConfusion h
        · split at h
          · split at h
            · exact Option.noConfusion h
            · rename_i hp1
              split at h
              · exact Option.noConfusion h
              · rename_i hp2
                cases h
                exact CaseOutcome.next_of ((push_stderr hp2).trans (pop_stderr hp1))
          · exact CaseOutcome.of_call h (fun _ _ e => bindMethod_outcome env e)
      · exact Option.noConfusion h

theorem opSetProperty_outcome {vm vm' : VM} {name : Ptr} {f : Flow}
    (h : opSetProperty vm name = some (f, vm')) : CaseOutcome vm f vm' := by
  unfold opSetProperty at h
  split at h
  · exact Option.noConfusion h
  · split at h
    · exact Option.noConfusion h
    · cases h
      exact CaseOutcome.error vm _ _
    · split at h
      · split at h
        · exact Option.noConfusion h
        · simp only [] at h
          split at h
          · exact Option.noConfusion h
          · rename_i hp1
            split at h
            · exact Option.noConfusion h
            · rename_i hp2
              split at h
              · exact Option.noConfusion h
              · rename_i hp3
                have e1 := pop_stderr hp1
                cases h
                exact CaseOutcome.next_of ((push_stderr hp3).trans ((pop_stderr hp2).trans e1))
      · exact Option.noConfusion h

theorem opGetSuper_outcome (env : Env) {vm vm' : VM} {name : Ptr} {f : Flow}
    (h : opGetSuper env vm name = some (f, vm')) : CaseOutcome vm f vm' := by
  unfold opGetSuper at h
  split at h
  · rename_i hp
    exact (CaseOutcome.of_call h (fun _ _ e => bindMethod_outcome env e)).of_silent (pop_stderr hp)
  · exact Option.noConfusion h

theorem concatenate_stderr (env : Env) {vm vm' : VM} (h : concatenate env vm = some vm') :
    vm'.stderr = vm.stderr := by
  unfold concatenate at h
  split at h
  · split at h
    · simp only [] at h
      split at h
      · split at h
        · split at h
          · exact Option.noConfusion h
          · rename_i hp1
            split at h
            · exact Option.noConfusion h
            · rename_i hp2
              exact (push_stderr h).trans ((pop_stderr hp2).trans ((pop_stderr hp1).trans
                ((reallocate_heapOnly env vm _ _).andThen (takeString_heapOnly env _ _)).stderr))
        · exact Option.noConfusion h
      · exact Option.noConfusion h
    · exact Option.noConfusion h
  · exact Option.noConfusion h

theorem opAdd_outcome (env : Env) {vm vm' : VM} {f : Flow}
    (h : opAdd env vm = some (f, vm')) : CaseOutcome vm f vm' := by
  unfold opAdd at h
  split at h
  · exact Option.noConfusion h
  · split at h
    · exact Option.noConfusion h
    · simp only [] at h
      split at h
      · exact Option.noConfusion h
      · split at h
        · exact Option.noConfusion h
        · rename_i hc
          cases h
          exact CaseOutcome.next_of (concatenate_stderr env hc)
      · split at h
        · split at h
          · exact Option.noConfusion h
          · split at h
            · exact Option.noConfusion h
            · rename_i hp1
              split at h
              · exact Option.noConfusion h
              · rename_i hp2
                split at h
                · exact Option.noConfusion h
                · rename_i hp3
                  cases h
                  exact CaseOutcome.next_of
                    ((push_stderr hp3).trans ((pop_stderr hp2).trans (pop_stderr hp1)))
          · cases h
            exact CaseOutcome.error vm _ _
        · cases h
          exact CaseOutcome.error vm _ _

theorem opNegate_outcome (env : Env) {vm vm' : VM} {f : Flow}
    (h : opNegate env vm = some (f, vm')) : CaseOutcome vm f vm' := by
  unfold opNegate at h
  split at h
  · exact Option.noConfusion h
  · split at h
    · exact Option.noConfusion h
    · rename_i hp1
      split at h
      · exact Option.noConfusion h
      · rename_i hp2
        cases h
        exact CaseOutcome.next_of ((push_stderr hp2).trans (pop_stderr hp1))
  · cases h
    exact CaseOutcome.error vm _ _

theorem opCall_outcome (env : Env) {vm vm' : VM} {argCount : Int} {f : Flow}
    (h : opCall env vm argCount = some (f, vm')) : CaseOutcome vm f vm' := by
  unfold opCall at h
  split at h
  · exact Option.noConfusion h
  · exact CaseOutcome.of_call h (fun _ _ e => callValue_outcome env e)

theorem opInvoke_outcome (env : Env) {vm vm' : VM} {name : Ptr} {argCount : Int} {f : Flow}
    (h : opInvoke env vm name argCount = some (f, vm')) : CaseOutcome vm f vm' :=
  CaseOutcome.of_call h (fun _ _ e => invoke_outcome env e)

theorem opSuperInvoke_outcome {vm vm' : VM} {name : Ptr} {argCount : Int} {f : Flow}
    (h : opSuperInvoke vm name argCount = some (f, vm')) : CaseOutcome vm f vm' := by
  unfold opSuperInvoke at h
  split at h
  · rename_i hp
    exact (CaseOutcome.of_call h (fun _ _ e => invokeFromClass_outcome e)).of_silent (pop_stderr hp)
  · exact Option.noConfusion h

theorem opInherit_outcome {vm vm' : VM} {f : Flow}
    (h : opInherit vm = some (f, vm')) : CaseOutcome vm f vm' := by
  unfold opInherit at h
  split at h
  · exact Option.noConfusion h
  · split at h
    · exact Option.noConfusion h
    · cases h
      exact CaseOutcome.error vm _ _
    · split at h
      · split at h
        · simp only [] at h
          split at h
          · exact Option.noConfusion h
          · rename_i hp
            have e1 := pop_stderr hp
            cases h
            exact CaseOutcome.next_of e1
        · exact Option.noConfusion h
      · exact Option.noConfusion h

theorem runCase_outcome (env : Env) {vm vm' : VM} {c : FailingCase} {f : Flow}
    (h : runCase env vm c = some (f, vm')) : CaseOutcome vm f vm' := by
  cases c with
  | OP_GET_GLOBAL name => exact opGetGlobal_outcome h
  | OP_SET_GLOBAL name => exact opSetGlobal_outcome h
  | OP_GET_PROPERTY name => exact opGetProperty_outcome env h
  | OP_SET_PROPERTY name => exact opSetProperty_outcome h
  | OP_GET_SUPER name => exact opGetSuper_outcome env h
  | OP_GREATER => exact binaryOp_outcome h
  | OP_LESS => exact binaryOp_outcome h
  | OP_ADD => exact opAdd_outcome env h
  | OP_SUBTRACT => exact binaryOp_outcome h
  | OP_MULTIPLY => exact binaryOp_outcome h
  | OP_DIVIDE => exact binaryOp_outcome h
  | OP_NEGATE => exact opNegate_outcome env h
  | OP_CALL argCount => exact opCall_outcome env h
  | OP_INVOKE name argCount => exact opInvoke_outcome env h
  | OP_SUPER_INVOKE name argCount => exact opSuperInvoke_outcome h
  | OP_INHERIT => exact opInherit_outcome h

/-! ## The table primitives -/

theorem find_key_none {entries : List Entry} {key : Ptr}
    (h : entries.find? (fun e => e.key == key) = none) :
    entries.any (fun e => e.key == key) = false := by
  induction entries with
  | nil => rfl
  | cons e rest ih =>
    rw [List.find?_cons] at h
    cases hk : (e.key == key) with
    | true => rw [hk] at h; exact Option.noConfusion h
    | false =>
      rw [hk] at h
      rw [List.any_cons, hk, ih h]
      rfl

theorem find_key_some {entries : List Entry} {key : Ptr} {e : Entry}
    (h : entries.find? (fun e => e.key == key) = some e) :
    entries.any (fun e => e.key == key) = true := by
  induction entries with
  | nil => exact Option.noConfusion h
  | cons x rest ih =>
    rw [List.find?_cons] at h
    cases hk : (x.key == key) with
    | true => rw [List.any_cons, hk]; rfl
    | false =>
      rw [hk] at h
      rw [List.any_cons, hk, ih h]
      rfl

theorem tableGet_none_iff {table : Table} {key : Ptr} :
    tableGet table key = none ↔ table.entries.any (fun e => e.key == key) = false := by
  unfold tableGet
  cases hf : table.entries.find? (fun e => e.key == key) with
  | none => exact ⟨fun _ => find_key_none hf, fun _ => rfl⟩
  | some e =>
    constructor
    · intro h
      exact Option.noConfusion h
    · intro h
      rw [find_key_some hf] at h
      exact Bool.noConfusion h

/-- The function `tableSet` answers true exactly for a key without binding. -/
theorem tableSet_isNew (table : Table) (key : Ptr) (value : Value) :
    (tableSet table key value).1 = true ↔ tableGet table key = none := by
  rw [tableGet_none_iff]
  unfold tableSet
  cases h : table.entries.any (fun e => e.key == key) with
  | true => simp
  | false => simp

theorem find_map_same (entries : List Entry) (key : Ptr) (value : Value)
    (h : entries.any (fun e => e.key == key) = true) :
    ((entries.map (fun e => if e.key = key then { e with value := value } else e)).find?
      (fun e => e.key == key)).map (fun e => e.value) = some value := by
  induction entries with
  | nil => exact Bool.noConfusion h
  | cons x rest ih =>
    rw [List.map_cons, List.find?_cons]
    by_cases hk : x.key = key
    · rw [if_pos hk]
      have : (({ x with value := value } : Entry).key == key) = true := by
        simp only [beq_iff_eq]
        exact hk
      rw [this]
      rfl
    · rw [if_neg hk]
      have hx : (x.key == key) = false := by
        simp only [beq_eq_false_iff_ne, ne_eq]
        exact hk
      rw [hx]
      rw [List.any_cons, hx, Bool.false_or] at h
      exact ih h

theorem find_map_other (entries : List Entry) (key other : Ptr) (value : Value)
    (hne : other ≠ key) :
    ((entries.map (fun e => if e.key = key then { e with value := value } else e)).find?
      (fun e => e.key == other)).map (fun e => e.value)
      = (entries.find? (fun e => e.key == other)).map (fun e => e.value) := by
  induction entries with
  | nil => rfl
  | cons x rest ih =>
    rw [List.map_cons, List.find?_cons, List.find?_cons]
    by_cases hk : x.key = key
    · rw [if_pos hk]
      have h1 : (({ x with value := value } : Entry).key == other) = false := by
        simp only [beq_eq_false_iff_ne, ne_eq]
        intro h
        exact hne (h.symm.trans hk)
      have h2 : (x.key == other) = false := by
        simp only [beq_eq_false_iff_ne, ne_eq]
        intro h
        exact hne (h.symm.trans hk)
      rw [h1]
      exact ih
    · rw [if_neg hk]
      cases hx : (x.key == other) with
      | true => rfl
      | false => exact ih

theorem tableGet_tableSet_same (table : Table) (key : Ptr) (value : Value) :
    tableGet (tableSet table key value).2 key = some value := by
  unfold tableSet tableGet
  cases h : table.entries.any (fun e => e.key == key) with
  | true =>
    simp only [if_true]
    exact find_map_same table.entries key value h
  | false =>
    simp only [Bool.false_eq_true, if_false]
    have hn : table.entries.find? (fun e => e.key == key) = none := by
      cases hf : table.entries.find? (fun e => e.key == key) with
      | none => rfl
      | some e =>
        rw [find_key_some hf] at h
        exact Bool.noConfusion h
    rw [List.find?_append, hn]
    simp

theorem tableGet_tableSet_other (table : Table) {key other : Ptr} (value : Value)
    (hne : other ≠ key) :
    tableGet (tableSet table key value).2 other = tableGet table other := by
  unfold tableSet tableGet
  cases h : table.entries.any (fun e => e.key == key) with
  | true =>
    simp only [if_true]
    exact find_map_other table.entries key other value hne
  | false =>
    simp only [Bool.false_eq_true, if_false]
    rw [List.find?_append]
    cases hf : table.entries.find? (fun e => e.key == other) with
    | some e => rfl
    | none =>
      have hk : ((key == other) = false) := by
        simp only [beq_eq_false_iff_ne, ne_eq]
        exact fun e => hne e.symm
      simp [hk]

theorem tableGet_tableDelete_same (table : Table) (key : Ptr) :
    tableGet (tableDelete table key).2 key = none := by
  unfold tableDelete tableGet
  simp only [Option.map_eq_none', List.find?_eq_none, List.mem_filter]
  intro e he
  simpa using he.2

theorem tableGet_tableDelete_other (table : Table) {key other : Ptr} (hne : other ≠ key) :
    tableGet (tableDelete table key).2 other = tableGet table other := by
  unfold tableDelete tableGet
  simp only []
  congr 1
  induction table.entries with
  | nil => rfl
  | cons x rest ih =>
    by_cases hk : x.key = key
    · have h1 : (x.key != key) = false := by simp [hk]
      have h2 : (x.key == other) = false := by
        simp only [beq_eq_false_iff_ne, ne_eq]
        intro h
        exact hne (h.symm.trans hk)
      rw [List.filter_cons, h1, List.find?_cons, h2]
      simpa using ih
    · have h1 : (x.key != key) = true := by simp [hk]
      rw [List.filter_cons, h1, if_pos rfl, List.find?_cons, List.find?_cons]
      cases hx : (x.key == other) with
      | true => rfl
      | false => exact ih

/-! ## Stack steps within the bounds of the stack -/

theorem peek_range {vm : VM} {d : Int} {v : Value} (h : peek vm d = some v) :
    0 ≤ vm.stackTop - 1 - d ∧ vm.stackTop - 1 - d < vm.stack.length := by
  unfold peek readSlot at h
  split at h
  · rename_i hr
    exact hr
  · exact Option.noConfusion h

theorem readSlot_set (vm : VM) (stack : List Value) (i : Int) (v : Value)
    (h : 0 ≤ i ∧ i < stack.length) :
    readSlot { vm with stack := stack.set i.toNat v } i = some v := by
  unfold readSlot
  have hlen : (stack.set i.toNat v).length = stack.length := List.length_set _ _ _
  have h1 : 0 ≤ i ∧ i < ((stack.set i.toNat v).length : Int) := by
    rw [hlen]
    exact h
  rw [if_pos h1]
  have hlt : i.toNat < stack.length := by omega
  simp only [List.get?_eq_getElem?]
  rw [List.getElem?_set_self hlt]

/-- The steps `pop(); push(value)` on a stack with a top slot. -/
theorem replaceTop (vm : VM) (value : Value)
    (h : 0 ≤ vm.stackTop - 1 ∧ vm.stackTop - 1 < vm.stack.length) :
    ∃ top vm1 vm2, pop vm = some (top, vm1) ∧ push vm1 value = some vm2 ∧
      vm2 = { vm with stack := vm.stack.set (vm.stackTop - 1).toNat value } ∧
      peek vm2 0 = some value := by
  obtain ⟨top, hpop, _⟩ := pop_of_range vm (by omega)
  have hpush := push_of_range { vm with stackTop := vm.stackTop - 1 } value
    (by
      show 0 ≤ vm.stackTop - 1 ∧ vm.stackTop - 1 < (vm.stack.length : Int)
      exact h)
  have hst : vm.stackTop - 1 + 1 = vm.stackTop := by omega
  have e : ({ ({ vm with stackTop := vm.stackTop - 1 } : VM) with
        stack := vm.stack.set (vm.stackTop - 1).toNat value
        stackTop := vm.stackTop - 1 + 1 } : VM)
      = { vm with stack := vm.stack.set (vm.stackTop - 1).toNat value } := by
    rw [hst]
  refine ⟨top, _, _, hpop, hpush, e, ?_⟩
  rw [e]
  unfold peek
  have h0 : vm.stackTop - 1 - 0 = vm.stackTop - 1 := by omega
  show readSlot { vm with stack := vm.stack.set (vm.stackTop - 1).toNat value }
    (vm.stackTop - 1 - 0) = some value
  rw [h0]
  exact readSlot_set vm vm.stack (vm.stackTop - 1) value h

theorem isObjType_of_bodyAt {vm : VM} {p : Ptr} {body : ObjBody} (h : vm.bodyAt p = some body)
    (type : ObjType) : isObjType vm (.obj p) type = some (decide (body.type = type)) := by
  unfold VM.bodyAt at h
  unfold isObjType
  simp only []
  cases hd : vm.deref p with
  | none => rw [hd] at h; exact Option.noConfusion h
  | some o =>
    rw [hd] at h
    simp only [Option.map_some', Option.some.injEq] at h
    simp only [h]

theorem instanceAt_iff_bodyAt {vm : VM} {p cls : Ptr} {fields : Table} :
    vm.instanceAt p = some (cls, fields) ↔ vm.bodyAt p = some (.ObjInstance cls fields) := by
  unfold VM.instanceAt VM.bodyAt
  cases vm.deref p with
  | none => simp
  | some o =>
    cases hb : o.body <;> simp [hb]

theorem classAt_iff_bodyAt {vm : VM} {p name : Ptr} {methods : Table} :
    vm.classAt p = some (name, methods) ↔ vm.bodyAt p = some (.ObjClass name methods) := by
  unfold VM.classAt VM.bodyAt
  cases vm.deref p with
  | none => simp
  | some o =>
    cases hb : o.body <;> simp [hb]

theorem stringAt_of_bodyAt {vm : VM} {p : Ptr} {chars : List Nat} {hash : Nat}
    (h : vm.bodyAt p = some (.ObjString chars hash)) : vm.stringAt p = some chars := by
  unfold VM.bodyAt at h
  unfold VM.stringAt
  cases hd : vm.deref p with
  | none => rw [hd] at h; exact Option.noConfusion h
  | some o =>
    rw [hd] at h
    simp only [Option.map_some', Option.some.injEq] at h
    simp only [h]

theorem bodyAt_of_stringAt {vm : VM} {p : Ptr} {chars : List Nat}
    (h : vm.stringAt p = some chars) : ∃ hash, vm.bodyAt p = some (.ObjString chars hash) := by
  unfold VM.stringAt at h
  unfold VM.bodyAt
  cases hd : vm.deref p with
  | none => rw [hd] at h; exact Option.noConfusion h
  | some o =>
    rw [hd] at h
    simp only [] at h
    cases hb : o.body <;> rw [hb] at h <;> simp only [] at h
    all_goals first
      | exact Option.noConfusion h
      | (cases h; exact ⟨_, congrArg some hb⟩)

/-! ## `tableAddAll` and writes to the fields of an object -/

theorem foldl_tableSet_other (entries : List Entry) (dst : Table) (key : Ptr)
    (h : ∀ e ∈ entries, e.key ≠ key) :
    tableGet (entries.foldl (fun t e => (tableSet t e.key e.value).2) dst) key
      = tableGet dst key := by
  induction entries generalizing dst with
  | nil => rfl
  | cons x rest ih =>
    rw [List.foldl_cons, ih _ (fun e he => h e (List.mem_cons_of_mem _ he))]
    exact tableGet_tableSet_other dst x.value (fun e => h x (List.mem_cons_self _ _) e.symm)

theorem foldl_tableSet_same (entries : List Entry) (dst : Table) (key : Ptr) (e : Entry)
    (hnd : (entries.map (fun e => e.key)).Nodup)
    (hf : entries.find? (fun e => e.key == key) = some e) :
    tableGet (entries.foldl (fun t e => (tableSet t e.key e.value).2) dst) key
      = some e.value := by
  induction entries generalizing dst with
  | nil => exact Option.noConfusion hf
  | cons x rest ih =>
    rw [List.map_cons, List.nodup_cons] at hnd
    rw [List.find?_cons] at hf
    rw [List.foldl_cons]
    cases hk : (x.key == key) with
    | true =>
      rw [hk] at hf
      rw [← Option.some.inj hf]
      have hxk : x.key = key := by simpa using hk
      have hrest : ∀ e ∈ rest, e.key ≠ key := by
        intro e he hek
        apply hnd.1
        rw [hxk, ← hek]
        exact List.mem_map_of_mem _ he
      rw [foldl_tableSet_other rest _ key hrest, ← hxk]
      exact tableGet_tableSet_same dst x.key x.value
    | false =>
      rw [hk] at hf
      exact ih _ hnd.2 hf

/-- Every binding of the source is a binding of the result of `tableAddAll`. -/
theorem tableAddAll_of_src {src : Table} (dst : Table) {key : Ptr} {value : Value}
    (hwf : src.Wf) (h : tableGet src key = some value) :
    tableGet (tableAddAll src dst) key = some value := by
  unfold tableGet at h
  cases hf : src.entries.find? (fun e => e.key == key) with
  | none => rw [hf] at h; exact Option.noConfusion h
  | some e =>
    rw [hf] at h
    simp only [Option.map_some', Option.some.injEq] at h
    rw [← h]
    exact foldl_tableSet_same src.entries dst key e hwf hf

/-- A key without binding in the source keeps in the result of `tableAddAll`
what the destination had for it. -/
theorem tableAddAll_of_dst (src dst : Table) {key : Ptr} (h : tableGet src key = none) :
    tableGet (tableAddAll src dst) key = tableGet dst key := by
  apply foldl_tableSet_other
  intro e he hek
  have hany : src.entries.any (fun e => e.key == key) = true := by
    rw [List.any_eq_true]
    exact ⟨e, he, by simpa using hek⟩
  rw [tableGet_none_iff.1 h] at hany
  exact Bool.noConfusion hany

theorem deref_storeBody (vm : VM) (p q : Ptr) (body : ObjBody) :
    ({ vm with objects := storeBody p body vm.objects } : VM).deref q
      = (vm.deref q).map (fun o => if o.addr = p then { o with body := body } else o) := by
  unfold VM.deref storeBody
  simp only []
  rw [List.find?_map]
  have hfun : ((fun o : Obj => o.addr == q) ∘
      fun o : Obj => if o.addr = p then { o with body := body } else o)
      = fun o : Obj => o.addr == q := by
    funext o
    simp only [Function.comp]
    split <;> rfl
  rw [hfun]

theorem bodyAt_storeBody_same {vm : VM} {p : Ptr} {old : ObjBody} (body : ObjBody)
    (h : vm.bodyAt p = some old) :
    ({ vm with objects := storeBody p body vm.objects } : VM).bodyAt p = some body := by
  unfold VM.bodyAt at *
  rw [deref_storeBody]
  cases hd : vm.deref p with
  | none => rw [hd] at h; exact Option.noConfusion h
  | some o =>
    simp only [Option.map_some', deref_addr hd, if_true]

theorem bodyAt_storeBody_other (vm : VM) {p q : Ptr} (body : ObjBody) (hne : q ≠ p) :
    ({ vm with objects := storeBody p body vm.objects } : VM).bodyAt q = vm.bodyAt q := by
  unfold VM.bodyAt
  rw [deref_storeBody]
  cases hd : vm.deref q with
  | none => rfl
  | some o =>
    have ha : ¬ o.addr = p := by
      rw [deref_addr hd]
      exact hne
    simp only [Option.map_some', if_neg ha]

/-! ## Interned strings -/

theorem tableGet_isSome_of_mem {table : Table} {e : Entry} (h : e ∈ table.entries) :
    (tableGet table e.key).isSome = true := by
  unfold tableGet
  cases hf : table.entries.find? (fun x => x.key == e.key) with
  | some x => rfl
  | none =>
    rw [List.find?_eq_none] at hf
    exact absurd (by simp) (hf e h)

/-- A hit of `tableFindString` is a key of the table and a string with the
bytes asked for. -/
theorem tableFindString_hit {vm : VM} {table : Table} {chars : List Nat} {hash : Nat}
    (h : tableFindString vm table chars hash ≠ NULL) :
    vm.stringAt (tableFindString vm table chars hash) = some chars ∧
      (tableGet table (tableFindString vm table chars hash)).isSome = true := by
  generalize hres : tableFindString vm table chars hash = res at h ⊢
  unfold tableFindString at hres
  split at hres
  · rename_i e hf
    subst hres
    have hp := List.find?_some hf
    have hm := List.mem_of_find?_eq_some hf
    refine ⟨?_, tableGet_isSome_of_mem hm⟩
    split at hp
    · rename_i o hd
      simp only [decide_eq_true_eq] at hp
      exact stringAt_of_bodyAt ((bodyAt_eq_some hd).trans (congrArg some hp))
    · exact Bool.noConfusion hp
  · exact absurd hres.symm h

/-- What `takeString` returns is a string with the bytes given that is a key
of the intern set. -/
theorem takeString_spec (env : Env) (vm : VM) (chars : List Nat) :
    (takeString env vm chars).2.stringAt (takeString env vm chars).1 = some chars ∧
      (tableGet (takeString env vm chars).2.strings (takeString env vm chars).1).isSome
        = true := by
  unfold takeString
  simp only []
  split
  · rename_i h
    exact tableFindString_hit h
  · unfold allocateString
    simp only []
    obtain ⟨_, _, hd, _⟩ := allocateObject_deref env vm (env.sizeofObj .OBJ_STRING)
      (.ObjString chars (env.hashString chars))
    constructor
    · exact stringAt_of_bodyAt (bodyAt_eq_some hd)
    · rw [tableGet_tableSet_same]
      rfl

/-- The steps `pop(); pop(); push(value)` on a stack with two slots on top. -/
theorem replaceTopTwo (vm : VM) (value : Value)
    (h : 0 ≤ vm.stackTop - 1 - 1 ∧ vm.stackTop - 1 < vm.stack.length) :
    ∃ x y vm1 vm2 vm3, pop vm = some (x, vm1) ∧ pop vm1 = some (y, vm2) ∧
      push vm2 value = some vm3 ∧
      vm3.stack = vm.stack.set (vm.stackTop - 2).toNat value ∧
      vm3.stackTop = vm.stackTop - 1 ∧ vm3.objects = vm.objects ∧ vm3.strings = vm.strings ∧
      peek vm3 0 = some value := by
  obtain ⟨x, hpop1, _⟩ := pop_of_range vm (by omega)
  obtain ⟨y, hpop2, _⟩ := pop_of_range { vm with stackTop := vm.stackTop - 1 }
    (by
      show 1 ≤ vm.stackTop - 1 ∧ vm.stackTop - 1 ≤ (vm.stack.length : Int)
      omega)
  have hpush := push_of_range
    { ({ vm with stackTop := vm.stackTop - 1 } : VM) with stackTop := vm.stackTop - 1 - 1 } value
    (by
      show 0 ≤ vm.stackTop - 1 - 1 ∧ vm.stackTop - 1 - 1 < (vm.stack.length : Int)
      omega)
  have e2 : vm.stackTop - 1 - 1 = vm.stackTop - 2 := by omega
  refine ⟨x, y, _, _, _, hpop1, hpop2, hpush, ?_, ?_, rfl, rfl, ?_⟩
  · show vm.stack.set (vm.stackTop - 1 - 1).toNat value = _
    rw [e2]
  · show vm.stackTop - 1 - 1 + 1 = vm.stackTop - 1
    omega
  · unfold peek
    show readSlot { vm with stack := vm.stack.set (vm.stackTop - 1 - 1).toNat value }
      (vm.stackTop - 1 - 1 + 1 - 1 - 0) = some value
    have e3 : vm.stackTop - 1 - 1 + 1 - 1 - 0 = vm.stackTop - 1 - 1 := by omega
    rw [e3]
    exact readSlot_set vm vm.stack (vm.stackTop - 1 - 1) value (by omega)

/-! ## Claim on `captureUpvalue` -/

theorem sorted_insert {ps rs : List Int} {slot : Int}
    (hs : (ps ++ rs).Pairwise (fun a b => a > b)) (hps : ∀ i ∈ ps, i > slot)
    (hrs : ∀ i, rs.head? = some i → i < slot) :
    (ps ++ slot :: rs).Pairwise (fun a b => a > b) := by
  obtain ⟨h1, h2, h3⟩ := List.pairwise_append.mp hs
  have hbelow := below_of_sorted h2 hrs
  refine List.pairwise_append.mpr ⟨h1, List.pairwise_cons.mpr ⟨fun j hj => hbelow j hj, h2⟩, ?_⟩
  intro a ha b hb
  rcases List.mem_cons.mp hb with e | e
  · rw [e]; exact hps a ha
  · exact h3 a ha b e

/-- The function `captureUpvalue` on a chain in strictly descending order of
slots: the upvalue of the slot is returned if the chain has one, and a new
one is linked in its place in the order otherwise. -/
theorem captureUpvalue_insert (env : Env) (vm : VM) (slot : Int) (slots : List Int)
    (hopen : OpenAt vm vm.openUpvalues slots) (hsorted : slots.Pairwise (fun a b => a > b))
    (hnull : ∀ u ∈ vm.openUpvalues, u ≠ NULL) :
    ∃ (u : Ptr) (vm' : VM) (slots' : List Int),
      captureUpvalue env vm slot = some (u, vm') ∧
      vm'.locationAt u = some (.stack slot) ∧ u ∈ vm'.openUpvalues ∧
      OpenAt vm' vm'.openUpvalues slots' ∧ slots'.Pairwise (fun a b => a > b) ∧
      (slot ∈ slots → vm' = vm ∧ slots' = slots ∧ u ∈ vm.openUpvalues) ∧
      (slot ∉ slots → u ∉ vm.openUpvalues ∧
        (∀ q ∈ vm.openUpvalues, vm'.locationAt q = vm.locationAt q) ∧
        ∃ (passed rest : List Ptr) (ps rs : List Int),
          vm.openUpvalues = passed ++ rest ∧ vm'.openUpvalues = passed ++ u :: rest ∧
          slots = ps ++ rs ∧ slots' = ps ++ slot :: rs ∧
          (∀ i ∈ ps, i > slot) ∧ (∀ i ∈ rs, i < slot)) := by
  obtain ⟨passed, rest, ps, rs, he, hl, hs, hp, hr, hps, hrs⟩ :=
    captureWalk_spec vm slot vm.openUpvalues slots hopen
  have hrsorted : rs.Pairwise (fun a b => a > b) := by
    rw [hs] at hsorted
    exact (List.pairwise_append.mp hsorted).2.1
  -- the case where the search has missed
  have hmiss : (∀ i, rs.head? = some i → i < slot) →
      captureUpvalue env vm slot = some (linkUpvalue env vm slot passed rest) →
      ∃ (u : Ptr) (vm' : VM) (slots' : List Int),
      captureUpvalue env vm slot = some (u, vm') ∧
      vm'.locationAt u = some (.stack slot) ∧ u ∈ vm'.openUpvalues ∧
      OpenAt vm' vm'.openUpvalues slots' ∧ slots'.Pairwise (fun a b => a > b) ∧
      (slot ∈ slots → vm' = vm ∧ slots' = slots ∧ u ∈ vm.openUpvalues) ∧
      (slot ∉ slots → u ∉ vm.openUpvalues ∧
        (∀ q ∈ vm.openUpvalues, vm'.locationAt q = vm.locationAt q) ∧
        ∃ (passed rest : List Ptr) (ps rs : List Int),
          vm.openUpvalues = passed ++ rest ∧ vm'.openUpvalues = passed ++ u :: rest ∧
          slots = ps ++ rs ∧ slots' = ps ++ slot :: rs ∧
          (∀ i ∈ ps, i > slot) ∧ (∀ i ∈ rs, i < slot)) := by
    intro hlt hcap
    obtain ⟨h1, h2, h3, h4, h5⟩ := linkUpvalue_spec env vm slot passed rest ps rs hl hp hr hnull
    have hbelow := below_of_sorted hrsorted hlt
    have hnot : slot ∉ slots := by
      rw [hs]
      intro hmem
      rcases List.mem_append.mp hmem with h | h
      · have := hps slot h
        omega
      · have := hbelow slot h
        omega
    refine ⟨(linkUpvalue env vm slot passed rest).1, (linkUpvalue env vm slot passed rest).2,
      ps ++ slot :: rs, hcap, h1, ?_, ?_, ?_, fun h => absurd h hnot, fun _ => ⟨h3, ?_, ?_⟩⟩
    · rw [h2]
      simp
    · rw [h2]
      exact h5
    · exact sorted_insert (hs ▸ hsorted) hps hlt
    · intro q hq
      exact locationAt_of_bodyAt (h4 q hq)
    · exact ⟨passed, rest, ps, rs, hl, h2, hs, rfl, hps, hbelow⟩
  unfold captureUpvalue at hmiss ⊢
  rw [he] at hmiss ⊢
  simp only [] at hmiss ⊢
  cases hrest : rest with
  | nil =>
    subst hrest
    cases hr
    exact hmiss (fun _ h => by simp at h) rfl
  | cons u us =>
    subst hrest
    cases hr with
    | @cons _ i _ is hu hus =>
      simp only [] at hmiss ⊢
      by_cases hfound : vm.locationAt u = some (.stack slot)
      · rw [if_pos hfound]
        have hi : i = slot := by
          rw [hu] at hfound
          simpa using hfound
        have hmem : u ∈ vm.openUpvalues := by
          rw [hl]
          simp
        refine ⟨u, vm, slots, rfl, hfound, hmem, hopen, hsorted,
          fun _ => ⟨rfl, rfl, hmem⟩, fun hnot => absurd ?_ hnot⟩
        rw [hs, ← hi]
        simp
      · rw [if_neg hfound] at hmiss ⊢
        apply hmiss _ rfl
        intro j hj
        simp only [List.head?_cons, Option.some.injEq] at hj
        have h1 := hrs i rfl
        have h2 : i ≠ slot := by
          intro e
          apply hfound
          rw [hu, e]
        omega

/-- C11: on an open-upvalue list sorted by strictly descending stack location
(so no two entries on one slot; none of its nodes being the null pointer),
`captureUpvalue(local)` returns an upvalue of the resulting list whose
location is `local` and leaves the list sorted strictly descending: if the
slot was already in the list the state is unchanged, nothing is allocated and
the upvalue returned is the one of the list; otherwise the upvalue is new, it
is inserted between the upvalues above the slot and those below it, and the
other entries keep their order and their locations. -/
theorem captureUpvalue_sorted (env : Env) (vm : VM) (slot : Int) (slots : List Int)
    (hopen : OpenAt vm vm.openUpvalues slots) (hsorted : slots.Pairwise (fun a b => a > b))
    (hnull : ∀ u ∈ vm.openUpvalues, u ≠ NULL) :
    ∃ (u : Ptr) (vm' : VM) (slots' : List Int),
      captureUpvalue env vm slot = some (u, vm') ∧
      vm'.locationAt u = some (.stack slot) ∧ u ∈ vm'.openUpvalues ∧
      OpenAt vm' vm'.openUpvalues slots' ∧ slots'.Pairwise (fun a b => a > b) ∧
      (slot ∈ slots → vm' = vm ∧ slots' = slots ∧ u ∈ vm.openUpvalues) ∧
      (slot ∉ slots → u ∉ vm.openUpvalues ∧
        (∀ q ∈ vm.openUpvalues, vm'.locationAt q = vm.locationAt q) ∧
        ∃ (passed rest : List Ptr) (ps rs : List Int),
          vm.openUpvalues = passed ++ rest ∧ vm'.openUpvalues = passed ++ u :: rest ∧
          slots = ps ++ rs ∧ slots' = ps ++ slot :: rs ∧
          (∀ i ∈ ps, i > slot) ∧ (∀ i ∈ rs, i < slot)) :=
  captureUpvalue_insert env vm slot slots hopen hsorted hnull

/-- Witness of C11 on `returningVM`, whose open list is `[11, 12]` on the slots
`3, 1`: capturing slot 3 returns the upvalue at 11 and changes nothing;
capturing slot 2 links a new upvalue, at address 13, between the two. -/
theorem captureUpvalue_sorted_witness :
    (OpenAt returningVM returningVM.openUpvalues [3, 1] ∧
      ([3, 1] : List Int).Pairwise (fun a b => a > b) ∧
      ∀ u ∈ returningVM.openUpvalues, u ≠ NULL) ∧
    captureUpvalue sampleEnv returningVM 3 = some (11, returningVM) ∧
    (captureUpvalue sampleEnv returningVM 2).map (fun r => (r.1, r.2.openUpvalues))
      = some (13, [11, 13, 12]) ∧
    ∃ (u : Ptr) (vm' : VM) (slots' : List Int),
      captureUpvalue sampleEnv returningVM 2 = some (u, vm') ∧
      vm'.locationAt u = some (.stack 2) ∧ u ∈ vm'.openUpvalues ∧
      OpenAt vm' vm'.openUpvalues slots' ∧ slots'.Pairwise (fun a b => a > b) ∧
      ((2 : Int) ∈ ([3, 1] : List Int) →
        vm' = returningVM ∧ slots' = [3, 1] ∧ u ∈ returningVM.openUpvalues) ∧
      ((2 : Int) ∉ ([3, 1] : List Int) → u ∉ returningVM.openUpvalues ∧
        (∀ q ∈ returningVM.openUpvalues, vm'.locationAt q = returningVM.locationAt q) ∧
        ∃ (passed rest : List Ptr) (ps rs : List Int),
          returningVM.openUpvalues = passed ++ rest ∧
          vm'.openUpvalues = passed ++ u :: rest ∧
          ([3, 1] : List Int) = ps ++ rs ∧ slots' = ps ++ 2 :: rs ∧
          (∀ i ∈ ps, i > 2) ∧ (∀ i ∈ rs, i < 2)) :=
  ⟨⟨returningVM_open, by decide, by decide⟩, by decide, by decide,
    captureUpvalue_sorted sampleEnv returningVM 2 [3, 1] returningVM_open (by decide)
      (by decide)⟩

/-! ## The chain of open upvalues in the states the interpreter reaches -/

theorem OpenAt.of_locationAt {a b : VM} {l : List Ptr} {slots : List Int} (h : OpenAt a l slots)
    (hb : ∀ q ∈ l, b.locationAt q = a.locationAt q) : OpenAt b l slots := by
  unfold OpenAt at *
  induction h with
  | nil => exact List.Forall₂.nil
  | cons hu _ ih =>
    refine List.Forall₂.cons ?_ (ih (fun q hq => hb q (List.mem_cons_of_mem _ hq)))
    rw [hb _ (List.mem_cons_self _ _)]
    exact hu

theorem openOK_transfer {vm vm' : VM} (h : OpenOK vm)
    (ht : 0 ≤ vm'.stackTop ∧ vm'.stackTop ≤ vm'.stack.length)
    (hl : vm'.stack.length = vm.stack.length) (ho : vm'.openUpvalues = vm.openUpvalues)
    (hb : ∀ u ∈ vm.openUpvalues, vm'.locationAt u = vm.locationAt u) : OpenOK vm' := by
  obtain ⟨slots, hopen, hsorted, hrange⟩ := h.sorted
  refine ⟨ht, ⟨slots, ?_, hsorted, ?_⟩, ?_⟩
  · rw [ho]
    exact hopen.of_locationAt hb
  · rw [hl]
    exact hrange
  · rw [ho]
    exact h.nonnull

theorem openOK_reset {vm : VM} (ht : vm.stackTop = 0) (ho : vm.openUpvalues = []) :
    OpenOK vm := by
  refine ⟨?_, ⟨[], ?_, List.Pairwise.nil, ?_⟩, ?_⟩
  · rw [ht]
    exact ⟨le_refl _, Int.ofNat_nonneg _⟩
  · rw [ho]
    exact List.Forall₂.nil
  · intro i hi
    exact absurd hi (List.not_mem_nil i)
  · intro u hu
    rw [ho] at hu
    exact absurd hu (List.not_mem_nil u)

theorem openOK_runtimeError (vm : VM) (format : String) (args : List FmtArg) :
    OpenOK (runtimeError vm format args) :=
  openOK_reset rfl rfl

theorem readSlot_range {vm : VM} {i : Int} {v : Value} (h : readSlot vm i = some v) :
    0 ≤ i ∧ i < vm.stack.length := by
  unfold readSlot at h
  split at h
  · assumption
  · exact Option.noConfusion h

theorem openOK_push {vm vm' : VM} {v : Value} (h : OpenOK vm) (hc : push vm v = some vm') :
    OpenOK vm' := by
  obtain ⟨hr, e⟩ := push_some hc
  rw [e]
  refine openOK_transfer h ?_ ?_ rfl (fun _ _ => rfl)
  · show 0 ≤ vm.stackTop + 1 ∧ vm.stackTop + 1 ≤ ((vm.stack.set _ _).length : Int)
    rw [List.length_set]
    omega
  · show (vm.stack.set _ _).length = vm.stack.length
    rw [List.length_set]

theorem openOK_pop {vm vm' : VM} {v : Value} (h : OpenOK vm) (hc : pop vm = some (v, vm')) :
    OpenOK vm' := by
  obtain ⟨hr, e⟩ := pop_some hc
  have hrange := readSlot_range hr
  rw [e]
  refine openOK_transfer h ?_ rfl rfl (fun _ _ => rfl)
  show 0 ≤ vm.stackTop - 1 ∧ vm.stackTop - 1 ≤ (vm.stack.length : Int)
  omega

theorem openOK_writeSlot {vm vm' : VM} {i : Int} {v : Value} (h : OpenOK vm)
    (hc : writeSlot vm i v = some vm') : OpenOK vm' := by
  obtain ⟨_, e⟩ := writeSlot_some hc
  rw [e]
  refine openOK_transfer h ?_ ?_ rfl (fun _ _ => rfl)
  · show 0 ≤ vm.stackTop ∧ vm.stackTop ≤ ((vm.stack.set _ _).length : Int)
    rw [List.length_set]
    exact h.top
  · show (vm.stack.set _ _).length = vm.stack.length
    rw [List.length_set]

theorem openOK_call {vm vm' : VM} {closure : Ptr} {argCount : Int} {b : Bool}
    (h : OpenOK vm) (hc : call vm closure argCount = some (b, vm')) : OpenOK vm' := by
  cases b with
  | true =>
    obtain ⟨function, upvalues, _, _, _, _, e⟩ := call_true hc
    rw [e]
    exact openOK_transfer h h.top rfl rfl (fun _ _ => rfl)
  | false =>
    obtain ⟨format, args, e⟩ := call_false hc
    rw [e]
    exact openOK_runtimeError vm format args

theorem locationAt_open {vm : VM} (h : OpenOK vm) {u : Ptr} (hu : u ∈ vm.openUpvalues) :
    ∃ b, vm.bodyAt u = some b := by
  obtain ⟨slots, hopen, _, _⟩ := h.sorted
  obtain ⟨i, _, hloc⟩ := hopen.mem hu
  exact bodyAt_of_locationAt hloc

theorem openOK_allocateObject (env : Env) {vm : VM} (h : OpenOK vm) (size : Nat)
    (body : ObjBody) : OpenOK (allocateObject env vm size body).2 := by
  have hh := allocateObject_heapOnly env vm size body
  refine openOK_transfer h ?_ ?_ hh.roots.2.2.1 ?_
  · rw [hh.stack.1, hh.stack.2]
    exact h.top
  · rw [hh.stack.1]
  · intro u hu
    obtain ⟨b, hb⟩ := locationAt_open h hu
    have := (allocateObject_bodyAt_root env vm size body (mem_rootRefs_of_open hu)
      (h.nonnull u hu) hb).1
    exact locationAt_of_bodyAt (this.trans hb.symm)

theorem openOK_reallocate (env : Env) {vm : VM} (h : OpenOK vm) (oldSize newSize : Nat) :
    OpenOK (reallocate env vm oldSize newSize) := by
  have hh := reallocate_heapOnly env vm oldSize newSize
  refine openOK_transfer h ?_ ?_ hh.roots.2.2.1 ?_
  · rw [hh.stack.1, hh.stack.2]
    exact h.top
  · rw [hh.stack.1]
  · intro u hu
    exact locationAt_of_bodyAt
      (reallocate_bodyAt_root env vm oldSize newSize (mem_rootRefs_of_open hu) (h.nonnull u hu))

theorem openOK_callValue (env : Env) {vm vm' : VM} {callee : Value} {argCount : Int} {b : Bool}
    (h : OpenOK vm) (hc : callValue env vm callee argCount = some (b, vm')) : OpenOK vm' := by
  unfold callValue at hc
  split at hc
  · split at hc
    · exact Option.noConfusion hc
    · split at hc
      · split at hc
        · exact Option.noConfusion hc
        · rename_i hw
          exact openOK_call (openOK_writeSlot h hw) hc
      · simp only [] at hc
        split at hc
        · exact Option.noConfusion hc
        · rename_i vm1 hw
          have h1 : OpenOK vm1 := openOK_writeSlot (openOK_allocateObject env h _ _) hw
          split at hc
          · split at hc
            · exact openOK_call h1 hc
            · exact Option.noConfusion hc
            · split at hc
              · cases hc
                exact openOK_runtimeError _ _ _
              · cases hc
                exact h1
          · exact Option.noConfusion hc
      · exact openOK_call h hc
      · simp only [] at hc
        split at hc
        · rename_i vm1 hp
          cases hc
          obtain ⟨hr, e⟩ := push_some hp
          rw [e]
          refine openOK_transfer h ?_ ?_ rfl (fun _ _ => rfl)
          · show 0 ≤ vm.stackTop - (argCount + 1) + 1 ∧
              vm.stackTop - (argCount + 1) + 1 ≤ ((vm.stack.set _ _).length : Int)
            rw [List.length_set]
            have hr' : 0 ≤ vm.stackTop - (argCount + 1) ∧
              vm.stackTop - (argCount + 1) < (vm.stack.length : Int) := hr
            omega
          · show (vm.stack.set _ _).length = vm.stack.length
            rw [List.length_set]
        · exact Option.noConfusion hc
      · cases hc
        exact openOK_runtimeError _ _ _
  · cases hc
    exact openOK_runtimeError _ _ _

theorem openOK_closeUpvalues {vm vm' : VM} {last : Int} (h : OpenOK vm)
    (hc : closeUpvalues vm last = some vm') : OpenOK vm' := by
  obtain ⟨slots, hopen, hsorted, hrange⟩ := h.sorted
  obtain ⟨closed, kept, objs, he, hl, hf, ho, hd⟩ :=
    closeLoop_sorted last vm.openUpvalues slots vm hopen hsorted (fun i hi _ => hrange i hi)
  unfold closeUpvalues at hc
  rw [he] at hc
  cases hc
  refine ⟨h.top, ⟨slots.filter (fun i => decide (i < last)), ho, ?_, ?_⟩, ?_⟩
  · exact hsorted.sublist (List.filter_sublist _)
  · intro i hi
    exact hrange i (List.mem_filter.1 hi).1
  · intro u hu
    have hu' : u ∈ kept := hu
    apply h.nonnull
    rw [hl]
    exact List.mem_append_right _ hu'

theorem openOK_opReturn {vm vm' : VM} {f : Flow} (h : OpenOK vm)
    (hc : opReturn vm = some (f, vm')) : OpenOK vm' := by
  unfold opReturn at hc
  split at hc
  · exact Option.noConfusion hc
  · split at hc
    · exact Option.noConfusion hc
    · split at hc
      · exact Option.noConfusion hc
      · rename_i frame _ _ result vm1 hp
        split at hc
        · exact Option.noConfusion hc
        · rename_i vm2 hcl
          have h2 : OpenOK vm2 := openOK_closeUpvalues (openOK_pop h hp) hcl
          have h3 : OpenOK { vm2 with frameCount := vm2.frameCount - 1 } :=
            openOK_transfer h2 h2.top rfl rfl (fun _ _ => rfl)
          simp only [] at hc
          split at hc
          · split at hc
            · rename_i hp2
              cases hc
              exact openOK_pop h3 hp2
            · exact Option.noConfusion hc
          · split at hc
            · rename_i vm4 hp2
              cases hc
              obtain ⟨hr, e⟩ := push_some hp2
              rw [e]
              refine openOK_transfer h2 ?_ ?_ rfl (fun _ _ => rfl)
              · show 0 ≤ frame.slots + 1 ∧
                  frame.slots + 1 ≤ ((vm2.stack.set _ _).length : Int)
                rw [List.length_set]
                have hr' : 0 ≤ frame.slots ∧ frame.slots < (vm2.stack.length : Int) := hr
                omega
              · show (vm2.stack.set _ _).length = vm2.stack.length
                rw [List.length_set]
            · exact Option.noConfusion hc

/-- The upvalue `captureUpvalue` returns is one of the chain, the state being
unchanged, or the one a call of `linkUpvalue` has created. -/
theorem captureUpvalue_cases (env : Env) {vm vm' : VM} {slot : Int} {u : Ptr}
    (h : captureUpvalue env vm slot = some (u, vm')) :
    (vm' = vm ∧ u ∈ vm.openUpvalues) ∨
      ∃ passed rest, (u, vm') = linkUpvalue env vm slot passed rest := by
  unfold captureUpvalue at h
  split at h
  · exact Option.noConfusion h
  · rename_i passed rest hw
    split at h
    · cases h
      exact Or.inr ⟨_, _, rfl⟩
    · split at h
      · rename_i u' us hfound
        cases h
        refine Or.inl ⟨rfl, ?_⟩
        have hmem : ∀ (l : List Ptr) (p r : List Ptr), captureWalk vm slot l = some (p, r) →
            ∀ q ∈ r, q ∈ l := by
          intro l
          induction l with
          | nil =>
            intro p r hq q hqr
            unfold captureWalk at hq
            cases hq
            exact hqr
          | cons a l ih =>
            intro p r hq q hqr
            unfold captureWalk at hq
            split at hq
            · split at hq
              · split at hq
                · rename_i r' hr'
                  cases hq
                  exact List.mem_cons_of_mem _ (ih _ _ hr' q hqr)
                · exact Option.noConfusion hq
              · cases hq
                exact hqr
            · exact Option.noConfusion hq
        exact hmem _ _ _ hw u (List.mem_cons_self _ _)
      · cases h
        exact Or.inr ⟨_, _, rfl⟩

theorem linkUpvalue_stack (env : Env) (vm : VM) (slot : Int) (passed rest : List Ptr) :
    (linkUpvalue env vm slot passed rest).2.stack = vm.stack ∧
      (linkUpvalue env vm slot passed rest).2.stackTop = vm.stackTop ∧
      (linkUpvalue env vm slot passed rest).1 ≠ NULL :=
  ⟨(allocateObject_heapOnly env vm (env.sizeofObj .OBJ_UPVALUE)
      (.ObjUpvalue (.stack slot) .nil)).stack.1,
    (allocateObject_heapOnly env vm (env.sizeofObj .OBJ_UPVALUE)
      (.ObjUpvalue (.stack slot) .nil)).stack.2,
    (allocateObject_deref env vm (env.sizeofObj .OBJ_UPVALUE)
      (.ObjUpvalue (.stack slot) .nil)).1⟩

theorem openOK_captureUpvalue (env : Env) {vm vm' : VM} {slot : Int} {u : Ptr}
    (h : OpenOK vm) (h0 : 0 ≤ slot) (h1 : slot < vm.stack.length)
    (hc : captureUpvalue env vm slot = some (u, vm')) : OpenOK vm' := by
  obtain ⟨slots, hopen, hsorted, hrange⟩ := h.sorted
  obtain ⟨u', vm'', slots', hcap, _, _, hopen', hsorted', hin, hnotin⟩ :=
    captureUpvalue_insert env vm slot slots hopen hsorted h.nonnull
  rw [hc] at hcap
  simp only [Option.some.injEq, Prod.mk.injEq] at hcap
  obtain ⟨hu, hvm⟩ := hcap
  subst hu hvm
  by_cases hmem : slot ∈ slots
  · obtain ⟨e, _, _⟩ := hin hmem
    rw [e]
    exact h
  · rcases captureUpvalue_cases env hc with ⟨e, _⟩ | ⟨passed, rest, e⟩
    · rw [e]
      exact h
    · obtain ⟨hnew, _, passed', rest', ps, rs, hl, hl', hs, hs', _, _⟩ := hnotin hmem
      have hu : u = (linkUpvalue env vm slot passed rest).1 := congrArg Prod.fst e
      have hvm : vm' = (linkUpvalue env vm slot passed rest).2 := congrArg Prod.snd e
      obtain ⟨hst, htop, hne⟩ := linkUpvalue_stack env vm slot passed rest
      rw [← hvm] at hst htop
      rw [← hu] at hne
      refine ⟨?_, ⟨slots', hopen', hsorted', ?_⟩, ?_⟩
      · rw [hst, htop]
        exact h.top
      · intro i hi
        rw [hst]
        rw [hs'] at hi
        rcases List.mem_append.1 hi with hi | hi
        · exact hrange i (by rw [hs]; exact List.mem_append_left _ hi)
        · rcases List.mem_cons.1 hi with rfl | hi
          · exact ⟨h0, h1⟩
          · exact hrange i (by rw [hs]; exact List.mem_append_right _ hi)
      · intro q hq
        rw [hl'] at hq
        rcases List.mem_append.1 hq with hq | hq
        · exact h.nonnull q (by rw [hl]; exact List.mem_append_left _ hq)
        · rcases List.mem_cons.1 hq with rfl | hq
          · exact hne
          · exact h.nonnull q (by rw [hl]; exact List.mem_append_right _ hq)

/-- Every state the interpreter reaches has the stack pointer within the
stack array and the chain of open upvalues in strictly descending order of
slots of the array. -/
theorem StackReach.openOK {env : Env} {vm : VM} (h : StackReach env vm) : OpenOK vm := by
  induction h with
  | resetStack ht ho => exact openOK_reset ht ho
  | push _ hc ih => exact openOK_push ih hc
  | pop _ hc ih => exact openOK_pop ih hc
  | call _ hc ih => exact openOK_call ih hc
  | callValue _ hc ih => exact openOK_callValue env ih hc
  | opReturn _ hc ih => exact openOK_opReturn ih hc
  | closeUpvalues _ hc ih => exact openOK_closeUpvalues ih hc
  | captureUpvalue _ h0 h1 hc ih => exact openOK_captureUpvalue env ih h0 h1 hc
  | reallocate _ ih => exact openOK_reallocate env ih _ _
  | other _ ht hl ho hb ih =>
    refine openOK_transfer ih ?_ hl ho hb
    rw [ht, hl]
    exact ih.top

theorem finishingVM_reach : StackReach sampleEnv finishingVM :=
  have s0 : StackReach sampleEnv (resetStack sampleVM) := StackReach.resetStack rfl rfl
  have s1 : StackReach sampleEnv idleVM :=
    StackReach.push s0 (by decide : push (resetStack sampleVM) (.obj 3) = some idleVM)
  have s2 : StackReach sampleEnv sampleVM :=
    StackReach.call s1 (by decide : call idleVM 3 0 = some (true, sampleVM))
  StackReach.push s2 (by decide : push sampleVM (.number 40) = some finishingVM)

theorem nestedVM_reach : StackReach sampleEnv nestedVM :=
  have s0 : StackReach sampleEnv (resetStack sampleVM) := StackReach.resetStack rfl rfl
  have s1 : StackReach sampleEnv idleVM :=
    StackReach.push s0 (by decide : push (resetStack sampleVM) (.obj 3) = some idleVM)
  have s2 : StackReach sampleEnv sampleVM :=
    StackReach.call s1 (by decide : call idleVM 3 0 = some (true, sampleVM))
  have s3 := StackReach.push s2 (by decide : push sampleVM (.number 10) = some
    { sampleVM with
      stack := [.obj 3, .number 10, .nil, .nil, .nil, .nil, .nil, .nil], stackTop := 2 })
  have s4 := StackReach.captureUpvalue s3 (by decide) (by decide)
    (by decide : captureUpvalue sampleEnv
      { sampleVM with
        stack := [.obj 3, .number 10, .nil, .nil, .nil, .nil, .nil, .nil], stackTop := 2 } 1
      = some (6,
        { nestedVM with
          frames := sampleVM.frames, frameCount := 1
          stack := [.obj 3, .number 10, .nil, .nil, .nil, .nil, .nil, .nil], stackTop := 2
          openUpvalues := [6], bytesAllocated := 340, objects := nestedVM.objects.tail }))
  have s5 := StackReach.push s4 (by decide : push _ (.obj 3) = some
    { nestedVM with
      frames := sampleVM.frames, frameCount := 1
      stack := [.obj 3, .number 10, .obj 3, .nil, .nil, .nil, .nil, .nil], stackTop := 3
      openUpvalues := [6], bytesAllocated := 340, objects := nestedVM.objects.tail })
  have s6 := StackReach.call s5 (by decide : call _ 3 0 = some (true,
    { nestedVM with
      stack := [.obj 3, .number 10, .obj 3, .nil, .nil, .nil, .nil, .nil], stackTop := 3
      openUpvalues := [6], bytesAllocated := 340, objects := nestedVM.objects.tail }))
  have s7 := StackReach.push s6 (by decide : push _ (.number 30) = some
    { nestedVM with
      stack := [.obj 3, .number 10, .obj 3, .number 30, .nil, .nil, .nil, .nil], stackTop := 4
      openUpvalues := [6], bytesAllocated := 340, objects := nestedVM.objects.tail })
  have s8 := StackReach.captureUpvalue s7 (by decide) (by decide)
    (by decide : captureUpvalue sampleEnv _ 3 = some (7,
      { nestedVM with
        stack := [.obj 3, .number 10, .obj 3, .number 30, .nil, .nil, .nil, .nil]
        stackTop := 4 }))
  StackReach.push s8 (by decide : push _ (.number 40) = some nestedVM)

/-- C9: in every state the interpreter reaches, with `frame` the current
frame: when `frameCount ≥ 2` and the window of the frame is not empty,
`OP_RETURN` decrements `frameCount`, sets `stackTop` to the base of the
returning frame plus one, leaves the value that was on top of the stack in the
slot at that base and all slots below the base unchanged, and leaves no
upvalue in the open list whose location is at or above that base: every
upvalue left is open on a slot below it; with `frameCount = 1` it sets
`frameCount` to 0, pops the return value and one further value, and `run`
returns `INTERPRET_OK`. -/
theorem opReturn_frame (env : Env) (vm : VM) (frame : CallFrame)
    (hreach : StackReach env vm)
    (hframe : vm.frames.get? (vm.frameCount - 1) = some frame) :
    (2 ≤ vm.frameCount → 0 ≤ frame.slots → frame.slots < vm.stackTop →
      ∃ (vm' : VM) (result : Value), opReturn vm = some (.next, vm') ∧
        readSlot vm (vm.stackTop - 1) = some result ∧
        vm'.frameCount = vm.frameCount - 1 ∧ vm'.stackTop = frame.slots + 1 ∧
        readSlot vm' frame.slots = some result ∧
        (∀ j : Nat, (j : Int) < frame.slots → vm'.stack.get? j = vm.stack.get? j) ∧
        (∀ u ∈ vm'.openUpvalues, ∃ i, vm'.locationAt u = some (.stack i) ∧ i < frame.slots)) ∧
    (vm.frameCount = 1 → 2 ≤ vm.stackTop →
      ∃ vm' : VM, opReturn vm = some (.ret .INTERPRET_OK, vm') ∧ vm'.frameCount = 0 ∧
        vm'.stackTop = vm.stackTop - 2 ∧ vm'.stack = vm.stack) := by
  have h := hreach.openOK
  obtain ⟨slots, hopen, hsorted, hrange⟩ := h.sorted
  have hs := opReturn_spec vm frame slots hframe hopen (hopen.nodup_of_sorted hsorted)
    (fun i hi _ => hrange i hi) h.top.2
  refine ⟨fun a b c => ?_, hs.2⟩
  obtain ⟨vm', result, h1, h2, h3, h4, h5, h6, h7⟩ := hs.1 a b c
  exact ⟨vm', result, h1, h2, h3, h4, h5, h6, h7 hsorted⟩

/-- Witness of C9: `OP_RETURN` in `nestedVM`, reached through `push`, `call`
and `captureUpvalue`, closes the upvalue at 7 (slot 3), keeps the one at 6
(slot 1) and leaves frame 1 with the value 40 in slot 2; in `finishingVM` it
ends the run. -/
theorem opReturn_frame_witness :
    (StackReach sampleEnv nestedVM ∧
      nestedVM.frames.get? (nestedVM.frameCount - 1)
        = some { closure := 3, ip := { function := 2, offset := 0 }, slots := 2 } ∧
      2 ≤ nestedVM.frameCount ∧ (2 : Int) < nestedVM.stackTop) ∧
    (opReturn nestedVM).map (fun r => (r.1, r.2.frameCount, r.2.stackTop, r.2.openUpvalues))
      = some (.next, 1, 3, [6]) ∧
    (opReturn nestedVM).map (fun r => (r.2.stack, r.2.locationAt 6, r.2.locationAt 7))
      = some ([.obj 3, .number 10, .number 40, .number 30, .number 40, .nil, .nil, .nil],
          some (.stack 1), some (.closedOf 7)) ∧
    (∃ (vm' : VM) (result : Value), opReturn nestedVM = some (.next, vm') ∧
      readSlot nestedVM (nestedVM.stackTop - 1) = some result ∧
      vm'.frameCount = nestedVM.frameCount - 1 ∧ vm'.stackTop = (2 : Int) + 1 ∧
      readSlot vm' 2 = some result ∧
      (∀ j : Nat, (j : Int) < 2 → vm'.stack.get? j = nestedVM.stack.get? j) ∧
      (∀ u ∈ vm'.openUpvalues, ∃ i, vm'.locationAt u = some (.stack i) ∧ i < 2)) ∧
    (StackReach sampleEnv finishingVM ∧
      ∃ vm' : VM, opReturn finishingVM = some (.ret .INTERPRET_OK, vm') ∧ vm'.frameCount = 0 ∧
        vm'.stackTop = finishingVM.stackTop - 2 ∧ vm'.stack = finishingVM.stack) :=
  ⟨⟨nestedVM_reach, by decide, by decide, by decide⟩, by decide, by decide,
    (opReturn_frame sampleEnv nestedVM
      { closure := 3, ip := { function := 2, offset := 0 }, slots := 2 }
      nestedVM_reach (by decide)).1 (by decide) (by decide) (by decide),
    finishingVM_reach,
    (opReturn_frame sampleEnv finishingVM
      { closure := 3, ip := { function := 2, offset := 0 }, slots := 0 }
      finishingVM_reach (by decide)).2 (by decide) (by decide)⟩

/-! ## The error exits of `run` -/

theorem binaryOp_error {vm : VM} {a b : Value} (op : Nat → Nat → Value)
    (hb : peek vm 0 = some b) (ha : peek vm 1 = some a)
    (hn : ¬ (a.isNumber = true ∧ b.isNumber = true)) :
    binaryOp vm op
      = some (.ret .INTERPRET_RUNTIME_ERROR, runtimeError vm "Operands must be numbers." []) := by
  unfold binaryOp
  rw [hb]
  cases b with
  | number y =>
    simp only []
    rw [ha]
    cases a with
    | number x => exact absurd ⟨rfl, rfl⟩ hn
    | nil => rfl
    | bool _ => rfl
    | obj _ => rfl
  | nil => rfl
  | bool _ => rfl
  | obj _ => rfl

theorem opAdd_error (env : Env) {vm : VM} {a b : Value} {aIsString bIsString : Bool}
    (hb : peek vm 0 = some b) (ha : peek vm 1 = some a)
    (hbs : isObjType vm b .OBJ_STRING = some bIsString)
    (has : isObjType vm a .OBJ_STRING = some aIsString)
    (hs : ¬ (aIsString = true ∧ bIsString = true))
    (hn : ¬ (a.isNumber = true ∧ b.isNumber = true)) :
    opAdd env vm = some (.ret .INTERPRET_RUNTIME_ERROR,
      runtimeError vm "Operands must be two numbers or two strings." []) := by
  have hsel : aIsString = false ∨ bIsString = false := by
    cases aIsString with
    | false => exact Or.inl rfl
    | true =>
      cases bIsString with
      | false => exact Or.inr rfl
      | true => exact absurd ⟨rfl, rfl⟩ hs
  unfold opAdd
  rw [hb]
  simp only []
  rw [hbs]
  simp only []
  rw [ha]
  simp only []
  rw [has]
  have hboth : (if bIsString = true then some aIsString else some false) = some false := by
    rcases hsel with rfl | rfl
    · cases bIsString <;> rfl
    · rfl
  rw [hboth]
  simp only []
  cases b with
  | number y =>
    cases a with
    | number x => exact absurd ⟨rfl, rfl⟩ hn
    | nil => rfl
    | bool _ => rfl
    | obj _ => rfl
  | nil => rfl
  | bool _ => rfl
  | obj _ => rfl

theorem opNegate_error (env : Env) {vm : VM} {a : Value}
    (ha : peek vm 0 = some a) (hn : a.isNumber = false) :
    opNegate env vm
      = some (.ret .INTERPRET_RUNTIME_ERROR, runtimeError vm "Operand must be a number." []) := by
  unfold opNegate
  rw [ha]
  cases a with
  | number x => exact Bool.noConfusion hn
  | nil => rfl
  | bool _ => rfl
  | obj _ => rfl

theorem opGetGlobal_error {vm : VM} {name : Ptr} {chars : List Nat}
    (hg : tableGet vm.globals name = none) (hs : vm.stringAt name = some chars) :
    opGetGlobal vm name = some (.ret .INTERPRET_RUNTIME_ERROR,
      runtimeError vm "Undefined variable '%s'" [.str chars]) := by
  unfold opGetGlobal
  rw [hg]
  simp only []
  rw [hs]

theorem opSetGlobal_error {vm : VM} {name : Ptr} {chars : List Nat} {value : Value}
    (hp : peek vm 0 = some value) (hg : tableGet vm.globals name = none)
    (hs : vm.stringAt name = some chars) :
    opSetGlobal vm name = some (.ret .INTERPRET_RUNTIME_ERROR,
      runtimeError { vm with globals := (tableDelete (tableSet vm.globals name value).2 name).2 }
        "Undefined variable '%s'." [.str chars]) := by
  unfold opSetGlobal
  rw [hp]
  simp only []
  rw [if_pos ((tableSet_isNew vm.globals name value).2 hg)]
  have hs1 : ({ vm with globals := (tableDelete (tableSet vm.globals name value).2 name).2 } :
      VM).stringAt name = some chars := hs
  rw [hs1]

theorem opGetProperty_error (env : Env) {vm : VM} (name : Ptr) {receiver : Value}
    (hp : peek vm 0 = some receiver)
    (ht : isObjType vm receiver .OBJ_INSTANCE = some false) :
    opGetProperty env vm name = some (.ret .INTERPRET_RUNTIME_ERROR,
      runtimeError vm "Only instances have properties." []) := by
  unfold opGetProperty
  rw [hp]
  simp only []
  rw [ht]

theorem opSetProperty_error {vm : VM} (name : Ptr) {receiver : Value}
    (hp : peek vm 1 = some receiver)
    (ht : isObjType vm receiver .OBJ_INSTANCE = some false) :
    opSetProperty vm name = some (.ret .INTERPRET_RUNTIME_ERROR,
      runtimeError vm "Only instances have fields." []) := by
  unfold opSetProperty
  rw [hp]
  simp only []
  rw [ht]

theorem opCall_error (env : Env) {vm vm1 : VM} {argCount : Int} {callee : Value}
    (hp : peek vm argCount = some callee)
    (hc : callValue env vm callee argCount = some (false, vm1)) :
    opCall env vm argCount = some (.ret .INTERPRET_RUNTIME_ERROR, vm1) := by
  unfold opCall
  rw [hp]
  simp only []
  rw [hc]

theorem opInherit_error {vm : VM} {superclass : Value}
    (hp : peek vm 1 = some superclass)
    (ht : isObjType vm superclass .OBJ_CLASS = some false) :
    opInherit vm = some (.ret .INTERPRET_RUNTIME_ERROR,
      runtimeError vm "Superclass must be a class." []) := by
  unfold opInherit
  rw [hp]
  simp only []
  rw [ht]

/-- On a miss in the method table the function `bindMethod` reports and
returns false. -/
theorem bindMethod_miss (env : Env) {vm : VM} {cls name className : Ptr} {methods : Table}
    {chars : List Nat} (hc : vm.classAt cls = some (className, methods))
    (hm : tableGet methods name = none) (hs : vm.stringAt name = some chars) :
    bindMethod env vm cls name
      = some (false, runtimeError vm "Undefined property '%s'." [.str chars]) := by
  unfold bindMethod
  rw [hc]
  simp only []
  rw [hm]
  simp only []
  rw [hs]

theorem opGetProperty_undefined (env : Env) {vm : VM} {name p cls className : Ptr}
    {fields methods : Table} {chars : List Nat}
    (hp : peek vm 0 = some (.obj p)) (hi : vm.instanceAt p = some (cls, fields))
    (hf : tableGet fields name = none) (hc : vm.classAt cls = some (className, methods))
    (hm : tableGet methods name = none) (hs : vm.stringAt name = some chars) :
    opGetProperty env vm name = some (.ret .INTERPRET_RUNTIME_ERROR,
      runtimeError vm "Undefined property '%s'." [.str chars]) := by
  have ht : isObjType vm (.obj p) .OBJ_INSTANCE = some true := by
    rw [isObjType_of_bodyAt (instanceAt_iff_bodyAt.1 hi)]
    rfl
  unfold opGetProperty
  rw [hp]
  simp only []
  rw [ht]
  simp only []
  rw [hi]
  simp only []
  rw [hf]
  simp only []
  rw [bindMethod_miss env hc hm hs]

theorem opGetSuper_error (env : Env) {vm vm1 : VM} {name superclass className : Ptr}
    {methods : Table} {chars : List Nat}
    (hp : pop vm = some (.obj superclass, vm1))
    (hc : vm1.classAt superclass = some (className, methods))
    (hm : tableGet methods name = none) (hs : vm1.stringAt name = some chars) :
    opGetSuper env vm name = some (.ret .INTERPRET_RUNTIME_ERROR,
      runtimeError vm1 "Undefined property '%s'." [.str chars]) := by
  unfold opGetSuper
  rw [hp]
  simp only []
  rw [bindMethod_miss env hc hm hs]

/-- Every case of `run` that reports an operand type error, an undefined
global on get or set, a property access on a value that is no instance, a
property that is neither a field nor a method, a failed call or a superclass
that is no class returns `INTERPRET_RUNTIME_ERROR` in a state with one more
message on stderr, the operand stack empty (`stackTop` at the stack base),
`frameCount = 0` and no open upvalue.  The two reports after which `invoke`
and `invokeFromClass` do not return are not among them. -/
theorem run_error_resets (env : Env) (vm : VM) (c : FailingCase)
    (h : RaisesError env vm c) :
    ∃ vm', runCase env vm c = some (.ret .INTERPRET_RUNTIME_ERROR, vm') ∧
      (∃ d : Diag, vm'.stderr = vm.stderr ++ [d]) ∧
      vm'.stackTop = 0 ∧ vm'.frameCount = 0 ∧ vm'.openUpvalues = [] := by
  cases h with
  | binary hc hb ha hn =>
    simp only [binaryCases, List.mem_cons, List.mem_singleton, List.not_mem_nil, or_false] at hc
    rcases hc with rfl | rfl | rfl | rfl | rfl <;>
      exact ⟨_, binaryOp_error _ hb ha hn, runtimeError_reported vm _ _⟩
  | add hb ha hbs has hs hn =>
    exact ⟨_, opAdd_error env hb ha hbs has hs hn, runtimeError_reported vm _ _⟩
  | negate ha hn => exact ⟨_, opNegate_error env ha hn, runtimeError_reported vm _ _⟩
  | getGlobal hg hs => exact ⟨_, opGetGlobal_error hg hs, runtimeError_reported vm _ _⟩
  | setGlobal hp hg hs =>
    exact ⟨_, opSetGlobal_error hp hg hs, (runtimeError_reported _ _ _).of_stderr rfl⟩
  | getProperty hp ht =>
    exact ⟨_, opGetProperty_error env _ hp ht, runtimeError_reported vm _ _⟩
  | setProperty hp ht => exact ⟨_, opSetProperty_error _ hp ht, runtimeError_reported vm _ _⟩
  | undefinedProperty hp hi hf hc hm hs =>
    exact ⟨_, opGetProperty_undefined env hp hi hf hc hm hs, runtimeError_reported vm _ _⟩
  | getSuper hp hc hm hs =>
    exact ⟨_, opGetSuper_error env hp hc hm hs,
      (runtimeError_reported _ _ _).of_stderr (pop_stderr hp)⟩
  | @call argCount callee vm1 hp hc =>
    have ho := callValue_outcome env hc
    rcases ho with ⟨hb, _⟩ | ⟨_, hr⟩
    · exact Bool.noConfusion hb
    · exact ⟨vm1, opCall_error env hp hc, hr⟩
  | @invoke name argCount vm1 hi =>
    have ho := invoke_outcome env hi
    rcases ho with ⟨hb, _⟩ | ⟨_, hr⟩
    · exact Bool.noConfusion hb
    · refine ⟨vm1, ?_, hr⟩
      show opInvoke env vm name argCount = _
      unfold opInvoke
      rw [hi]
  | @superInvoke name superclass argCount vm1 vm2 hp hi =>
    have ho := invokeFromClass_outcome hi
    rcases ho with ⟨hb, _⟩ | ⟨_, hr⟩
    · exact Bool.noConfusion hb
    · refine ⟨vm2, ?_, hr.of_stderr (pop_stderr hp)⟩
      show opSuperInvoke vm name argCount = _
      unfold opSuperInvoke
      rw [hp]
      simp only []
      rw [hi]
  | inherit hp ht => exact ⟨_, opInherit_error hp ht, runtimeError_reported vm _ _⟩

theorem run_error_resets_witness :
    RaisesError sampleEnv (classVM [.number 1, .obj 4]) .OP_ADD ∧
      ∃ vm', runCase sampleEnv (classVM [.number 1, .obj 4]) .OP_ADD
          = some (.ret .INTERPRET_RUNTIME_ERROR, vm') ∧
        (∃ d : Diag, vm'.stderr = (classVM [.number 1, .obj 4]).stderr ++ [d]) ∧
        vm'.stackTop = 0 ∧ vm'.frameCount = 0 ∧ vm'.openUpvalues = [] :=
  have h : RaisesError sampleEnv (classVM [.number 1, .obj 4]) .OP_ADD :=
    @RaisesError.add sampleEnv (classVM [.number 1, .obj 4]) (.number 1) (.obj 4) false true
      (by decide) (by decide) (by decide) (by decide) (by decide) (by decide)
  ⟨h, run_error_resets sampleEnv (classVM [.number 1, .obj 4]) .OP_ADD h⟩

/-- C12: two paths of `run` report through `runtimeError` and do not return
`INTERPRET_RUNTIME_ERROR`.  `OP_INVOKE` on a receiver that is no instance
(state `classVM [.number 1]`), `OP_INVOKE` on an instance that has neither a
field nor a method of the name (state `classVM [.obj 12]`, name `init`) and
`OP_SUPER_INVOKE` on a superclass without the method (state
`classVM [.obj 12, .obj 11]`) have no result: after the report `invoke` and
`invokeFromClass` go on.  On the same states `OP_GET_PROPERTY` and
`OP_GET_SUPER` report, reset both stacks and the open upvalues, and
return `INTERPRET_RUNTIME_ERROR`. -/
theorem run_error_falls_through :
    runCase sampleEnv (classVM [.number 1]) (.OP_INVOKE 7 0) = none ∧
    runCase sampleEnv (classVM [.obj 12]) (.OP_INVOKE 6 0) = none ∧
    runCase sampleEnv (classVM [.obj 12, .obj 11]) (.OP_SUPER_INVOKE 7 0) = none ∧
    (runtimeError (classVM [.number 1]) "Only instances have methods." []).stackTop = 0 ∧
    (runCase sampleEnv (classVM [.number 1]) (.OP_GET_PROPERTY 7)).map
        (fun r => (r.1, r.2.stackTop, r.2.frameCount, r.2.openUpvalues))
      = some (.ret .INTERPRET_RUNTIME_ERROR, 0, 0, []) ∧
    (runCase sampleEnv (classVM [.obj 12]) (.OP_GET_PROPERTY 6)).map
        (fun r => (r.1, r.2.stackTop, r.2.frameCount, r.2.openUpvalues))
      = some (.ret .INTERPRET_RUNTIME_ERROR, 0, 0, []) ∧
    (runCase sampleEnv (classVM [.obj 12, .obj 11]) (.OP_GET_SUPER 7)).map
        (fun r => (r.1, r.2.stackTop, r.2.frameCount, r.2.openUpvalues))
      = some (.ret .INTERPRET_RUNTIME_ERROR, 0, 0, []) :=
  ⟨by decide, by decide, by decide, by decide, by decide, by decide, by decide⟩

/-! ## `OP_THROW` -/

theorem takeString_stack (env : Env) (vm : VM) (chars : List Nat) :
    (takeString env vm chars).2.stackTop = vm.stackTop ∧
      (takeString env vm chars).2.frameCount = vm.frameCount :=
  ⟨(takeString_heapOnly env vm chars).stack.2, (takeString_heapOnly env vm chars).frames.2⟩

theorem getStackTrace_stack (env : Env) {vm vm' : VM} {trace : Ptr}
    (h : getStackTrace env vm = some (trace, vm')) :
    vm'.stackTop = vm.stackTop ∧ vm'.frameCount = vm.frameCount := by
  unfold getStackTrace at h
  simp only [] at h
  split at h
  · split at h
    · exact Option.noConfusion h
    · split at h
      · simp only [Option.some.injEq] at h
        have h1 := reallocate_heapOnly env vm 0 ((1 * (vm.frameCount * MAX_LINE_LENGTH)) % SIZE_MOD)
        have h2 := reallocate_heapOnly env
          (reallocate env vm 0 ((1 * (vm.frameCount * MAX_LINE_LENGTH)) % SIZE_MOD))
          ((1 * (vm.frameCount * MAX_LINE_LENGTH)) % SIZE_MOD)
        rename_i text _ _
        have h3 := takeString_heapOnly env (reallocate env
          (reallocate env vm 0 ((1 * (vm.frameCount * MAX_LINE_LENGTH)) % SIZE_MOD))
          ((1 * (vm.frameCount * MAX_LINE_LENGTH)) % SIZE_MOD) ((1 * text.length) % SIZE_MOD)) text
        have h4 := (h1.andThen (h2 _)).andThen h3
        rw [h] at h4
        exact ⟨h4.stack.2, h4.frames.2⟩
      · exact Option.noConfusion h
  · exact Option.noConfusion h

theorem propagateException_stack (env : Env) {vm vm' : VM}
    (h : propagateException env vm = some vm') :
    vm'.stackTop = vm.stackTop ∧ vm'.frameCount = vm.frameCount := by
  unfold propagateException at h
  split at h
  · split at h
    · exact Option.noConfusion h
    · split at h
      · exact Option.noConfusion h
      · split at h
        · exact Option.noConfusion h
        · simp only [] at h
          rename_i nameChars _
          have hc := copyString_heapOnly env
            { vm with stderr := vm.stderr ++
              [{ format := "Unhandled %s\n", args := [.str nameChars] }] } stacktraceChars
          split at h
          · exact Option.noConfusion h
          · split at h
            · cases h
              exact ⟨hc.stack.2, hc.frames.2⟩
            · split at h
              · exact Option.noConfusion h
              · cases h
                exact ⟨hc.stack.2, hc.frames.2⟩
            · exact Option.noConfusion h
  · exact Option.noConfusion h

/-- Whatever the state, `OP_THROW` returns with both stacks as they were. -/
theorem opThrow_stack (env : Env) {vm vm' : VM} {f : Flow}
    (h : opThrow env vm = some (f, vm')) :
    f = .ret .INTERPRET_RUNTIME_ERROR ∧ vm'.stackTop = vm.stackTop ∧
      vm'.frameCount = vm.frameCount := by
  unfold opThrow at h
  split at h
  · exact Option.noConfusion h
  · rename_i trace vm1 hg
    have h1 := getStackTrace_stack env hg
    split at h
    · simp only [] at h
      have hc := copyString_heapOnly env vm1 stacktraceChars
      split at h
      · exact Option.noConfusion h
      · split at h
        · exact Option.noConfusion h
        · rename_i hp
          have h2 := propagateException_stack env hp
          cases h
          exact ⟨rfl, h2.1.trans (hc.stack.2.trans h1.1), h2.2.trans (hc.frames.2.trans h1.2)⟩
    · exact Option.noConfusion h

/-- C13: at the state `classVM [.obj 12]` (one frame, the script closure and
the instance at 12 on the stack) the case `OP_THROW` returns
`INTERPRET_RUNTIME_ERROR` with `stackTop = 2` and `frameCount = 1`: neither
stack has been reset. -/
theorem opThrow_no_reset :
    (opThrow sampleEnv (classVM [.obj 12])).map
        (fun r => (r.1, r.2.stackTop, r.2.frameCount, r.2.stderr.length))
      = some (.ret .INTERPRET_RUNTIME_ERROR, 2, 1, 2) := by
  decide

/-! ## `invoke` on a receiver that is no instance -/

/-- For a receiver that is no instance the function `invoke` has no result:
after the report it goes on to read the receiver as an instance. -/
theorem invoke_not_instance (env : Env) {vm : VM} (name : Ptr) {argCount : Int}
    {receiver : Value} (hp : peek vm argCount = some receiver)
    (ht : isObjType vm receiver .OBJ_INSTANCE = some false) :
    invoke env vm name argCount = none := by
  unfold invoke
  rw [hp]
  simp only []
  rw [ht]
  simp only [Bool.false_eq_true, if_false]
  cases receiver with
  | obj p =>
    have hi : (runtimeError vm "Only instances have methods." []).instanceAt p = none :=
      instanceAt_of_not_instance ht rfl
    simp only []
    rw [hi]
  | nil => rfl
  | bool _ => rfl
  | number _ => rfl

/-- C14: at the state `classVM [.number 1]`, where the receiver of
`OP_INVOKE` with the name at 7 and no arguments is a number, the function
`invoke` does not return false and `run` does not return
`INTERPRET_RUNTIME_ERROR`: neither has a result, while `OP_GET_PROPERTY` on
the same state reports and returns. -/
theorem invoke_number_receiver :
    invoke sampleEnv (classVM [.number 1]) 7 0 = none ∧
      runCase sampleEnv (classVM [.number 1]) (.OP_INVOKE 7 0) = none ∧
      (runCase sampleEnv (classVM [.number 1]) (.OP_GET_PROPERTY 7)).map (fun r => r.1)
        = some (.ret .INTERPRET_RUNTIME_ERROR) := by
  decide

/-! ## Lookup misses in the method table -/

/-- On a miss in the method table the function `invokeFromClass` has no
result: after the report it goes on to call the closure of a value that was
never assigned. -/
theorem invokeFromClass_miss {vm : VM} {cls name className : Ptr} {methods : Table}
    (argCount : Int) (hc : vm.classAt cls = some (className, methods))
    (hm : tableGet methods name = none) :
    invokeFromClass vm cls name argCount = none := by
  unfold invokeFromClass
  rw [hc]
  simp only []
  rw [hm]
  simp only [Option.isSome_none, Bool.false_eq_true, if_false, unassigned]
  split
  · rename_i hn
    exact Option.noConfusion hn
  · rfl

/-- C15: at the state `classVM [.obj 12]` the class at 11 has no method for
the name at 7; there `invokeFromClass` does not return false, it has no
result, and neither has `OP_SUPER_INVOKE`; the function `bindMethod` returns
false with one message reported and both stacks reset. -/
theorem invokeFromClass_missing_method :
    invokeFromClass (classVM [.obj 12]) 11 7 0 = none ∧
      runCase sampleEnv (classVM [.obj 12, .obj 11]) (.OP_SUPER_INVOKE 7 0) = none ∧
      (bindMethod sampleEnv (classVM [.obj 12]) 11 7).map
          (fun r => (r.1, r.2.stackTop, r.2.frameCount, r.2.stderr.length))
        = some (false, 0, 0, 1) := by
  decide

/-! ## `OP_SET_GLOBAL` -/

theorem opSetGlobal_bound {vm : VM} {name : Ptr} {value old : Value}
    (hp : peek vm 0 = some value) (hg : tableGet vm.globals name = some old) :
    opSetGlobal vm name
      = some (.next, { vm with globals := (tableSet vm.globals name value).2 }) := by
  unfold opSetGlobal
  rw [hp]
  simp only []
  have hnew : ¬ (tableSet vm.globals name value).1 = true := by
    intro h
    rw [(tableSet_isNew vm.globals name value).1 h] at hg
    exact Option.noConfusion hg
  rw [if_neg hnew]

/-- C16: `OP_SET_GLOBAL` with a value on top of the stack acts as a
pre-check for the key would.  If the globals have no binding for the name,
`run` returns `INTERPRET_RUNTIME_ERROR` and afterwards the globals still have
none, every other binding being as before.  If the name is bound, its binding
becomes the value on top of the stack, every other binding is as before, and
the operand stack is unchanged: the value is not popped. -/
theorem opSetGlobal_precheck (vm : VM) (name : Ptr) (value : Value)
    (hp : peek vm 0 = some value) :
    (∀ chars, tableGet vm.globals name = none → vm.stringAt name = some chars →
      ∃ vm', opSetGlobal vm name = some (.ret .INTERPRET_RUNTIME_ERROR, vm') ∧
        tableGet vm'.globals name = none ∧
        ∀ other, other ≠ name → tableGet vm'.globals other = tableGet vm.globals other) ∧
    (∀ old, tableGet vm.globals name = some old →
      ∃ vm', opSetGlobal vm name = some (.next, vm') ∧
        tableGet vm'.globals name = some value ∧
        (∀ other, other ≠ name → tableGet vm'.globals other = tableGet vm.globals other) ∧
        vm'.stack = vm.stack ∧ vm'.stackTop = vm.stackTop) := by
  constructor
  · intro chars hg hs
    refine ⟨_, opSetGlobal_error hp hg hs, ?_, ?_⟩
    · exact tableGet_tableDelete_same _ name
    · intro other hne
      exact (tableGet_tableDelete_other _ hne).trans (tableGet_tableSet_other _ value hne)
  · intro old hg
    refine ⟨_, opSetGlobal_bound hp hg, ?_, ?_, rfl, rfl⟩
    · exact tableGet_tableSet_same _ name value
    · intro other hne
      exact tableGet_tableSet_other _ value hne

theorem opSetGlobal_precheck_witness :
    (∃ vm', opSetGlobal (classVM [.number 5]) 4 = some (.ret .INTERPRET_RUNTIME_ERROR, vm') ∧
        tableGet vm'.globals 4 = none ∧
        ∀ other, other ≠ 4 →
          tableGet vm'.globals other = tableGet (classVM [.number 5]).globals other) ∧
      (∃ vm', opSetGlobal (classVM [.number 5]) 7 = some (.next, vm') ∧
        tableGet vm'.globals 7 = some (.number 5) ∧
        (∀ other, other ≠ 7 →
          tableGet vm'.globals other = tableGet (classVM [.number 5]).globals other) ∧
        vm'.stack = (classVM [.number 5]).stack ∧
        vm'.stackTop = (classVM [.number 5]).stackTop) :=
  ⟨(opSetGlobal_precheck (classVM [.number 5]) 4 (.number 5) (by decide)).1 [104, 105]
      (by decide) (by decide),
    (opSetGlobal_precheck (classVM [.number 5]) 7 (.number 5) (by decide)).2 (.number 1)
      (by decide)⟩

/-! ## `OP_GET_PROPERTY` -/

/-- On a hit in the method table `bindMethod` replaces the top of the stack by
a bound method that it has just allocated. -/
theorem bindMethod_hit (env : Env) {vm : VM} {cls name className method : Ptr}
    {methods : Table} {receiver : Value}
    (hc : vm.classAt cls = some (className, methods))
    (hm : tableGet methods name = some (.obj method))
    (hp : peek vm 0 = some receiver) :
    ∃ vm' bound, bindMethod env vm cls name = some (true, vm') ∧
      vm'.stack = vm.stack.set (vm.stackTop - 1).toNat (.obj bound) ∧
      vm'.stackTop = vm.stackTop ∧
      peek vm' 0 = some (.obj bound) ∧
      vm'.bodyAt bound = some (.ObjBoundMethod receiver method) ∧
      vm'.objects.head? = some
        { addr := bound, isMarked := false, body := .ObjBoundMethod receiver method } := by
  have hr := peek_range hp
  have ho := allocateObject_heapOnly env vm (env.sizeofObj .OBJ_BOUND_METHOD)
    (.ObjBoundMethod receiver method)
  obtain ⟨_, _, hd, _⟩ := allocateObject_deref env vm (env.sizeofObj .OBJ_BOUND_METHOD)
    (.ObjBoundMethod receiver method)
  have hr2 : 0 ≤ (newBoundMethod env vm receiver method).2.stackTop - 1 ∧
      (newBoundMethod env vm receiver method).2.stackTop - 1
        < ((newBoundMethod env vm receiver method).2.stack.length : Int) := by
    unfold newBoundMethod
    rw [ho.stack.1, ho.stack.2]
    omega
  obtain ⟨top, vm1, vm2, hpop, hpush, e, hpk⟩ :=
    replaceTop (newBoundMethod env vm receiver method).2
      (.obj (newBoundMethod env vm receiver method).1) hr2
  refine ⟨vm2, (newBoundMethod env vm receiver method).1, ?_, ?_, ?_, hpk, ?_, ?_⟩
  · unfold bindMethod
    rw [hc]
    simp only []
    rw [hm]
    simp only []
    rw [hp]
    simp only []
    rw [hpop]
    simp only []
    rw [hpush]
  · rw [e]
    show (newBoundMethod env vm receiver method).2.stack.set _ _ = _
    unfold newBoundMethod
    rw [ho.stack.1, ho.stack.2]
  · rw [e]
    exact ho.stack.2
  · rw [e]
    exact bodyAt_eq_some hd
  · rw [e]
    unfold newBoundMethod allocateObject
    rfl

/-- C17: `OP_GET_PROPERTY` with the value `v` on top of the stack.  If `v` is
no instance, `run` returns `INTERPRET_RUNTIME_ERROR`.  If `v` is an instance
with a field of the name, the top slot takes the value of the field, whatever
the methods of the class.  If there is no such field and the class has a
method of the name, the top slot takes a bound method just allocated, whose
receiver is `v` and whose method is that closure.  If there is neither,
`run` returns `INTERPRET_RUNTIME_ERROR`.  In the two cases without error no
other slot changes and the stack depth stays. -/
theorem opGetProperty_cases (env : Env) (vm : VM) (name : Ptr) (v : Value)
    (hp : peek vm 0 = some v) :
    (isObjType vm v .OBJ_INSTANCE = some false →
      ∃ vm', opGetProperty env vm name = some (.ret .INTERPRET_RUNTIME_ERROR, vm')) ∧
    (∀ p cls fields, v = .obj p → vm.instanceAt p = some (cls, fields) →
      (∀ value, tableGet fields name = some value →
        ∃ vm', opGetProperty env vm name = some (.next, vm') ∧
          vm'.stack = vm.stack.set (vm.stackTop - 1).toNat value ∧
          peek vm' 0 = some value ∧ vm'.stackTop = vm.stackTop) ∧
      (∀ className methods, tableGet fields name = none →
        vm.classAt cls = some (className, methods) →
        (∀ method, tableGet methods name = some (.obj method) →
          ∃ vm' bound, opGetProperty env vm name = some (.next, vm') ∧
            vm'.stack = vm.stack.set (vm.stackTop - 1).toNat (.obj bound) ∧
            peek vm' 0 = some (.obj bound) ∧ vm'.stackTop = vm.stackTop ∧
            vm'.bodyAt bound = some (.ObjBoundMethod v method) ∧
            vm'.objects.head? = some
              { addr := bound, isMarked := false, body := .ObjBoundMethod v method }) ∧
        (∀ chars, tableGet methods name = none → vm.stringAt name = some chars →
          ∃ vm', opGetProperty env vm name = some (.ret .INTERPRET_RUNTIME_ERROR, vm')))) := by
  constructor
  · intro ht
    exact ⟨_, opGetProperty_error env name hp ht⟩
  · intro p cls fields hv hi
    subst hv
    have ht : isObjType vm (.obj p) .OBJ_INSTANCE = some true := by
      rw [isObjType_of_bodyAt (instanceAt_iff_bodyAt.1 hi)]
      rfl
    have hstep : ∀ r, (match tableGet fields name with
        | some value =>
          match pop vm with
          | none => none
          | some (_, vm1) =>
            match push vm1 value with
            | none => none
            | some vm2 => some (Flow.next, vm2)
        | none =>
          match bindMethod env vm cls name with
          | none => none
          | some (false, vm1) => some (.ret .INTERPRET_RUNTIME_ERROR, vm1)
          | some (true, vm1) => some (.next, vm1)) = r →
        opGetProperty env vm name = r := by
      intro r hr
      unfold opGetProperty
      rw [hp]
      simp only []
      rw [ht]
      simp only []
      rw [hi]
      exact hr
    constructor
    · intro value hf
      obtain ⟨top, vm1, vm2, hpop, hpush, e, hpk⟩ := replaceTop vm value (by have := peek_range hp; omega)
      refine ⟨vm2, hstep _ ?_, ?_, hpk, ?_⟩
      · rw [hf]
        simp only []
        rw [hpop]
        simp only []
        rw [hpush]
      · rw [e]
      · rw [e]
    · intro className methods hf hc
      constructor
      · intro method hm
        obtain ⟨vm', bound, hb, hs, hst, hpk, hbody, hhead⟩ := bindMethod_hit env hc hm hp
        refine ⟨vm', bound, hstep _ ?_, hs, hpk, hst, hbody, hhead⟩
        rw [hf]
        simp only []
        rw [hb]
      · intro chars hm hs
        refine ⟨runtimeError vm "Undefined property '%s'." [.str chars], hstep _ ?_⟩
        rw [hf]
        simp only []
        rw [bindMethod_miss env hc hm hs]

theorem opGetProperty_cases_witness :
    (∃ vm', opGetProperty sampleEnv (classVM [.obj 12]) 4 = some (.next, vm') ∧
        vm'.stack = (classVM [.obj 12]).stack.set ((classVM [.obj 12]).stackTop - 1).toNat
          (.number 42) ∧
        peek vm' 0 = some (.number 42) ∧ vm'.stackTop = (classVM [.obj 12]).stackTop) ∧
      (∃ vm' bound, opGetProperty sampleEnv (classVM [.obj 12]) 7 = some (.next, vm') ∧
        vm'.stack = (classVM [.obj 12]).stack.set ((classVM [.obj 12]).stackTop - 1).toNat
          (.obj bound) ∧
        peek vm' 0 = some (.obj bound) ∧ vm'.stackTop = (classVM [.obj 12]).stackTop ∧
        vm'.bodyAt bound = some (.ObjBoundMethod (.obj 12) 3) ∧
        vm'.objects.head? = some
          { addr := bound, isMarked := false, body := .ObjBoundMethod (.obj 12) 3 }) ∧
      (∃ vm', opGetProperty sampleEnv (classVM [.obj 12]) 6
        = some (.ret .INTERPRET_RUNTIME_ERROR, vm')) :=
  have h := (opGetProperty_cases sampleEnv (classVM [.obj 12]) 4 (.obj 12) (by decide)).2
    12 10 { entries := [{ key := 4, value := .number 42 }], capacity := 8 } rfl (by decide)
  have h7 := (opGetProperty_cases sampleEnv (classVM [.obj 12]) 7 (.obj 12) (by decide)).2
    12 10 { entries := [{ key := 4, value := .number 42 }], capacity := 8 } rfl (by decide)
  have h6 := (opGetProperty_cases sampleEnv (classVM [.obj 12]) 6 (.obj 12) (by decide)).2
    12 10 { entries := [{ key := 4, value := .number 42 }], capacity := 8 } rfl (by decide)
  ⟨h.1 (.number 42) (by decide),
    (h7.2 8 { entries := [{ key := 7, value := .obj 3 }], capacity := 8 } (by decide)
      (by decide)).1 3 (by decide),
    (h6.2 8 { entries := [{ key := 7, value := .obj 3 }], capacity := 8 } (by decide)
      (by decide)).2 initChars (by decide) (by decide)⟩

/-! ## `OP_INHERIT` and `OP_METHOD` -/

theorem classAt_of_bodyAt_eq {vm vm' : VM} {q : Ptr} (h : vm'.bodyAt q = vm.bodyAt q) :
    vm'.classAt q = vm.classAt q := by
  unfold VM.bodyAt at h
  unfold VM.classAt
  cases hd : vm.deref q with
  | none =>
    rw [hd] at h
    cases hd' : vm'.deref q with
    | none => rfl
    | some o' => rw [hd'] at h; exact Option.noConfusion h
  | some o =>
    rw [hd] at h
    cases hd' : vm'.deref q with
    | none => rw [hd'] at h; exact Option.noConfusion h
    | some o' =>
      rw [hd'] at h
      simp only [Option.map_some', Option.some.injEq] at h
      simp only [h]

theorem pop_storeBody (vm : VM) (p : Ptr) (body : ObjBody)
    (h : 1 ≤ vm.stackTop ∧ vm.stackTop ≤ vm.stack.length) :
    ∃ top, pop { vm with objects := storeBody p body vm.objects }
      = some (top, { vm with
          objects := storeBody p body vm.objects, stackTop := vm.stackTop - 1 }) := by
  obtain ⟨top, hpop, _⟩ := pop_of_range { vm with objects := storeBody p body vm.objects } h
  exact ⟨top, hpop⟩

theorem peek_after_pop (vm : VM) (objects : List Obj) :
    peek { vm with objects := objects, stackTop := vm.stackTop - 1 } 0 = peek vm 1 := by
  unfold peek readSlot
  have e : vm.stackTop - 1 - 1 - 0 = vm.stackTop - 1 - 1 := by omega
  show (if 0 ≤ vm.stackTop - 1 - 1 - 0 ∧ vm.stackTop - 1 - 1 - 0 < (vm.stack.length : Int) then
      vm.stack.get? (vm.stackTop - 1 - 1 - 0).toNat else none) = _
  rw [e]

/-- The function `defineMethod` binds the name in the class below the top of
the stack and pops the closure; no other object changes. -/
theorem defineMethod_spec {vm : VM} (name : Ptr) {cls className : Ptr} {methods : Table}
    {method : Value} (h0 : peek vm 0 = some method) (h1 : peek vm 1 = some (.obj cls))
    (hc : vm.classAt cls = some (className, methods)) :
    ∃ vm', defineMethod vm name = some vm' ∧
      vm'.classAt cls = some (className, (tableSet methods name method).2) ∧
      (∀ q, q ≠ cls → vm'.bodyAt q = vm.bodyAt q) ∧
      vm'.stackTop = vm.stackTop - 1 := by
  have hr := peek_range h0
  obtain ⟨top, hpop⟩ := pop_storeBody vm cls
    (.ObjClass className (tableSet methods name method).2) (by omega)
  refine ⟨{ vm with
    objects := storeBody cls (.ObjClass className (tableSet methods name method).2) vm.objects
    stackTop := vm.stackTop - 1 }, ?_, ?_, ?_, ?_⟩
  · unfold defineMethod
    rw [h0, h1]
    simp only []
    rw [hc]
    simp only []
    rw [hpop]
  · rw [classAt_iff_bodyAt]
    exact bodyAt_storeBody_same _ (classAt_iff_bodyAt.1 hc)
  · intro q hq
    exact bodyAt_storeBody_other vm _ hq
  · rfl

/-- C18: `OP_INHERIT` on a stack `[..., superclass, subclass]`.  If the value
below the top is no class, `run` returns `INTERPRET_RUNTIME_ERROR`.
Otherwise every entry of the method table of the superclass is afterwards an
entry of the method table of the subclass, which keeps its other entries; the
method table of the superclass has the bindings it had; exactly the subclass
has been popped, so the superclass is on top.  A later `OP_METHOD` on the
superclass, in any state `later`, leaves the method table of every other class
as it is. -/
theorem opInherit_copies (vm later : VM) (superclass : Value)
    (hp : peek vm 1 = some superclass) :
    (isObjType vm superclass .OBJ_CLASS = some false →
      ∃ vm', opInherit vm = some (.ret .INTERPRET_RUNTIME_ERROR, vm')) ∧
    (∀ sup sub superName subName superMethods subMethods,
      superclass = .obj sup → peek vm 0 = some (.obj sub) →
      vm.classAt sup = some (superName, superMethods) →
      vm.classAt sub = some (subName, subMethods) → superMethods.Wf →
      ∃ vm' superMethods' subMethods', opInherit vm = some (.next, vm') ∧
        vm'.classAt sub = some (subName, subMethods') ∧
        (∀ name closure, tableGet superMethods name = some closure →
          tableGet subMethods' name = some closure) ∧
        (∀ name, tableGet superMethods name = none →
          tableGet subMethods' name = tableGet subMethods name) ∧
        vm'.classAt sup = some (superName, superMethods') ∧
        (∀ name, tableGet superMethods' name = tableGet superMethods name) ∧
        (sub ≠ sup → superMethods' = superMethods) ∧
        vm'.stack = vm.stack ∧ vm'.stackTop = vm.stackTop - 1 ∧
        peek vm' 0 = some (.obj sup)) ∧
    (∀ sup sub name superName superMethods method,
      sub ≠ sup → peek later 0 = some method → peek later 1 = some (.obj sup) →
      later.classAt sup = some (superName, superMethods) →
      ∃ vm', opMethod later name = some (.next, vm') ∧
        vm'.classAt sup = some (superName, (tableSet superMethods name method).2) ∧
        vm'.classAt sub = later.classAt sub) := by
  refine ⟨fun ht => ⟨_, opInherit_error hp ht⟩, ?_, ?_⟩
  · intro sup sub superName subName superMethods subMethods hv h0 hsup hsub hwf
    subst hv
    have hr := peek_range h0
    have ht : isObjType vm (.obj sup) .OBJ_CLASS = some true := by
      rw [isObjType_of_bodyAt (classAt_iff_bodyAt.1 hsup)]
      rfl
    obtain ⟨top, hpop⟩ := pop_storeBody vm sub
      (.ObjClass subName (tableAddAll superMethods subMethods)) (by omega)
    have hrun : opInherit vm = some (.next, { vm with
        objects := storeBody sub (.ObjClass subName (tableAddAll superMethods subMethods))
          vm.objects
        stackTop := vm.stackTop - 1 }) := by
      unfold opInherit
      rw [hp]
      simp only []
      rw [ht]
      simp only []
      rw [h0]
      simp only []
      rw [hsup, hsub]
      simp only []
      rw [hpop]
    have hsub' : ({ vm with
        objects := storeBody sub (.ObjClass subName (tableAddAll superMethods subMethods))
          vm.objects
        stackTop := vm.stackTop - 1 } : VM).classAt sub
        = some (subName, tableAddAll superMethods subMethods) := by
      rw [classAt_iff_bodyAt]
      exact bodyAt_storeBody_same _ (classAt_iff_bodyAt.1 hsub)
    have hpk := (peek_after_pop vm
      (storeBody sub (.ObjClass subName (tableAddAll superMethods subMethods)) vm.objects)).trans hp
    by_cases hss : sub = sup
    · subst hss
      rw [hsup] at hsub
      simp only [Option.some.injEq, Prod.mk.injEq] at hsub
      obtain ⟨rfl, rfl⟩ := hsub
      refine ⟨_, tableAddAll superMethods superMethods, tableAddAll superMethods superMethods,
        hrun, hsub', ?_, ?_, hsub', ?_, fun h => absurd rfl h, rfl, rfl, hpk⟩
      · intro name closure h
        exact tableAddAll_of_src _ hwf h
      · intro name h
        exact tableAddAll_of_dst _ _ h
      · intro name
        cases h : tableGet superMethods name with
        | none => rw [tableAddAll_of_dst _ _ h, h]
        | some closure => exact tableAddAll_of_src _ hwf h
    · have hsup' : ({ vm with
          objects := storeBody sub (.ObjClass subName (tableAddAll superMethods subMethods))
            vm.objects
          stackTop := vm.stackTop - 1 } : VM).classAt sup = some (superName, superMethods) := by
        rw [← hsup]
        apply classAt_of_bodyAt_eq
        exact bodyAt_storeBody_other vm _ (fun e => hss e.symm)
      refine ⟨_, superMethods, tableAddAll superMethods subMethods,
        hrun, hsub', ?_, ?_, hsup', fun _ => rfl, fun _ => rfl, rfl, rfl, hpk⟩
      · intro name closure h
        exact tableAddAll_of_src _ hwf h
      · intro name h
        exact tableAddAll_of_dst _ _ h
  · intro sup sub name superName superMethods method hne h0 h1 hc
    obtain ⟨vm', hd, hcls, hother, _⟩ := defineMethod_spec name h0 h1 hc
    refine ⟨vm', ?_, hcls, classAt_of_bodyAt_eq (hother sub hne)⟩
    unfold opMethod
    rw [hd]

theorem opInherit_copies_witness :
    (∃ vm' superMethods' subMethods',
        opInherit (classVM [.obj 10, .obj 11]) = some (.next, vm') ∧
        vm'.classAt 11 = some (9, subMethods') ∧
        (∀ name closure,
          tableGet { entries := [{ key := 7, value := .obj 3 }], capacity := 8 } name
              = some closure →
            tableGet subMethods' name = some closure) ∧
        (∀ name,
          tableGet { entries := [{ key := 7, value := .obj 3 }], capacity := 8 } name = none →
            tableGet subMethods' name = tableGet emptyTable name) ∧
        vm'.classAt 10 = some (8, superMethods') ∧
        (∀ name, tableGet superMethods' name
          = tableGet { entries := [{ key := 7, value := .obj 3 }], capacity := 8 } name) ∧
        ((11 : Ptr) ≠ 10 →
          superMethods' = { entries := [{ key := 7, value := .obj 3 }], capacity := 8 }) ∧
        vm'.stack = (classVM [.obj 10, .obj 11]).stack ∧
        vm'.stackTop = (classVM [.obj 10, .obj 11]).stackTop - 1 ∧
        peek vm' 0 = some (.obj 10)) ∧
      (∃ vm', opMethod (classVM [.obj 10, .obj 3]) 6 = some (.next, vm') ∧
        vm'.classAt 10 = some (8, (tableSet
          { entries := [{ key := 7, value := .obj 3 }], capacity := 8 } 6 (.obj 3)).2) ∧
        vm'.classAt 11 = (classVM [.obj 10, .obj 3]).classAt 11) :=
  have h := opInherit_copies (classVM [.obj 10, .obj 11]) (classVM [.obj 10, .obj 3]) (.obj 10)
    (by decide)
  ⟨h.2.1 10 11 8 9 { entries := [{ key := 7, value := .obj 3 }], capacity := 8 } emptyTable
      rfl (by decide) (by decide) (by decide) (by unfold Table.Wf; decide),
    h.2.2 10 11 6 8 { entries := [{ key := 7, value := .obj 3 }], capacity := 8 } (.obj 3)
      (by decide) (by decide) (by decide) (by decide)⟩

/-! ## `callValue` on a class -/

theorem deref_of_classAt {vm : VM} {p name : Ptr} {methods : Table}
    (h : vm.classAt p = some (name, methods)) :
    ∃ addr marked, vm.deref p
      = some { addr := addr, isMarked := marked, body := .ObjClass name methods } := by
  unfold VM.classAt at h
  cases hd : vm.deref p with
  | none => rw [hd] at h; exact Option.noConfusion h
  | some o =>
    rw [hd] at h
    obtain ⟨addr, marked, body⟩ := o
    simp only [] at h
    cases body <;> simp only [] at h
    all_goals first
      | exact Option.noConfusion h
      | (simp only [Option.some.injEq, Prod.mk.injEq] at h
         obtain ⟨rfl, rfl⟩ := h
         exact ⟨addr, marked, rfl⟩)

/-- The part of `callValue` on a class up to the lookup of the initializer:
the callee slot takes a new instance, and the class is still there. -/
theorem callValue_class_steps (env : Env) {vm : VM} {cls className : Ptr} {methods : Table}
    {argCount : Int} (hc : vm.classAt cls = some (className, methods))
    (hslot : readSlot vm (vm.stackTop - argCount - 1) = some (.obj cls))
    (harg : 0 ≤ argCount) (hnull : cls ≠ NULL) :
    ∃ inst vm1,
      writeSlot (newInstance env vm cls).2 ((newInstance env vm cls).2.stackTop - argCount - 1)
        (.obj (newInstance env vm cls).1) = some vm1 ∧
      inst = (newInstance env vm cls).1 ∧
      vm1.stack = vm.stack.set (vm.stackTop - argCount - 1).toNat (.obj inst) ∧
      readSlot vm1 (vm.stackTop - argCount - 1) = some (.obj inst) ∧
      vm1.stackTop = vm.stackTop ∧ vm1.frameCount = vm.frameCount ∧
      vm1.frames = vm.frames ∧ vm1.initString = vm.initString ∧
      vm1.bodyAt inst = some (.ObjInstance cls emptyTable) ∧
      vm1.objects.head? = some
        { addr := inst, isMarked := false, body := .ObjInstance cls emptyTable } ∧
      vm1.classAt cls = some (className, methods) := by
  have ho := allocateObject_heapOnly env vm (env.sizeofObj .OBJ_INSTANCE)
    (.ObjInstance cls { entries := [], capacity := 0 })
  obtain ⟨_, _, hd, _⟩ := allocateObject_deref env vm (env.sizeofObj .OBJ_INSTANCE)
    (.ObjInstance cls { entries := [], capacity := 0 })
  have hrange : 0 ≤ vm.stackTop - argCount - 1 ∧
      vm.stackTop - argCount - 1 < (vm.stack.length : Int) := by
    unfold readSlot at hslot
    split at hslot
    · rename_i hr
      exact hr
    · exact Option.noConfusion hslot
  have hroot : cls ∈ rootRefs vm := mem_rootRefs_of_slot hslot (by omega)
  have hkeep := (allocateObject_bodyAt_root env vm (env.sizeofObj .OBJ_INSTANCE)
    (.ObjInstance cls { entries := [], capacity := 0 }) hroot hnull
    (classAt_iff_bodyAt.1 hc)).1
  have hst : (newInstance env vm cls).2.stackTop = vm.stackTop := ho.stack.2
  have hsk : (newInstance env vm cls).2.stack = vm.stack := ho.stack.1
  have hrange2 : 0 ≤ (newInstance env vm cls).2.stackTop - argCount - 1 ∧
      (newInstance env vm cls).2.stackTop - argCount - 1
        < ((newInstance env vm cls).2.stack.length : Int) := by
    rw [hst, hsk]
    exact hrange
  have hw : writeSlot (newInstance env vm cls).2
      ((newInstance env vm cls).2.stackTop - argCount - 1) (.obj (newInstance env vm cls).1)
      = some { (newInstance env vm cls).2 with
          stack := (newInstance env vm cls).2.stack.set
            ((newInstance env vm cls).2.stackTop - argCount - 1).toNat
            (.obj (newInstance env vm cls).1) } := by
    unfold writeSlot
    rw [if_pos hrange2]
  refine ⟨(newInstance env vm cls).1, _, hw, rfl, ?_, ?_, hst, ho.frames.2, ho.frames.1,
    ho.roots.2.1, ?_, ?_, ?_⟩
  · show (newInstance env vm cls).2.stack.set _ _ = _
    rw [hst, hsk]
  · rw [← hst]
    exact readSlot_set _ _ _ _ hrange2
  · exact bodyAt_eq_some hd
  · unfold newInstance allocateObject
    rfl
  · rw [classAt_iff_bodyAt]
    exact hkeep

/-- C19: `callValue` on a class that sits in the callee slot
`stackTop - argCount - 1`.  The slot takes a new instance of the class, with
no fields.  If the method table of the class binds the string `initString` to
a closure, the result is that of `call` of the closure with `argCount`, in
the state with the instance in the slot.  If the table has no such entry,
`callValue` returns true in that state, `frameCount` as before, when
`argCount = 0`, and otherwise false after the report of an arity error. -/
theorem callValue_class (env : Env) (vm : VM) (cls className : Ptr) (methods : Table)
    (argCount : Int) (hc : vm.classAt cls = some (className, methods))
    (hslot : readSlot vm (vm.stackTop - argCount - 1) = some (.obj cls))
    (harg : 0 ≤ argCount) (hnull : cls ≠ NULL) :
    ∃ inst vm1,
      vm1.stack = vm.stack.set (vm.stackTop - argCount - 1).toNat (.obj inst) ∧
      readSlot vm1 (vm.stackTop - argCount - 1) = some (.obj inst) ∧
      vm1.stackTop = vm.stackTop ∧ vm1.frameCount = vm.frameCount ∧
      vm1.frames = vm.frames ∧
      vm1.bodyAt inst = some (.ObjInstance cls emptyTable) ∧
      vm1.objects.head? = some
        { addr := inst, isMarked := false, body := .ObjInstance cls emptyTable } ∧
      (∀ initializer, tableGet methods vm.initString = some (.obj initializer) →
        callValue env vm (.obj cls) argCount = call vm1 initializer argCount) ∧
      (tableGet methods vm.initString = none →
        (argCount = 0 → callValue env vm (.obj cls) argCount = some (true, vm1)) ∧
        (argCount ≠ 0 → callValue env vm (.obj cls) argCount = some (false,
          runtimeError vm1 "Expected 0 arguments but got %d." [.int argCount]))) := by
  obtain ⟨inst, vm1, hw, hinst, hstack, hread, hst, hfc, hfr, hinit, hbody, hhead, hcls⟩ :=
    callValue_class_steps env hc hslot harg hnull
  obtain ⟨addr, marked, hd⟩ := deref_of_classAt hc
  obtain ⟨addr1, marked1, hd1⟩ := deref_of_classAt hcls
  have hrun : callValue env vm (.obj cls) argCount
      = (match tableGet methods vm.initString with
        | some (.obj initializer) => call vm1 initializer argCount
        | some _ => none
        | none =>
          if argCount ≠ 0 then
            some (false, runtimeError vm1 "Expected 0 arguments but got %d." [.int argCount])
          else some (true, vm1)) := by
    unfold callValue
    simp only []
    rw [hd]
    simp only []
    rw [hw]
    simp only []
    rw [hd1]
    simp only []
    rw [hinit]
  refine ⟨inst, vm1, hstack, hread, hst, hfc, hfr, hbody, hhead, ?_, ?_⟩
  · intro initializer hm
    rw [hrun, hm]
  · intro hm
    rw [hrun, hm]
    constructor
    · intro h0
      simp only [h0, ne_eq, not_true_eq_false, if_false]
    · intro h0
      simp only [ne_eq, h0, not_false_eq_true, if_true]

theorem callValue_class_witness :
    (∃ inst vm1, vm1.bodyAt inst = some (.ObjInstance 13 emptyTable) ∧
        readSlot vm1 1 = some (.obj inst) ∧
        callValue sampleEnv (classVM [.obj 13]) (.obj 13) 0 = call vm1 3 0) ∧
      (∃ inst vm1, vm1.bodyAt inst = some (.ObjInstance 11 emptyTable) ∧
        readSlot vm1 1 = some (.obj inst) ∧ vm1.frameCount = 1 ∧
        callValue sampleEnv (classVM [.obj 11]) (.obj 11) 0 = some (true, vm1)) ∧
      (∃ inst vm1, vm1.bodyAt inst = some (.ObjInstance 11 emptyTable) ∧
        readSlot vm1 1 = some (.obj inst) ∧
        callValue sampleEnv (classVM [.obj 11, .nil]) (.obj 11) 1 = some (false,
          runtimeError vm1 "Expected 0 arguments but got %d." [.int 1])) := by
  refine ⟨?_, ?_, ?_⟩
  · obtain ⟨inst, vm1, _, hread, _, _, _, hbody, _, hinit, _⟩ :=
      callValue_class sampleEnv (classVM [.obj 13]) 13 8
        { entries := [{ key := 6, value := .obj 3 }], capacity := 8 } 0
        (by decide) (by decide) (by decide) (by decide)
    exact ⟨inst, vm1, hbody, hread, hinit 3 (by decide)⟩
  · obtain ⟨inst, vm1, _, hread, _, hfc, _, hbody, _, _, hnone⟩ :=
      callValue_class sampleEnv (classVM [.obj 11]) 11 9 emptyTable 0
        (by decide) (by decide) (by decide) (by decide)
    exact ⟨inst, vm1, hbody, hread, hfc, (hnone (by decide)).1 rfl⟩
  · obtain ⟨inst, vm1, _, hread, _, _, _, hbody, _, _, hnone⟩ :=
      callValue_class sampleEnv (classVM [.obj 11, .nil]) 11 9 emptyTable 1
        (by decide) (by decide) (by decide) (by decide)
    exact ⟨inst, vm1, hbody, hread, (hnone (by decide)).2 (by decide)⟩

/-! ## `OP_ADD` -/

/-- The function `concatenate` on two strings that sit on top of the stack. -/
theorem concatenate_spec (env : Env) {vm : VM} {a b : Ptr} {aChars bChars : List Nat}
    (hb : peek vm 0 = some (.obj b)) (ha : peek vm 1 = some (.obj a))
    (hsa : vm.stringAt a = some aChars) (hsb : vm.stringAt b = some bChars)
    (hna : a ≠ NULL) (hnb : b ≠ NULL)
    (hlen : aChars.length + bChars.length + 1 ≤ INT_MAX) :
    ∃ vm' s, concatenate env vm = some vm' ∧
      vm'.stack = vm.stack.set (vm.stackTop - 2).toNat (.obj s) ∧
      vm'.stackTop = vm.stackTop - 1 ∧ peek vm' 0 = some (.obj s) ∧
      vm'.stringAt s = some (aChars ++ bChars) ∧ (tableGet vm'.strings s).isSome = true := by
  have hrb := peek_range hb
  have hra := peek_range ha
  have hroota : a ∈ rootRefs vm := mem_rootRefs_of_slot ha (by omega)
  have hrootb : b ∈ rootRefs vm := mem_rootRefs_of_slot hb (by omega)
  obtain ⟨hashA, hbodyA⟩ := bodyAt_of_stringAt hsa
  obtain ⟨hashB, hbodyB⟩ := bodyAt_of_stringAt hsb
  have hsa1 : (reallocate env vm 0
      ((1 * (aChars.length + bChars.length + 1)) % SIZE_MOD)).stringAt a = some aChars :=
    stringAt_of_bodyAt ((reallocate_bodyAt_root env vm _ _ hroota hna).trans hbodyA)
  have hsb1 : (reallocate env vm 0
      ((1 * (aChars.length + bChars.length + 1)) % SIZE_MOD)).stringAt b = some bChars :=
    stringAt_of_bodyAt ((reallocate_bodyAt_root env vm _ _ hrootb hnb).trans hbodyB)
  have ho := (reallocate_heapOnly env vm 0
    ((1 * (aChars.length + bChars.length + 1)) % SIZE_MOD)).andThen
    (takeString_heapOnly env _ (aChars ++ bChars))
  obtain ⟨hstr, hkey⟩ := takeString_spec env (reallocate env vm 0
    ((1 * (aChars.length + bChars.length + 1)) % SIZE_MOD)) (aChars ++ bChars)
  obtain ⟨x, y, vm1, vm2, vm3, hpop1, hpop2, hpush, hstack, htop, hobjs, hstrs, hpk⟩ :=
    replaceTopTwo (takeString env (reallocate env vm 0
      ((1 * (aChars.length + bChars.length + 1)) % SIZE_MOD)) (aChars ++ bChars)).2
      (.obj (takeString env (reallocate env vm 0
        ((1 * (aChars.length + bChars.length + 1)) % SIZE_MOD)) (aChars ++ bChars)).1)
      (by
        rw [ho.stack.1, ho.stack.2]
        omega)
  refine ⟨vm3, _, ?_, ?_, ?_, hpk, ?_, ?_⟩
  · unfold concatenate
    rw [hb, ha]
    simp only []
    rw [hsa, hsb]
    simp only []
    rw [if_pos hlen, hsa1, hsb1]
    simp only []
    rw [hpop1]
    simp only []
    rw [hpop2]
    simp only []
    rw [hpush]
  · rw [hstack, ho.stack.1, ho.stack.2]
  · rw [htop, ho.stack.2]
  · have e : vm3.stringAt (takeString env (reallocate env vm 0
        ((1 * (aChars.length + bChars.length + 1)) % SIZE_MOD)) (aChars ++ bChars)).1
        = (takeString env (reallocate env vm 0
          ((1 * (aChars.length + bChars.length + 1)) % SIZE_MOD)) (aChars ++ bChars)).2.stringAt
          (takeString env (reallocate env vm 0
            ((1 * (aChars.length + bChars.length + 1)) % SIZE_MOD)) (aChars ++ bChars)).1 := by
      unfold VM.stringAt VM.deref
      rw [hobjs]
    rw [e]
    exact hstr
  · rw [hstrs]
    exact hkey

theorem opAdd_strings (env : Env) {vm : VM} {a b : Value}
    (hb : peek vm 0 = some b) (ha : peek vm 1 = some a)
    (hbs : isObjType vm b .OBJ_STRING = some true)
    (has : isObjType vm a .OBJ_STRING = some true) :
    opAdd env vm = (concatenate env vm).map (fun vm1 => (Flow.next, vm1)) := by
  unfold opAdd
  rw [hb]
  simp only []
  rw [hbs]
  simp only [if_true]
  rw [ha]
  simp only []
  rw [has]
  simp only []
  cases concatenate env vm <;> rfl

theorem opAdd_numbers (env : Env) {vm : VM} {x y : Nat}
    (hb : peek vm 0 = some (.number y)) (ha : peek vm 1 = some (.number x)) :
    ∃ vm', opAdd env vm = some (.next, vm') ∧
      vm'.stack = vm.stack.set (vm.stackTop - 2).toNat (.number (env.numAdd x y)) ∧
      vm'.stackTop = vm.stackTop - 1 ∧ peek vm' 0 = some (.number (env.numAdd x y)) := by
  have hrb := peek_range hb
  have hra := peek_range ha
  obtain ⟨p, q, vm1, vm2, vm3, hpop1, hpop2, hpush, hstack, htop, _, _, hpk⟩ :=
    replaceTopTwo vm (.number (env.numAdd x y)) (by omega)
  refine ⟨vm3, ?_, hstack, htop, hpk⟩
  unfold opAdd
  rw [hb]
  simp only []
  have hty : isObjType vm (.number y) .OBJ_STRING = some false := rfl
  rw [hty]
  simp only [Bool.false_eq_true, if_false]
  rw [ha]
  simp only []
  rw [hpop1]
  simp only []
  rw [hpop2]
  simp only []
  rw [hpush]

theorem isObjType_number (vm : VM) {v : Value} (type : ObjType) (h : v.isNumber = true) :
    isObjType vm v type = some false := by
  cases v with
  | number _ => rfl
  | nil => exact Bool.noConfusion h
  | bool _ => exact Bool.noConfusion h
  | obj _ => exact Bool.noConfusion h

/-- On two strings whose lengths with the terminator exceed `INT_MAX` the case
`OP_ADD` has no result: `concatenate` computes `length` and `length + 1` in
`int`. -/
theorem opAdd_overflow (env : Env) {vm : VM} {a b : Ptr} {aChars bChars : List Nat}
    (hb : peek vm 0 = some (.obj b)) (ha : peek vm 1 = some (.obj a))
    (hsa : vm.stringAt a = some aChars) (hsb : vm.stringAt b = some bChars)
    (hlen : INT_MAX < aChars.length + bChars.length + 1) : opAdd env vm = none := by
  obtain ⟨hashA, hbodyA⟩ := bodyAt_of_stringAt hsa
  obtain ⟨hashB, hbodyB⟩ := bodyAt_of_stringAt hsb
  have hta : isObjType vm (.obj a) .OBJ_STRING = some true := by
    rw [isObjType_of_bodyAt hbodyA]
    rfl
  have htb : isObjType vm (.obj b) .OBJ_STRING = some true := by
    rw [isObjType_of_bodyAt hbodyB]
    rfl
  have hc : concatenate env vm = none := by
    unfold concatenate
    rw [hb, ha]
    simp only []
    rw [hsa, hsb]
    simp only []
    rw [if_neg (by omega)]
  rw [opAdd_strings env hb ha htb hta, hc]
  rfl

/-- Counterexample to C20 as stated: in the state `doubledVM` the two
operands of `OP_ADD` are the same string of `2^30` bytes; both are strings,
so the case calls `concatenate`, where `a->length + b->length` is `2^31`,
which no `int` holds: the case has no result, neither the concatenation nor
a runtime error. -/
theorem opAdd_counterexample :
    peek doubledVM 0 = some (.obj 4) ∧ peek doubledVM 1 = some (.obj 4) ∧
    isObjType doubledVM (.obj 4) .OBJ_STRING = some true ∧
    doubledVM.stringAt 4 = some (List.replicate 1073741824 97) ∧
    (List.replicate 1073741824 97 : List Nat).length = 1073741824 ∧
    INT_MAX < 1073741824 + 1073741824 + 1 ∧
    opAdd sampleEnv doubledVM = none := by
  have hb : peek doubledVM 0 = some (.obj 4) := by decide
  have ha : peek doubledVM 1 = some (.obj 4) := by decide
  have hs : doubledVM.stringAt 4 = some (List.replicate 1073741824 97) := rfl
  have hl : (List.replicate 1073741824 97 : List Nat).length = 1073741824 :=
    List.length_replicate _ _
  refine ⟨hb, ha, rfl, hs, hl, by decide, opAdd_overflow sampleEnv hb ha hs hs ?_⟩
  rw [hl]
  decide

/-- C20, amended with the bound that the `int` length needs: `OP_ADD` with
`b` on top of the stack and `a` below it.  It returns
`INTERPRET_RUNTIME_ERROR` if and only if the two are neither both strings nor
both numbers.  Two numbers are replaced by their sum.  Two strings, whose
lengths with the terminator fit an `int`, are replaced by one string that is a
key of the intern set and holds the bytes of `a` followed by the bytes of `b`.
In both cases the slot below the top takes the result and the stack depth
goes down by one. -/
theorem opAdd_cases (env : Env) (vm : VM) (a b : Value) (aIsString bIsString : Bool)
    (hb : peek vm 0 = some b) (ha : peek vm 1 = some a)
    (hbs : isObjType vm b .OBJ_STRING = some bIsString)
    (has : isObjType vm a .OBJ_STRING = some aIsString) :
    ((∃ vm', opAdd env vm = some (.ret .INTERPRET_RUNTIME_ERROR, vm')) ↔
      ¬ (aIsString = true ∧ bIsString = true) ∧ ¬ (a.isNumber = true ∧ b.isNumber = true)) ∧
    (∀ x y, a = .number x → b = .number y →
      ∃ vm', opAdd env vm = some (.next, vm') ∧
        vm'.stack = vm.stack.set (vm.stackTop - 2).toNat (.number (env.numAdd x y)) ∧
        vm'.stackTop = vm.stackTop - 1 ∧ peek vm' 0 = some (.number (env.numAdd x y))) ∧
    (∀ pa pb aChars bChars, a = .obj pa → b = .obj pb →
      vm.stringAt pa = some aChars → vm.stringAt pb = some bChars →
      pa ≠ NULL → pb ≠ NULL → aChars.length + bChars.length + 1 ≤ INT_MAX →
      ∃ vm' s, opAdd env vm = some (.next, vm') ∧
        vm'.stack = vm.stack.set (vm.stackTop - 2).toNat (.obj s) ∧
        vm'.stackTop = vm.stackTop - 1 ∧ peek vm' 0 = some (.obj s) ∧
        vm'.stringAt s = some (aChars ++ bChars) ∧
        (aChars ++ bChars).length = aChars.length + bChars.length ∧
        (tableGet vm'.strings s).isSome = true) := by
  refine ⟨⟨?_, ?_⟩, ?_, ?_⟩
  · rintro ⟨vm', h⟩
    constructor
    · rintro ⟨rfl, rfl⟩
      rw [opAdd_strings env hb ha hbs has] at h
      cases hc : concatenate env vm with
      | none => rw [hc] at h; exact Option.noConfusion h
      | some vm1 =>
        rw [hc] at h
        simp only [Option.map_some', Option.some.injEq, Prod.mk.injEq] at h
        exact Flow.noConfusion h.1
    · rintro ⟨hna, hnb⟩
      cases a with
      | number x =>
        cases b with
        | number y =>
          obtain ⟨vm2, h2, _⟩ := opAdd_numbers env hb ha
          rw [h2] at h
          simp only [Option.some.injEq, Prod.mk.injEq] at h
          exact Flow.noConfusion h.1
        | nil => exact Bool.noConfusion hnb
        | bool _ => exact Bool.noConfusion hnb
        | obj _ => exact Bool.noConfusion hnb
      | nil => exact Bool.noConfusion hna
      | bool _ => exact Bool.noConfusion hna
      | obj _ => exact Bool.noConfusion hna
  · rintro ⟨hs, hn⟩
    exact ⟨_, opAdd_error env hb ha hbs has hs hn⟩
  · intro x y hx hy
    subst hx hy
    exact opAdd_numbers env hb ha
  · intro pa pb aChars bChars hx hy hsa hsb hna hnb hlen
    subst hx hy
    obtain ⟨hashA, hbodyA⟩ := bodyAt_of_stringAt hsa
    obtain ⟨hashB, hbodyB⟩ := bodyAt_of_stringAt hsb
    have hta : isObjType vm (.obj pa) .OBJ_STRING = some true := by
      rw [isObjType_of_bodyAt hbodyA]
      rfl
    have htb : isObjType vm (.obj pb) .OBJ_STRING = some true := by
      rw [isObjType_of_bodyAt hbodyB]
      rfl
    obtain ⟨vm', s, hc, hstack, htop, hpk, hstr, hkey⟩ :=
      concatenate_spec env hb ha hsa hsb hna hnb hlen
    refine ⟨vm', s, ?_, hstack, htop, hpk, hstr, List.length_append _ _, hkey⟩
    rw [opAdd_strings env hb ha htb hta, hc]
    rfl

theorem opAdd_cases_witness :
    ((∃ vm', opAdd sampleEnv (classVM [.obj 4, .obj 5])
        = some (.ret .INTERPRET_RUNTIME_ERROR, vm')) ↔
      ¬ (true = true ∧ true = true) ∧
        ¬ ((Value.obj 4).isNumber = true ∧ (Value.obj 5).isNumber = true)) ∧
      (∃ vm' s, opAdd sampleEnv (classVM [.obj 4, .obj 5]) = some (.next, vm') ∧
        vm'.stack = (classVM [.obj 4, .obj 5]).stack.set
          ((classVM [.obj 4, .obj 5]).stackTop - 2).toNat (.obj s) ∧
        vm'.stackTop = (classVM [.obj 4, .obj 5]).stackTop - 1 ∧ peek vm' 0 = some (.obj s) ∧
        vm'.stringAt s = some ([104, 105] ++ [120]) ∧
        ([104, 105] ++ [120] : List Nat).length
          = ([104, 105] : List Nat).length + ([120] : List Nat).length ∧
        (tableGet vm'.strings s).isSome = true) ∧
      (∃ vm', opAdd sampleEnv (classVM [.number 2, .number 3]) = some (.next, vm') ∧
        vm'.stack = (classVM [.number 2, .number 3]).stack.set
          ((classVM [.number 2, .number 3]).stackTop - 2).toNat
          (.number (sampleEnv.numAdd 2 3)) ∧
        vm'.stackTop = (classVM [.number 2, .number 3]).stackTop - 1 ∧
        peek vm' 0 = some (.number (sampleEnv.numAdd 2 3))) :=
  have h := opAdd_cases sampleEnv (classVM [.obj 4, .obj 5]) (.obj 4) (.obj 5) true true
    (by decide) (by decide) (by decide) (by decide)
  have hn := opAdd_cases sampleEnv (classVM [.number 2, .number 3]) (.number 2) (.number 3)
    false false (by decide) (by decide) (by decide) (by decide)
  ⟨h.1, h.2.2 4 5 [104, 105] [120] rfl rfl (by decide) (by decide) (by decide) (by decide)
      (by decide),
    hn.2.1 2 3 rfl rfl⟩

/-! ## The gray stack during the mark phase -/

theorem bodyAt_hoist_same {vm : VM} {u : Ptr} {location : Loc} (v : Value) (ups : List Ptr)
    (h : vm.locationAt u = some location) :
    ({ vm with objects := hoist u v vm.objects, openUpvalues := ups } : VM).bodyAt u
      = some (.ObjUpvalue (.closedOf u) v) := by
  unfold VM.locationAt at h
  unfold VM.bodyAt VM.deref at *
  simp only []
  rw [find_hoist]
  cases hf : vm.objects.find? (fun o => o.addr == u) with
  | none => rw [hf] at h; exact Option.noConfusion h
  | some o =>
    have ha : o.addr = u := by
      have := List.find?_some hf
      simpa using this
    simp only [Option.map_some', ha, if_true]

theorem upvalue_of_bodyAt {vm : VM} {u : Ptr} {location : Loc} {closed : Value}
    (h : vm.bodyAt u = some (.ObjUpvalue location closed)) :
    vm.locationAt u = some location ∧ vm.closedAt u = some closed := by
  unfold VM.bodyAt at h
  unfold VM.locationAt VM.closedAt
  cases hd : vm.deref u with
  | none => rw [hd] at h; exact Option.noConfusion h
  | some o =>
    rw [hd] at h
    simp only [Option.map_some', Option.some.injEq] at h
    simp only [h, and_self]

theorem locationAt_unique_slot {vm : VM} {u : Ptr} {i j : Int}
    (h1 : vm.locationAt u = some (.stack i)) (h2 : vm.locationAt u = some (.stack j)) : i = j := by
  rw [h1] at h2
  simp only [Option.some.injEq, Loc.stack.injEq] at h2
  exact h2

/-- The loop of `closeUpvalues` on a sorted chain: every upvalue of the chain
on a slot at or above `last` ends closed over the value of its slot, the stack
is untouched, and what stays open is below `last`. -/
theorem closeLoop_hoists (last : Int) (l : List Ptr) (slots : List Int) (vm : VM)
    (hopen : OpenAt vm l slots) (hsorted : slots.Pairwise (fun a b => a > b))
    (hrange : ∀ i ∈ slots, last ≤ i → 0 ≤ i ∧ i < vm.stack.length) :
    ∃ vm', closeLoop last l vm = some vm' ∧ vm'.stack = vm.stack ∧
      vm'.stackTop = vm.stackTop ∧ vm'.frames = vm.frames ∧ vm'.frameCount = vm.frameCount ∧
      (∀ q, q ∉ l → vm'.deref q = vm.deref q) ∧
      (∀ q ∈ vm'.openUpvalues, ∃ i, vm.locationAt q = some (.stack i) ∧ i < last) ∧
      (∀ u i, u ∈ l → vm.locationAt u = some (.stack i) → last ≤ i →
        ∃ v, readSlot vm i = some v ∧ vm'.bodyAt u = some (.ObjUpvalue (.closedOf u) v)) := by
  induction l generalizing vm slots with
  | nil =>
    cases hopen
    refine ⟨{ vm with openUpvalues := [] }, rfl, rfl, rfl, rfl, rfl, fun _ _ => rfl, ?_, ?_⟩
    · intro q hq
      exact absurd hq (List.not_mem_nil q)
    · intro u i hu
      exact absurd hu (List.not_mem_nil u)
  | cons u0 rest ih =>
    have hnd := List.nodup_cons.mp (hopen.nodup_of_sorted hsorted)
    cases hopen with
    | @cons _ i0 _ is hu0 hrest =>
      have hs' := List.pairwise_cons.mp hsorted
      unfold closeLoop
      rw [hu0]
      simp only []
      by_cases hi : i0 ≥ last
      · rw [if_pos hi]
        obtain ⟨v0, hv0, _⟩ := readSlot_of_range vm i0 (hrange i0 (List.mem_cons_self _ _) hi)
        rw [hv0]
        simp only []
        have hd1 : ∀ q, q ≠ u0 →
            ({ vm with objects := hoist u0 v0 vm.objects, openUpvalues := rest } : VM).deref q
              = vm.deref q := fun q hq => deref_hoist_ne vm u0 v0 rest hq
        have hopen1 : OpenAt { vm with objects := hoist u0 v0 vm.objects, openUpvalues := rest }
            rest is := by
          apply OpenAt.congr hrest
          intro q hq
          exact hd1 q (fun e => hnd.1 (e ▸ hq))
        obtain ⟨vm', he, hstack, htop, hfr, hfc, hout, hkept, hclosed⟩ :=
          ih is { vm with objects := hoist u0 v0 vm.objects, openUpvalues := rest } hopen1 hs'.2
            (fun j hj => hrange j (List.mem_cons_of_mem _ hj))
        refine ⟨vm', he, hstack, htop, hfr, hfc, ?_, ?_, ?_⟩
        · intro q hq
          have hq0 : q ≠ u0 := fun e => hq (e ▸ List.mem_cons_self _ _)
          have hqr : q ∉ rest := fun h => hq (List.mem_cons_of_mem _ h)
          exact (hout q hqr).trans (hd1 q hq0)
        · intro q hq
          obtain ⟨i, hloc, hlt⟩ := hkept q hq
          by_cases hq0 : q = u0
          · exfalso
            subst hq0
            have hb := bodyAt_hoist_same v0 rest hu0
            have hl := (upvalue_of_bodyAt hb).1
            rw [hl] at hloc
            simp only [Option.some.injEq] at hloc
            exact Loc.noConfusion hloc
          · exact ⟨i, (locationAt_congr (hd1 q hq0)).symm.trans hloc, hlt⟩
        · intro u i hu hloc hge
          rcases List.mem_cons.mp hu with e | hur
          · subst e
            have hii := locationAt_unique_slot hloc hu0
            subst hii
            refine ⟨v0, hv0, ?_⟩
            have hb := bodyAt_hoist_same v0 rest hu0
            unfold VM.bodyAt at hb ⊢
            rw [hout u hnd.1]
            exact hb
          · have hne : u ≠ u0 := fun e => hnd.1 (e ▸ hur)
            have hloc1 : ({ vm with objects := hoist u0 v0 vm.objects, openUpvalues := rest } :
                VM).locationAt u = some (.stack i) :=
              (locationAt_congr (hd1 u hne)).trans hloc
            exact hclosed u i hur hloc1 hge
      · rw [if_neg hi]
        have hlt0 : i0 < last := by omega
        have hbelow : ∀ q ∈ u0 :: rest, ∃ i, vm.locationAt q = some (.stack i) ∧ i < last := by
          intro q hq
          rcases List.mem_cons.mp hq with e | hqr
          · subst e
            exact ⟨i0, hu0, hlt0⟩
          · obtain ⟨j, hj, hl⟩ := OpenAt.mem hrest hqr
            have := hs'.1 j hj
            exact ⟨j, hl, by omega⟩
        refine ⟨{ vm with openUpvalues := u0 :: rest }, rfl, rfl, rfl, rfl, rfl,
          fun _ _ => rfl, hbelow, ?_⟩
        intro u i hu hloc hge
        exfalso
        obtain ⟨j, hl, hj⟩ := hbelow u hu
        have := locationAt_unique_slot hloc hl
        omega

/-! ## Claim on the roots held during allocation -/

/-- Both operands of `concatenate` are on the stack, and so among the roots,
in the state in which it allocates the buffer and in the state in which
`takeString` allocates the result. -/
theorem concatenate_operands_rooted (env : Env) {vm : VM} {a b : Ptr} (size : Nat)
    (hb : peek vm 0 = some (.obj b)) (ha : peek vm 1 = some (.obj a)) :
    (a ∈ rootRefs vm ∧ b ∈ rootRefs vm) ∧
      (a ∈ rootRefs (reallocate env vm 0 size) ∧ b ∈ rootRefs (reallocate env vm 0 size)) := by
  have hrb := peek_range hb
  have hra := peek_range ha
  have hroota : a ∈ rootRefs vm := mem_rootRefs_of_slot ha (by omega)
  have hrootb : b ∈ rootRefs vm := mem_rootRefs_of_slot hb (by omega)
  refine ⟨⟨hroota, hrootb⟩, ?_⟩
  rw [(reallocate_heapOnly env vm 0 size).rootRefs]
  exact ⟨hroota, hrootb⟩

/-- C21: at the state `pressedVM` the case `OP_THROW` holds the stack-trace
string that `getStackTrace` has just created, the object at 14, in a local
variable only: the string is among the objects but not among the roots when
`copyString` allocates the key `"stacktrace"`; that allocation runs a
collection, which frees the string, so the pointer that `OP_THROW` stores in
the field table designates no object, and the case has no result. -/
theorem opThrow_trace_unrooted :
    (getStackTrace sampleEnv pressedVM).map (fun r =>
      (r.1, r.2.gcRuns, (r.2.deref r.1).isSome, decide (r.1 ∈ rootRefs r.2)))
      = some (14, 0, true, false) ∧
    (getStackTrace sampleEnv pressedVM).map (fun r =>
      ((copyString sampleEnv r.2 stacktraceChars).2.gcRuns,
        ((copyString sampleEnv r.2 stacktraceChars).2.deref r.1).isSome))
      = some (1, false) ∧
    opThrow sampleEnv pressedVM = none := by
  set_option maxRecDepth 100000 in
  decide

/-! ## Claim on the gray stack -/

theorem peek_push {vm vm' : VM} {value : Value} (h : push vm value = some vm') :
    peek vm' 0 = some value := by
  obtain ⟨hr, e⟩ := push_some h
  rw [e]
  unfold peek
  show readSlot { vm with stack := vm.stack.set vm.stackTop.toNat value }
    (vm.stackTop + 1 - 1 - 0) = some value
  have e1 : vm.stackTop + 1 - 1 - 0 = vm.stackTop := by omega
  rw [e1]
  exact readSlot_set vm vm.stack vm.stackTop value hr

theorem opGetUpvalue_reads {vm : VM} {slot : Nat} {u : Ptr} {value : Value}
    (hu : frameUpvalue vm slot = some u) (hv : readLocation vm u = some value)
    (hr : 0 ≤ vm.stackTop ∧ vm.stackTop < vm.stack.length) :
    ∃ vm', opGetUpvalue vm slot = some (.next, vm') ∧ peek vm' 0 = some value := by
  have hp := push_of_range vm value hr
  refine ⟨_, ?_, peek_push hp⟩
  unfold opGetUpvalue
  rw [hu]
  simp only []
  rw [hv]
  simp only []
  rw [hp]

/-- C23: `closeUpvalues(last)` on a sorted chain of open upvalues whose slots
at or above `last` lie in the stack.  For every upvalue of the chain on a slot
at or above `last`, the read through its location gives afterwards the value
that its stack slot held before, which is what the read gave before; its
field `closed` holds that value; its location designates its own field
`closed`; it has left the chain; and `OP_GET_UPVALUE` on it pushes that
value. -/
theorem closeUpvalues_transparent (vm : VM) (last : Int) (slots : List Int)
    (hopen : OpenAt vm vm.openUpvalues slots) (hsorted : slots.Pairwise (fun a b => a > b))
    (hrange : ∀ i ∈ slots, last ≤ i → 0 ≤ i ∧ i < vm.stack.length) :
    ∃ vm', closeUpvalues vm last = some vm' ∧
      ∀ u i, u ∈ vm.openUpvalues → vm.locationAt u = some (.stack i) → last ≤ i →
        ∃ v, readSlot vm i = some v ∧ readLocation vm u = some v ∧
          readLocation vm' u = some v ∧ vm'.closedAt u = some v ∧
          vm'.locationAt u = some (.closedOf u) ∧ u ∉ vm'.openUpvalues ∧
          (∀ k, frameUpvalue vm' k = some u →
            0 ≤ vm'.stackTop ∧ vm'.stackTop < vm'.stack.length →
            ∃ vm'', opGetUpvalue vm' k = some (.next, vm'') ∧ peek vm'' 0 = some v) := by
  obtain ⟨vm', he, _, _, _, _, _, hkept, hclosed⟩ :=
    closeLoop_hoists last vm.openUpvalues slots vm hopen hsorted hrange
  refine ⟨vm', he, ?_⟩
  intro u i hu hloc hge
  obtain ⟨v, hv, hbody⟩ := hclosed u i hu hloc hge
  obtain ⟨hl', hc'⟩ := upvalue_of_bodyAt hbody
  have hread : readLocation vm u = some v := by
    unfold readLocation
    rw [hloc]
    exact hv
  have hread' : readLocation vm' u = some v := by
    unfold readLocation
    rw [hl']
    exact hc'
  refine ⟨v, hv, hread, hread', hc', hl', ?_, ?_⟩
  · intro hmem
    obtain ⟨j, hlj, hj⟩ := hkept u hmem
    have := locationAt_unique_slot hloc hlj
    omega
  · intro k hk hr
    exact opGetUpvalue_reads hk hread' hr

theorem capturedVM_open : OpenAt capturedVM capturedVM.openUpvalues [3, 1] :=
  List.Forall₂.cons (by decide) (List.Forall₂.cons (by decide) List.Forall₂.nil)

theorem closeUpvalues_transparent_witness :
    (OpenAt capturedVM capturedVM.openUpvalues [3, 1] ∧
      ([3, 1] : List Int).Pairwise (fun a b => a > b) ∧
      ∀ i ∈ ([3, 1] : List Int), (2 : Int) ≤ i → 0 ≤ i ∧ i < capturedVM.stack.length) ∧
    ((11 : Ptr) ∈ capturedVM.openUpvalues ∧ capturedVM.locationAt 11 = some (.stack 3) ∧
      readSlot capturedVM 3 = some (.number 30)) ∧
    (closeUpvalues capturedVM 2).map (fun vm' =>
        (readLocation vm' 11, vm'.locationAt 11, frameUpvalue vm' 0,
          (opGetUpvalue vm' 0).map (fun r => peek r.2 0)))
      = some (some (.number 30), some (.closedOf 11), some 11, some (some (.number 30))) ∧
    ∃ vm', closeUpvalues capturedVM 2 = some vm' ∧
      ∀ u i, u ∈ capturedVM.openUpvalues → capturedVM.locationAt u = some (.stack i) → 2 ≤ i →
        ∃ v, readSlot capturedVM i = some v ∧ readLocation capturedVM u = some v ∧
          readLocation vm' u = some v ∧ vm'.closedAt u = some v ∧
          vm'.locationAt u = some (.closedOf u) ∧ u ∉ vm'.openUpvalues ∧
          (∀ k, frameUpvalue vm' k = some u →
            0 ≤ vm'.stackTop ∧ vm'.stackTop < vm'.stack.length →
            ∃ vm'', opGetUpvalue vm' k = some (.next, vm'') ∧ peek vm'' 0 = some v) :=
  ⟨⟨capturedVM_open, by decide, by decide⟩, by decide, by decide,
    closeUpvalues_transparent capturedVM 2 [3, 1] capturedVM_open (by decide) (by decide)⟩

/-! ## Claim on the accounting of the stack-trace buffer -/

/-- What the two `reallocate` calls of `getStackTrace` for the buffer add to
`bytesAllocated` when no collection runs and the counter does not wrap: the
bytes written, without a terminator. -/
theorem traceBuffer_accounted (env : Env) (vm : VM) (size written : Nat)
    (hfit : vm.bytesAllocated + size ≤ vm.nextGC) (hsize : vm.bytesAllocated + size < SIZE_MOD)
    (hw : written ≤ size) :
    (reallocate env (reallocate env vm 0 size) size written).bytesAllocated
      = vm.bytesAllocated + written := by
  have h1 : (accountBytes vm 0 size).bytesAllocated = vm.bytesAllocated + size := by
    unfold accountBytes
    show Int.toNat (((vm.bytesAllocated : Int) + (size : Int) - ((0 : Nat) : Int))
      % (SIZE_MOD : Int)) = _
    have : ((vm.bytesAllocated : Int) + (size : Int) - ((0 : Nat) : Int)) % (SIZE_MOD : Int)
        = ((vm.bytesAllocated + size : Nat) : Int) := by
      rw [Int.emod_eq_of_lt] <;> omega
    rw [this]
    exact Int.toNat_natCast _
  have hr1 : reallocate env vm 0 size = accountBytes vm 0 size := by
    unfold reallocate
    simp only []
    split
    · have hng : (accountBytes vm 0 size).nextGC = vm.nextGC := rfl
      rw [h1, hng, if_neg (by omega)]
    · rfl
  have hr2 : reallocate env (accountBytes vm 0 size) size written
      = accountBytes (accountBytes vm 0 size) size written := by
    unfold reallocate
    simp only []
    rw [if_neg (by omega)]
  rw [hr1, hr2]
  unfold accountBytes at h1 ⊢
  simp only [] at h1 ⊢
  rw [h1]
  have : (((vm.bytesAllocated + size : Nat) : Int) + (written : Int) - (size : Int))
      % (SIZE_MOD : Int) = ((vm.bytesAllocated + written : Nat) : Int) := by
    rw [Int.emod_eq_of_lt] <;> omega
  rw [this]
  exact Int.toNat_natCast _

/-- C24: at the state `classVM [.obj 12]`, with 300 bytes accounted and one
frame, `getStackTrace` writes a trace of 4 bytes.  The buffer is accounted
with 512 bytes and then shrunk to the 4 bytes written, so the string it
becomes has added 4 bytes for its buffer and 40 for the object; `freeObject`
on that string subtracts `length + 1 = 5` bytes for the buffer and 40 for the
object, one byte more than was added: the counter ends at 299. -/
theorem getStackTrace_accounting :
    (classVM [.obj 12]).bytesAllocated = 300 ∧
    (reallocate sampleEnv (reallocate sampleEnv (classVM [.obj 12]) 0 512) 512 4).bytesAllocated
      = 300 + 4 ∧
    (getStackTrace sampleEnv (classVM [.obj 12])).map (fun r =>
      (r.2.stringAt r.1, r.2.bytesAllocated, r.2.gcRuns))
      = some (some [91, 1, 102, 10], 300 + 4 + 40, 0) ∧
    (getStackTrace sampleEnv (classVM [.obj 12])).map (fun r =>
      (r.2.deref r.1).map (fun o =>
        ((release r.2 ((1 * (4 + 1)) % SIZE_MOD)).bytesAllocated,
          (freeObject sampleEnv r.2 o).bytesAllocated)))
      = some (some (300 + 4 + 40 - 5, 299)) := by
  decide

/-! ## Claim on the termination of the mark phase -/

end Clox
